import Mathlib

/-! Response-time enrichment of the traffic graph, and the LDAP role-based
access check.

A shallow embedding of `graph/telemetry/istio/appender/response_time.go`:
the merge of Prometheus sample vectors into a response-time map
(`populateResponseTimeMap`, `addResponseTime`), the apply phase
(`applyResponseTime`) and the query driver (`appendGraph`, `AppendGraph`);
and of the package `ldap/ldaprbac`: the role name formats (`adrole.go`) and the
access checker (`rbac.go`, `util.go`).

Go values are modelled as follows.

* `float64` is `Float64`, the IEEE-754 binary64 values with their sign,
  biased exponent and fraction fields; `*` rounds to nearest, ties to even.
* `map[string]V` is its lookup function `String → Option V`; `m[k] = v` is
  `GoMap.set`.  A Go map is finite, the theorems hold for every lookup
  function.  A map the code ranges over is a `FinMap`, the list of its entries.
* slices are lists, a `for ... range` over a slice is a recursion over the list.
* the graph is a value: every node and every edge owns its metadata map, as
  the `graph` package creates them, and a mutation in place is a function from
  the graph before to the graph after.  `range` over the traffic map visits
  the entries in an unspecified order; the loop body of `applyResponseTime`
  touches only the edge it is given, so the order does not show in the result.
* a pointer that may be nil is an `Option`; a panic is the `Except.error`
  result of the function that panics.
* log calls are dropped: they do not change any value.
-/

set_option maxRecDepth 100000

/-! ## float64 -/

/-- Go `float64`: an IEEE-754 binary64 value.  `finite neg exp frac` carries the
sign bit, the biased exponent field (`0 ≤ exp ≤ 2046`) and the 52-bit fraction
field; all NaN payloads are one value. -/
inductive Float64 where
  | nan
  | inf (neg : Bool)
  | finite (neg : Bool) (exp : Nat) (frac : Nat)
  deriving DecidableEq, Repr

namespace Float64

/-- Integer significand of a finite value: the hidden bit is set unless the
exponent field is zero (subnormal). -/
def mantissa (exp frac : Nat) : Nat := if exp = 0 then frac else 2 ^ 52 + frac

/-- Power of two that scales `mantissa`: the value is `mantissa * 2 ^ exponent`. -/
def exponent (exp : Nat) : Int := if exp = 0 then -1074 else (exp : Int) - 1075

def bitLengthAux : Nat → Nat → Nat
  | 0, _ => 0
  | fuel + 1, n => if n = 0 then 0 else bitLengthAux fuel (n / 2) + 1

/-- Number of binary digits of `n` (`0` for `0`). -/
def bitLength (n : Nat) : Nat := bitLengthAux n n

/-- Encode `m * 2 ^ q`, where `m ≤ 2 ^ 53 - 1` is already rounded: subnormal
when the hidden bit is missing, infinite when the exponent overflows. -/
def pack (neg : Bool) (m : Nat) (q : Int) : Float64 :=
  if m < 2 ^ 52 then finite neg 0 m
  else if 2047 ≤ q + 1075 then inf neg
  else finite neg (q + 1075).toNat (m - 2 ^ 52)

/-- Round the exact value `M * 2 ^ e` to binary64, to nearest, ties to even. -/
def round (neg : Bool) (M : Nat) (e : Int) : Float64 :=
  if M = 0 then finite neg 0 0
  else
    let q : Int := max (e + (bitLength M : Int) - 53) (-1074)
    if q ≤ e then pack neg (M * 2 ^ (e - q).toNat) q
    else
      let sh := (q - e).toNat
      let t := M / 2 ^ sh
      let r := M % 2 ^ sh
      let h := 2 ^ (sh - 1)
      let m := if h < r ∨ (r = h ∧ t % 2 = 1) then t + 1 else t
      if m = 2 ^ 53 then pack neg (2 ^ 52) (q + 1) else pack neg m q

/-- Go `x * y` on `float64`. -/
def mul : Float64 → Float64 → Float64
  | nan, _ => nan
  | _, nan => nan
  | inf s, inf t => inf (xor s t)
  | inf s, finite t e f => if e = 0 ∧ f = 0 then nan else inf (xor s t)
  | finite s e f, inf t => if e = 0 ∧ f = 0 then nan else inf (xor s t)
  | finite s e f, finite t e' f' =>
      round (xor s t) (mantissa e f * mantissa e' f') (exponent e + exponent e')

/-- Go `math.IsNaN`. -/
def isNaN : Float64 → Bool
  | nan => true
  | _ => false

/-- A float constant with a natural-number value, such as `1000.0`. -/
def ofNat (n : Nat) : Float64 := round false n 0

/-- Negation: flips the sign bit. -/
def neg : Float64 → Float64
  | nan => nan
  | inf s => inf (!s)
  | finite s e f => finite (!s) e f

/-- Position of a non-NaN value on the number line of binary64 values: the
sign-magnitude reading of its bits, `+0` and `-0` both at `0`. -/
def key : Float64 → Int
  | nan => 0
  | inf s => if s then -((2047 * 2 ^ 52 : Nat) : Int) else ((2047 * 2 ^ 52 : Nat) : Int)
  | finite s e f => if s then -((e * 2 ^ 52 + f : Nat) : Int) else ((e * 2 ^ 52 + f : Nat) : Int)

/-- Go `x <= y` on `float64`: false when either side is NaN. -/
def le (x y : Float64) : Bool := !x.isNaN && !y.isNaN && decide (x.key ≤ y.key)

/-- Go `x >= y` on `float64`. -/
def ge (x y : Float64) : Bool := le y x

/-- Go `x < y` on `float64`: false when either side is NaN. -/
def lt (x y : Float64) : Bool := !x.isNaN && !y.isNaN && decide (x.key < y.key)

end Float64

/-! ## maps -/

/-- A Go `map[string]V`, as its lookup function: `none` for an absent key. -/
abbrev GoMap (V : Type) := String → Option V

namespace GoMap

/-- Result of `make(map[string]V)`. -/
def empty {V : Type} : GoMap V := fun _ => none

/-- The map after `m[k] = v`. -/
def set {V : Type} (m : GoMap V) (k : String) (v : V) : GoMap V :=
  fun k' => if k' = k then some v else m k'

/-- A map literal. -/
def ofList {V : Type} (kvs : List (String × V)) : GoMap V :=
  fun k => (kvs.find? (fun kv => decide (kv.1 = k))).map Prod.snd

end GoMap

/-! ## the graph model -/

/-- A dynamic metadata value (`interface{}`) of one of the types the graph
stores. -/
inductive MetadataValue where
  | float64 (v : Float64)
  | string (s : String)
  | bool (b : Bool)
  deriving DecidableEq, Repr

/-- Metadata of a node or an edge (`graph.Metadata`). -/
abbrev Metadata := GoMap MetadataValue

/-- Edge of the graph (`graph.Edge`).  `Source` and `Dest` hold the `ID` of the
node the Go pointer refers to (`e.Source.ID`, `e.Dest.ID`). -/
structure Edge where
  Source : String
  Dest : String
  Metadata : Metadata

/-- Node of the graph (`graph.Node`) with its outgoing edges. -/
structure Node where
  ID : String
  NodeType : String
  Namespace : String
  Workload : String
  App : String
  Version : String
  Edges : List Edge
  Metadata : Metadata

/-- The traffic map (`graph.TrafficMap`, a `map[string]*Node`), as the list of
its entries. -/
abbrev TrafficMap := List (String × Node)

/-- A Prometheus sample (`model.Sample`): label set and value. -/
structure Sample where
  Metric : GoMap String
  Value : Float64

/-- A Prometheus instant vector (`model.Vector`). -/
abbrev Vector := List Sample

/-- Declarations of the `graph` package that this file uses and `src/` does not
contain: the identity resolver `graph.Id` (a total function to an ID and a node
type), the node type constant `graph.NodeTypeService` and the metadata key
`graph.ResponseTime`. -/
structure GraphPkg where
  Id : String → String → String → String → String → String → String → String × String
  NodeTypeService : String
  ResponseTime : String

/-- Per-namespace information (`graph.NamespaceInfo`); `Duration` in
nanoseconds. -/
structure NamespaceInfo where
  Name : String
  Duration : Int
  IsIstio : Bool

/-- The appender (`ResponseTimeAppender`). -/
structure ResponseTimeAppender where
  GraphType : String
  InjectServiceNodes : Bool
  Namespaces : GoMap NamespaceInfo
  Quantile : Float64
  QueryTime : Int

/-! ## response_time.go -/

/-- Go `fmt.Sprintf("%s %s", sourceID, destID)`. -/
def edgeKey (sourceID destID : String) : String := sourceID ++ " " ++ destID

/-- Method `addResponseTime`: store `val` under the key of the two resolved IDs. -/
def addResponseTime (g : GraphPkg) (a : ResponseTimeAppender) (responseTimeMap : GoMap Float64)
    (val : Float64)
    (sourceNs sourceSvc sourceWl sourceApp sourceVer destSvcNs destSvc destWlNs destWl destApp
      destVer : String) : GoMap Float64 :=
  let sourceID := (g.Id sourceNs sourceSvc sourceNs sourceWl sourceApp sourceVer a.GraphType).1
  let destID := (g.Id destSvcNs destSvc destWlNs destWl destApp destVer a.GraphType).1
  let key := edgeKey sourceID destID
  responseTimeMap.set key val

/-- Body of the loop of `populateResponseTimeMap` for one sample `s`; a
`continue` returns the map as it is. -/
def populateSample (g : GraphPkg) (a : ResponseTimeAppender) (responseTimeMap : GoMap Float64)
    (s : Sample) : GoMap Float64 :=
  let m := s.Metric
  let lSourceWlNs := (m "source_workload_namespace").getD ""
  let sourceWlNsOk := (m "source_workload_namespace").isSome
  let lSourceWl := (m "source_workload").getD ""
  let sourceWlOk := (m "source_workload").isSome
  let lSourceApp := (m "source_app").getD ""
  let sourceAppOk := (m "source_app").isSome
  let lSourceVer := (m "source_version").getD ""
  let sourceVerOk := (m "source_version").isSome
  let lDestSvcNs := (m "destination_service_namespace").getD ""
  let destSvcNsOk := (m "destination_service_namespace").isSome
  let lDestSvc := (m "destination_service_name").getD ""
  let destSvcOk := (m "destination_service_name").isSome
  let lDestWlNs := (m "destination_workload_namespace").getD ""
  let destWlNsOk := (m "destination_workload_namespace").isSome
  let lDestWl := (m "destination_workload").getD ""
  let destWlOk := (m "destination_workload").isSome
  let lDestApp := (m "destination_app").getD ""
  let destAppOk := (m "destination_app").isSome
  let lDestVer := (m "destination_version").getD ""
  let destVerOk := (m "destination_version").isSome
  if !sourceWlNsOk || !sourceWlOk || !sourceAppOk || !sourceVerOk || !destSvcNsOk || !destSvcOk
      || !destWlNsOk || !destWlOk || !destAppOk || !destVerOk then
    responseTimeMap
  else
    let sourceWlNs := lSourceWlNs
    let sourceWl := lSourceWl
    let sourceApp := lSourceApp
    let sourceVer := lSourceVer
    let destSvcNs := lDestSvcNs
    let destSvc := lDestSvc
    let destWlNs := lDestWlNs
    let destWl := lDestWl
    let destApp := lDestApp
    let destVer := lDestVer
    let val := Float64.mul s.Value (Float64.ofNat 1000)
    if Float64.isNaN val then
      responseTimeMap
    else if a.InjectServiceNodes then
      let destNodeType := (g.Id destSvcNs destSvc destWlNs destWl destApp destVer a.GraphType).2
      if destSvcOk && destNodeType != g.NodeTypeService then
        addResponseTime g a responseTimeMap val destSvcNs destSvc "" "" "" destSvcNs destSvc
          destWlNs destWl destApp destVer
      else
        addResponseTime g a responseTimeMap val sourceWlNs "" sourceWl sourceApp sourceVer
          destSvcNs destSvc destWlNs destWl destApp destVer
    else
      addResponseTime g a responseTimeMap val sourceWlNs "" sourceWl sourceApp sourceVer
        destSvcNs destSvc destWlNs destWl destApp destVer

/-- Method `populateResponseTimeMap`: the loop over the samples of the vector. -/
def populateResponseTimeMap (g : GraphPkg) (a : ResponseTimeAppender) :
    GoMap Float64 → Vector → GoMap Float64
  | responseTimeMap, [] => responseTimeMap
  | responseTimeMap, s :: rest =>
      populateResponseTimeMap g a (populateSample g a responseTimeMap s) rest

/-- Body of the inner loop of `applyResponseTime` for one edge `e`. -/
def applyEdge (g : GraphPkg) (responseTimeMap : GoMap Float64) (e : Edge) : Edge :=
  let key := edgeKey e.Source e.Dest
  match responseTimeMap key with
  | some val => { e with Metadata := e.Metadata.set g.ResponseTime (MetadataValue.float64 val) }
  | none => e

/-- Function `applyResponseTime`: every edge of every node is visited once.  The
Go code updates the edges in place; the result here is the traffic map after
the call. -/
def applyResponseTime (g : GraphPkg) (trafficMap : TrafficMap) (responseTimeMap : GoMap Float64) :
    TrafficMap :=
  trafficMap.map fun entry =>
    (entry.1, { entry.2 with Edges := entry.2.Edges.map (applyEdge g responseTimeMap) })

/-- Modelled from the spec: the constant `defaultQuantile` is declared in the
appender package outside `src/`; the spec gives the default percentile as 95.0. -/
def defaultQuantile : Float64 := Float64.ofNat 95

/-- The metrics client (`prometheus.Client`): `API` answers an instant query,
given the query text and the query time in unix seconds, with a vector. -/
structure Client where
  API : String → Int → Vector

/-- Modelled from the spec: `promQuery` is declared in the appender package
outside `src/`; by the spec the client exposes an instant query
`Query(expression, timestamp) → vector of Sample`, which `promQuery` runs. -/
def promQuery (query : String) (queryTime : Int) (api : String → Int → Vector) : Vector :=
  api query queryTime

/-- Functions that `appendGraph` calls and `src/` does not contain:
`config.IsIstioNamespace`, `config.GetIstioNamespaces` (the configured
infrastructure namespaces without the excluded ones), the method
`NamespaceInfoMap.GetIstioNamespaces`, the helper `getIstioNamespaces` of the
appender package, the rendering of a float by the verb `%.2f`, and
`int(duration.Seconds())` on a duration in nanoseconds. -/
structure QueryEnv where
  IsIstioNamespace : String → Bool
  GetIstioNamespaces : List String → List String
  NamespacesGetIstioNamespaces : GoMap NamespaceInfo → List String
  getIstioNamespaces : GoMap NamespaceInfo → List String
  formatFloat2 : Float64 → String
  durationSeconds : Int → Int

/-- The quantile `appendGraph` builds its queries with: the configured one
unless it is `<= 0.0` or `>= 100.0`. -/
def quantile (a : ResponseTimeAppender) : Float64 :=
  if Float64.le a.Quantile (Float64.ofNat 0) || Float64.ge a.Quantile (Float64.ofNat 100) then
    defaultQuantile
  else
    a.Quantile

/-- The labels every query groups by. -/
def groupBy : String :=
  "le,source_workload_namespace,source_workload,source_app,source_version,destination_service_namespace,destination_service_name,destination_workload_namespace,destination_workload,destination_app,destination_version"

/-- The lookback window of the namespace, `a.Namespaces[namespace].Duration`:
the zero duration for a namespace that is not in the map. -/
def duration (a : ResponseTimeAppender) (ns : String) : Int :=
  match a.Namespaces ns with
  | some info => info.Duration
  | none => 0

/-- Query 1: traffic from the "unknown" source into the namespace. -/
def queryUnknown (q : QueryEnv) (a : ResponseTimeAppender) (ns : String) : String :=
  "histogram_quantile(" ++ q.formatFloat2 (quantile a) ++ ", sum(rate("
    ++ "istio_request_duration_seconds_bucket"
    ++ "\x7breporter=\"destination\",source_workload=\"unknown\",destination_service_namespace=\""
    ++ ns ++ "\",response_code=~\"" ++ "2[0-9]\x7b2\x7d|^0$" ++ "\"\x7d["
    ++ toString (q.durationSeconds (duration a ns)) ++ "s])) by (" ++ groupBy ++ "))"

/-- The reporter of query 2. -/
def reporter (q : QueryEnv) (ns : String) : String :=
  if q.IsIstioNamespace ns then "destination" else "source"

/-- The source namespace filter of query 2. -/
def sourceWorkloadQuery (q : QueryEnv) (a : ResponseTimeAppender) (ns : String) : String :=
  if q.IsIstioNamespace ns then
    let excludedIstioNamespaces := q.GetIstioNamespaces (q.NamespacesGetIstioNamespaces a.Namespaces)
    if excludedIstioNamespaces.length > 0 then
      let excludedIstioRegex := String.intercalate "|" excludedIstioNamespaces
      "source_workload_namespace!~\"" ++ ns ++ "|" ++ excludedIstioRegex ++ "\""
    else
      "source_workload_namespace!=\"" ++ ns ++ "\""
  else
    "source_workload_namespace!=\"" ++ ns ++ "\""

/-- Query 2: traffic from a workload outside of the namespace. -/
def queryOutside (q : QueryEnv) (a : ResponseTimeAppender) (ns : String) : String :=
  "histogram_quantile(" ++ q.formatFloat2 (quantile a) ++ ", sum(rate("
    ++ "istio_request_duration_seconds_bucket"
    ++ "\x7breporter=\"" ++ reporter q ns ++ "\"," ++ sourceWorkloadQuery q a ns
    ++ ",source_workload!=\"unknown\",destination_service_namespace=\""
    ++ ns ++ "\",response_code=~\"" ++ "2[0-9]\x7b2\x7d|^0$" ++ "\"\x7d["
    ++ toString (q.durationSeconds (duration a ns)) ++ "s])) by (" ++ groupBy ++ "))"

/-- Query 3: traffic from a workload inside of the namespace. -/
def queryInside (q : QueryEnv) (a : ResponseTimeAppender) (ns : String) : String :=
  "histogram_quantile(" ++ q.formatFloat2 (quantile a) ++ ", sum(rate("
    ++ "istio_request_duration_seconds_bucket"
    ++ "\x7breporter=\"source\",source_workload_namespace=\""
    ++ ns ++ "\",response_code=~\"" ++ "2[0-9]\x7b2\x7d|^0$" ++ "\"\x7d["
    ++ toString (q.durationSeconds (duration a ns)) ++ "s])) by (" ++ groupBy ++ "))"

/-- Query 3a: the supplemental query for traffic between infrastructure
namespaces. -/
def queryIstio (q : QueryEnv) (a : ResponseTimeAppender) (ns : String) : String :=
  let istioNamespacesRegex := String.intercalate "|" (q.getIstioNamespaces a.Namespaces)
  "histogram_quantile(" ++ q.formatFloat2 (quantile a) ++ ", sum(rate("
    ++ "istio_request_duration_seconds_bucket"
    ++ "\x7breporter=\"destination\",source_workload_namespace=\"" ++ ns
    ++ "\",destination_service_namespace=~\"" ++ istioNamespacesRegex
    ++ "\",response_code=~\"" ++ "2[0-9]\x7b2\x7d|^0$" ++ "\"\x7d["
    ++ toString (q.durationSeconds (duration a ns)) ++ "s])) by (" ++ groupBy ++ "))"

/-- The response-time map `appendGraph` has built when it reaches the apply
phase: the vectors of the queries merged in the order 1, 2, 3 and, for an
infrastructure namespace, 3a. -/
def mergedResponseTimeMap (g : GraphPkg) (q : QueryEnv) (a : ResponseTimeAppender)
    (ns : String) (client : Client) : GoMap Float64 :=
  let isIstio := q.IsIstioNamespace ns
  let responseTimeMap : GoMap Float64 := GoMap.empty
  let unkVector := promQuery (queryUnknown q a ns) a.QueryTime client.API
  let responseTimeMap := populateResponseTimeMap g a responseTimeMap unkVector
  let outVector := promQuery (queryOutside q a ns) a.QueryTime client.API
  let responseTimeMap := populateResponseTimeMap g a responseTimeMap outVector
  let inVector := promQuery (queryInside q a ns) a.QueryTime client.API
  let responseTimeMap := populateResponseTimeMap g a responseTimeMap inVector
  if isIstio then
    let inIstioVector := promQuery (queryIstio q a ns) a.QueryTime client.API
    populateResponseTimeMap g a responseTimeMap inIstioVector
  else
    responseTimeMap

/-- Method `appendGraph`: the traffic map after the call. -/
def appendGraph (g : GraphPkg) (q : QueryEnv) (a : ResponseTimeAppender) (trafficMap : TrafficMap)
    (ns : String) (client : Client) : TrafficMap :=
  applyResponseTime g trafficMap (mergedResponseTimeMap g q a ns client)

/-! ## notions used to state the properties -/

/-- The ten labels `populateResponseTimeMap` expects on every sample. -/
def expectedLabels : List String :=
  ["source_workload_namespace", "source_workload", "source_app", "source_version",
   "destination_service_namespace", "destination_service_name",
   "destination_workload_namespace", "destination_workload", "destination_app",
   "destination_version"]

/-- Value of a label of the sample, the empty string when the label is absent. -/
def Sample.label (s : Sample) (name : String) : String := (s.Metric name).getD ""

/-- The sample carries all ten expected labels. -/
def Sample.WellFormed (s : Sample) : Prop := ∀ l ∈ expectedLabels, (s.Metric l).isSome = true

/-- ID of the source of the sample: `Id(sourceWlNs, "", sourceWlNs, sourceWl,
sourceApp, sourceVer, GraphType)`. -/
def sourceID (g : GraphPkg) (a : ResponseTimeAppender) (s : Sample) : String :=
  (g.Id (s.label "source_workload_namespace") "" (s.label "source_workload_namespace")
    (s.label "source_workload") (s.label "source_app") (s.label "source_version") a.GraphType).1

/-- Identity of the destination of the sample: `Id(destSvcNs, destSvc, destWlNs,
destWl, destApp, destVer, GraphType)`. -/
def destIdentity (g : GraphPkg) (a : ResponseTimeAppender) (s : Sample) : String × String :=
  g.Id (s.label "destination_service_namespace") (s.label "destination_service_name")
    (s.label "destination_workload_namespace") (s.label "destination_workload")
    (s.label "destination_app") (s.label "destination_version") a.GraphType

/-- ID of the synthetic service node of the destination of the sample:
`Id(destSvcNs, destSvc, destSvcNs, "", "", "", GraphType)`. -/
def serviceID (g : GraphPkg) (a : ResponseTimeAppender) (s : Sample) : String :=
  (g.Id (s.label "destination_service_namespace") (s.label "destination_service_name")
    (s.label "destination_service_namespace") "" "" "" a.GraphType).1

/-- The key a sample with all ten labels resolves to: the synthetic service
edge when service nodes are injected and the destination is not a service
node, the edge from the source otherwise. -/
def sampleKey (g : GraphPkg) (a : ResponseTimeAppender) (s : Sample) : String :=
  if a.InjectServiceNodes = true ∧ (destIdentity g a s).2 ≠ g.NodeTypeService then
    edgeKey (serviceID g a s) (destIdentity g a s).1
  else
    edgeKey (sourceID g a s) (destIdentity g a s).1

/-- The sample is stored by `populateResponseTimeMap`: it has the ten labels
and its value is a number. -/
def Sample.Stored (s : Sample) : Prop := s.WellFormed ∧ s.Value.isNaN = false

instance (s : Sample) : Decidable s.WellFormed := by
  unfold Sample.WellFormed; exact inferInstance

instance (s : Sample) : Decidable s.Stored := by
  unfold Sample.Stored; exact inferInstance

/-- The samples of the queries in the order in which they are merged. -/
def mergeAll (g : GraphPkg) (a : ResponseTimeAppender) (responseTimeMap : GoMap Float64)
    (vectors : List Vector) : GoMap Float64 :=
  vectors.foldl (populateResponseTimeMap g a) responseTimeMap

/-! ## instances for evaluation -/

/-- An identity resolver of the shape the spec gives for `graph.Id`, to evaluate
the definitions on concrete inputs: a service node for a service without
workload, else a workload or app node, else the unknown node of the namespace. -/
def exampleId (serviceNamespace service workloadNamespace workload app version
    graphType : String) : String × String :=
  if service ≠ "" ∧ workload = "" then
    ("svc_" ++ serviceNamespace ++ "_" ++ service, "service")
  else if workload ≠ "" ∨ app ≠ "" then
    if graphType = "workload" then ("wl_" ++ workloadNamespace ++ "_" ++ workload, "workload")
    else if graphType = "versionedApp" then
      ("vapp_" ++ workloadNamespace ++ "_" ++ app ++ "_" ++ version, "app")
    else ("app_" ++ workloadNamespace ++ "_" ++ app, "app")
  else ("unknown_" ++ workloadNamespace, "unknown")

/-- The `graph` package with `exampleId`. -/
def exampleGraph : GraphPkg := ⟨exampleId, "service", "responseTime"⟩

/-- An appender for workload graphs. -/
def exampleAppender (injectServiceNodes : Bool) : ResponseTimeAppender :=
  ⟨"workload", injectServiceNodes, GoMap.empty, Float64.ofNat 95, 0⟩

/-- A sample from the workload `productpage-v1` to the workload `wl` behind the
service `svc`, all in the namespace `bookinfo`. -/
def exampleSample (svc wl : String) (v : Float64) : Sample :=
  ⟨GoMap.ofList
    [("source_workload_namespace", "bookinfo"), ("source_workload", "productpage-v1"),
     ("source_app", "productpage"), ("source_version", "v1"),
     ("destination_service_namespace", "bookinfo"), ("destination_service_name", svc),
     ("destination_workload_namespace", "bookinfo"), ("destination_workload", wl),
     ("destination_app", svc), ("destination_version", "v1")], v⟩

/-- The sample `exampleSample` without the label `destination_service_namespace`. -/
def malformedSample (svc wl : String) (v : Float64) : Sample :=
  ⟨GoMap.ofList
    [("source_workload_namespace", "bookinfo"), ("source_workload", "productpage-v1"),
     ("source_app", "productpage"), ("source_version", "v1"),
     ("destination_service_name", svc),
     ("destination_workload_namespace", "bookinfo"), ("destination_workload", wl),
     ("destination_app", svc), ("destination_version", "v1")], v⟩

/-- The float `0.25`. -/
def quarter : Float64 := Float64.finite false 1021 0

/-- An edge without metadata. -/
def exampleEdge (source dest : String) : Edge := ⟨source, dest, GoMap.empty⟩

/-- A workload node with the given outgoing edges. -/
def exampleNode (id : String) (edges : List Edge) : Node :=
  ⟨id, "workload", "bookinfo", id, id, "v1", edges, GoMap.empty⟩

/-- What `applyResponseTime` may change on an edge: `e'` has the source, the
destination and every metadata entry of `e` other than the response time. -/
def EdgeFrame (g : GraphPkg) (e e' : Edge) : Prop :=
  e'.Source = e.Source ∧ e'.Dest = e.Dest ∧
    ∀ k, k ≠ g.ResponseTime → e'.Metadata k = e.Metadata k

/-- What `applyResponseTime` may change on a node: `n'` has the identity fields
and the metadata of `n`, and as many edges, each related by `EdgeFrame` to the
edge of `n` at the same place. -/
def NodeFrame (g : GraphPkg) (n n' : Node) : Prop :=
  n'.ID = n.ID ∧ n'.NodeType = n.NodeType ∧ n'.Namespace = n.Namespace ∧
    n'.Workload = n.Workload ∧ n'.App = n.App ∧ n'.Version = n.Version ∧
    n'.Metadata = n.Metadata ∧ List.Forall₂ (EdgeFrame g) n.Edges n'.Edges

/-- The vectors `appendGraph` merges, in the order of the merge: unknown
source, outside of the namespace, inside of the namespace and, for an
infrastructure namespace, the supplemental one. -/
def queryVectors (q : QueryEnv) (a : ResponseTimeAppender) (ns : String) (client : Client) :
    List Vector :=
  [promQuery (queryUnknown q a ns) a.QueryTime client.API,
   promQuery (queryOutside q a ns) a.QueryTime client.API,
   promQuery (queryInside q a ns) a.QueryTime client.API]
  ++ (if q.IsIstioNamespace ns then [promQuery (queryIstio q a ns) a.QueryTime client.API] else [])

/-- The float `99.9`, that is the binary64 value next to it. -/
def ninetyNinePointNine : Float64 := Float64.finite false 1029 0x8F9999999999A

/-- An appender with the given quantile. -/
def quantileAppender (quantile : Float64) : ResponseTimeAppender :=
  ⟨"workload", false, GoMap.empty, quantile, 0⟩

/-- A rendering of a float by the verb `%.2f`, to evaluate the queries on
concrete inputs: the value rounded to two decimals, ties to even. -/
def exampleFormatFloat2 : Float64 → String
  | Float64.nan => "NaN"
  | Float64.inf s => if s then "-Inf" else "+Inf"
  | Float64.finite s e f =>
    let num := Float64.mantissa e f * 100
    let x := Float64.exponent e
    let d := 2 ^ (-x).toNat
    let t := num / d
    let r := num % d
    let n := if 0 ≤ x then num * 2 ^ x.toNat
      else if d < 2 * r ∨ (2 * r = d ∧ t % 2 = 1) then t + 1 else t
    (if s then "-" else "") ++ toString (n / 100) ++ "." ++ (if n % 100 < 10 then "0" else "")
      ++ toString (n % 100)

/-- An environment with the one infrastructure namespace `istio-system`, to
evaluate the definitions on concrete inputs.  Its `durationSeconds` cuts the
nanoseconds down to whole seconds.  The code takes `int(duration.Seconds())`,
which goes through a float64 sum: that is the same number for a duration
under 2^24 seconds and can be the next second for a longer one, so this
instance stands for the code only on durations under 2^24 seconds. -/
def exampleQueryEnv : QueryEnv where
  IsIstioNamespace := fun ns => decide (ns = "istio-system")
  GetIstioNamespaces := fun excluded => ["istio-system"].filter (fun ns => !excluded.contains ns)
  NamespacesGetIstioNamespaces := fun namespaces =>
    ["istio-system"].filter (fun ns => (namespaces ns).any (fun info => info.IsIstio))
  getIstioNamespaces := fun namespaces =>
    ["istio-system"].filter (fun ns => (namespaces ns).any (fun info => info.IsIstio))
  formatFloat2 := exampleFormatFloat2
  durationSeconds := fun d => Int.tdiv d 1000000000

/-- A client that answers the query for the unknown source with `unk`, the
query for traffic from inside of the namespace with `inside` and every other
query with the empty vector. -/
def exampleClient (ns : String) (unk inside : Vector) : Client where
  API := fun query _ =>
    if query = queryUnknown exampleQueryEnv (exampleAppender false) ns then unk
    else if query = queryInside exampleQueryEnv (exampleAppender false) ns then inside
    else []

/-! ## AppendGraph and the queries it issues -/

/-- Request-scoped information shared by the appenders (`graph.AppenderGlobalInfo`):
the metrics client handle, `none` for the nil pointer. -/
structure AppenderGlobalInfo where
  PromClient : Option Client

/-- Information on the namespace an appender runs for
(`graph.AppenderNamespaceInfo`). -/
structure AppenderNamespaceInfo where
  Namespace : String

/-- The call `promQuery(query, ...)` together with the record of the query texts
handed to the client so far. -/
def promQueryLogged (query : String) (queryTime : Int) (api : String → Int → Vector)
    (issued : List String) : Vector × List String :=
  (promQuery query queryTime api, issued ++ [query])

/-- Method `appendGraph` with the record of the queries it issues: the traffic
map after the call and the query texts handed to the client, in the order of
the calls, after those in `issued`. -/
def appendGraphLogged (g : GraphPkg) (q : QueryEnv) (a : ResponseTimeAppender)
    (trafficMap : TrafficMap) (ns : String) (client : Client) (issued : List String) :
    TrafficMap × List String :=
  let isIstio := q.IsIstioNamespace ns
  let responseTimeMap : GoMap Float64 := GoMap.empty
  let (unkVector, issued) := promQueryLogged (queryUnknown q a ns) a.QueryTime client.API issued
  let responseTimeMap := populateResponseTimeMap g a responseTimeMap unkVector
  let (outVector, issued) := promQueryLogged (queryOutside q a ns) a.QueryTime client.API issued
  let responseTimeMap := populateResponseTimeMap g a responseTimeMap outVector
  let (inVector, issued) := promQueryLogged (queryInside q a ns) a.QueryTime client.API issued
  let responseTimeMap := populateResponseTimeMap g a responseTimeMap inVector
  if isIstio then
    let (inIstioVector, issued) :=
      promQueryLogged (queryIstio q a ns) a.QueryTime client.API issued
    let responseTimeMap := populateResponseTimeMap g a responseTimeMap inIstioVector
    (applyResponseTime g trafficMap responseTimeMap, issued)
  else
    (applyResponseTime g trafficMap responseTimeMap, issued)

/-- What a call of `AppendGraph` leaves behind: the traffic map, the global
information, the queries issued and the number of calls of the client
constructor `prometheus.NewClient`. -/
structure Outcome where
  trafficMap : TrafficMap
  globalInfo : AppenderGlobalInfo
  issued : List String
  constructed : Nat

/-- Method `AppendGraph`.  `newClient` is the result of `prometheus.NewClient()`
(outside `src/`): a client or an error; `graph.CheckError` panics on an error,
which is the `Except.error` result here. -/
def AppendGraph (g : GraphPkg) (q : QueryEnv) (newClient : Except String Client)
    (a : ResponseTimeAppender) (trafficMap : TrafficMap) (globalInfo : AppenderGlobalInfo)
    (namespaceInfo : AppenderNamespaceInfo) : Except String Outcome :=
  if trafficMap.length = 0 then
    Except.ok ⟨trafficMap, globalInfo, [], 0⟩
  else
    match globalInfo.PromClient with
    | none =>
      match newClient with
      | Except.error err => Except.error err
      | Except.ok client =>
        let run := appendGraphLogged g q a trafficMap namespaceInfo.Namespace client []
        Except.ok ⟨run.1, { globalInfo with PromClient := some client }, run.2, 1⟩
    | some client =>
      let run := appendGraphLogged g q a trafficMap namespaceInfo.Namespace client []
      Except.ok ⟨run.1, globalInfo, run.2, 0⟩

/-- One call of `AppendGraph` in a sequence of calls on the same traffic map
and the same global information: the appender, the namespace and what
`prometheus.NewClient()` would return at that call. -/
structure Call where
  appender : ResponseTimeAppender
  namespaceInfo : AppenderNamespaceInfo
  newClient : Except String Client

/-- A sequence of calls of `AppendGraph`, each on the traffic map and the global
information the call before has left; a panic ends the sequence.  The outcome
holds all queries issued and the number of clients constructed. -/
def AppendGraphs (g : GraphPkg) (q : QueryEnv) :
    List Call → TrafficMap → AppenderGlobalInfo → Except String Outcome
  | [], trafficMap, globalInfo => Except.ok ⟨trafficMap, globalInfo, [], 0⟩
  | call :: rest, trafficMap, globalInfo =>
    match AppendGraph g q call.newClient call.appender trafficMap globalInfo call.namespaceInfo with
    | Except.error err => Except.error err
    | Except.ok first =>
      match AppendGraphs g q rest first.trafficMap first.globalInfo with
      | Except.error err => Except.error err
      | Except.ok last =>
        Except.ok ⟨last.trafficMap, last.globalInfo, first.issued ++ last.issued,
          first.constructed + last.constructed⟩

/-- Text of a query for the given quantile, label matchers and window: the
matchers, separated by commas, are the selector of the histogram metric. -/
def selectorQuery (quantileText : String) (matchers : List String) (seconds : String) : String :=
  "histogram_quantile(" ++ quantileText ++ ", sum(rate(istio_request_duration_seconds_bucket\x7b"
    ++ String.intercalate "," matchers ++ "\x7d[" ++ seconds ++ "s])) by (" ++ groupBy ++ "))"

/-- The matcher of the response codes every query has. -/
def responseCodeMatcher : String := "response_code=~\"2[0-9]\x7b2\x7d|^0$\""

/-- The stored samples of the vectors, in the order of the merge. -/
def storedSamples (vectors : List Vector) : List Sample :=
  vectors.flatten.filter (fun s => decide s.Stored)

/-- The vectors of the first three queries of `appendGraph`: unknown source,
outside of the namespace, inside of the namespace. -/
def firstThreeVectors (q : QueryEnv) (a : ResponseTimeAppender) (ns : String) (client : Client) :
    List Vector :=
  [promQuery (queryUnknown q a ns) a.QueryTime client.API,
   promQuery (queryOutside q a ns) a.QueryTime client.API,
   promQuery (queryInside q a ns) a.QueryTime client.API]

/-- The response-time metadata of edge `j` of the node at place `i`. -/
def responseTimeAt (g : GraphPkg) (tm : TrafficMap) (i j : Nat) : Option MetadataValue :=
  match tm[i]? with
  | some entry =>
    match entry.2.Edges[j]? with
    | some e => e.Metadata g.ResponseTime
    | none => none
  | none => none

/-- The float `0.1`, that is the binary64 value next to it. -/
def oneTenth : Float64 := Float64.finite false 1019 0x999999999999A

/-- The float `0.2`, that is the binary64 value next to it. -/
def oneFifth : Float64 := Float64.finite false 1020 0x999999999999A

/-- The float `0.05`, that is the binary64 value next to it. -/
def oneTwentieth : Float64 := Float64.finite false 1018 0x999999999999A

/-- A sample from the workload `srcWl` in the namespace `srcNs` to the workload
`wl` behind the service `svc` in the namespace `bookinfo`. -/
def sampleFrom (srcNs srcWl svc wl : String) (v : Float64) : Sample :=
  ⟨GoMap.ofList
    [("source_workload_namespace", srcNs), ("source_workload", srcWl),
     ("source_app", srcWl), ("source_version", "v1"),
     ("destination_service_namespace", "bookinfo"), ("destination_service_name", svc),
     ("destination_workload_namespace", "bookinfo"), ("destination_workload", wl),
     ("destination_app", svc), ("destination_version", "v1")], v⟩

/-- A client that answers the four queries of the appender `exampleAppender
false` for the namespace `ns` with the given vectors and every other query
with the empty vector. -/
def exampleClientAll (ns : String) (unk outside inside istio : Vector) : Client where
  API := fun query _ =>
    if query = queryUnknown exampleQueryEnv (exampleAppender false) ns then unk
    else if query = queryOutside exampleQueryEnv (exampleAppender false) ns then outside
    else if query = queryInside exampleQueryEnv (exampleAppender false) ns then inside
    else if query = queryIstio exampleQueryEnv (exampleAppender false) ns then istio
    else []

/-- The graph of the example with three edges into `bookinfo`: from the unknown
source, from a workload of another namespace and from a workload of
`bookinfo`. -/
def exampleTrafficMap : TrafficMap :=
  [("wl_unknown_unknown", exampleNode "wl_unknown_unknown"
      [exampleEdge "wl_unknown_unknown" "wl_bookinfo_productpage-v1"]),
   ("wl_shop_cart-v1", exampleNode "wl_shop_cart-v1"
      [exampleEdge "wl_shop_cart-v1" "wl_bookinfo_details-v1"]),
   ("wl_bookinfo_productpage-v1", exampleNode "wl_bookinfo_productpage-v1"
      [exampleEdge "wl_bookinfo_productpage-v1" "wl_bookinfo_reviews-v1"])]

/-- The outcome of a run that has not panicked. -/
def outcomeOf (run : Except String Outcome) : Outcome :=
  match run with
  | Except.ok out => out
  | Except.error _ => ⟨[], ⟨none⟩, [], 0⟩

/-- The client of the example with one sample per query of `bookinfo`: 0.1 s
from the unknown source, 0.2 s from outside, 0.05 s from inside. -/
def bookinfoClient : Client :=
  exampleClientAll "bookinfo"
    [sampleFrom "unknown" "unknown" "productpage" "productpage-v1" oneTenth]
    [sampleFrom "shop" "cart-v1" "details" "details-v1" oneFifth]
    [sampleFrom "bookinfo" "productpage-v1" "reviews" "reviews-v1" oneTwentieth] []

/-- A client for the infrastructure namespace `istio-system` that reports the
same edge by the query for traffic from inside (0.05 s) and by the supplemental
query (2 s). -/
def istioClient : Client :=
  exampleClientAll "istio-system" [] []
    [sampleFrom "istio-system" "pilot" "telemetry" "telemetry-v1" oneTwentieth]
    [sampleFrom "istio-system" "pilot" "telemetry" "telemetry-v1" (Float64.ofNat 2)]

/-- The graph with the one edge from `pilot` to `telemetry-v1`. -/
def istioTrafficMap : TrafficMap :=
  [("wl_istio-system_pilot", exampleNode "wl_istio-system_pilot"
      [exampleEdge "wl_istio-system_pilot" "wl_bookinfo_telemetry-v1"])]

/-- Two calls of `AppendGraph` for `bookinfo` whose constructor would return
`bookinfoClient`. -/
def exampleCalls : List Call :=
  [⟨exampleAppender false, ⟨"bookinfo"⟩, Except.ok bookinfoClient⟩,
   ⟨exampleAppender false, ⟨"bookinfo"⟩, Except.ok bookinfoClient⟩]

/-! ## strings and encoding/csv

Go strings are modelled by `String`, that is the strings that are valid UTF-8;
on them a byte-wise prefix test is the prefix test on the characters, and the
search for the encoding of a valid rune finds the rune.  A `rune` is a `Char`.
-/

/-- Go `strings.HasPrefix(s, p)`. -/
def HasPrefix (s p : String) : Bool := p.data.isPrefixOf s.data

/-- Go `s[len(p):]` for a string `s` that starts with `p`. -/
def trimPrefix (s p : String) : String := String.mk (s.data.drop p.data.length)

/-- Errors of `csv.Reader.Read`; `outOfFuel` is not an error of Go: it marks a
loop of the model that was given too few steps, which `csvRead` never does. -/
inductive CsvError where
  | invalidDelim
  | eof
  | bareQuote
  | quote
  | outOfFuel
  deriving DecidableEq, Repr

/-- Function `validDelim` of encoding/csv (every `Char` is a valid rune). -/
def validDelim (r : Char) : Bool :=
  r != Char.ofNat 0 && r != '"' && r != '\r' && r != '\n' && r != Char.ofNat 0xFFFD

/-- Function `lengthNL` of encoding/csv: 1 if the line ends with a newline. -/
def lengthNL (b : List Char) : Nat := if b.getLast? = some '\n' then 1 else 0

/-- Go `bytes.IndexRune(line, r)`, `none` for -1. -/
def indexRune (r : Char) : List Char → Option Nat
  | [] => none
  | c :: rest => if c = r then some 0 else (indexRune r rest).map (· + 1)

/-- Go `bufio.Reader.ReadSlice('\n')`: the input up to and including the first
newline, the input after it, and whether a newline was found. -/
def readSlice : List Char → List Char × List Char × Bool
  | [] => ([], [], false)
  | c :: rest =>
    if c = '\n' then ([c], rest, true)
    else ((c :: (readSlice rest).1), (readSlice rest).2.1, (readSlice rest).2.2)

/-- Method `readLine` of `csv.Reader`: the next line, the input after it and
whether the end of the input was hit with nothing read (`io.EOF`).  A carriage
return before the end of the input is dropped and "\r\n" at the end of a line
becomes "\n". -/
def readLine (input : List Char) : List Char × List Char × Bool :=
  let line := (readSlice input).1
  let rest := (readSlice input).2.1
  let eof := !(readSlice input).2.2
  let lineAtEnd := if line.getLast? = some '\r' then line.dropLast else line
  let line1 := if line.length > 0 && eof then lineAtEnd else line
  let err := if line.length > 0 && eof then false else eof
  let n := line1.length
  let line2 :=
    if n ≥ 2 && line1.get? (n - 2) = some '\r' && line1.get? (n - 1) = some '\n' then
      line1.take (n - 2) ++ ['\n']
    else line1
  (line2, rest, err)

/-- The loop of `readRecord` that reads the first line that is not empty: the
line and the input after it. -/
def firstLine : Nat → List Char → Except CsvError (List Char × List Char)
  | 0, _ => Except.error CsvError.outOfFuel
  | fuel + 1, input =>
    let line := (readLine input).1
    let rest := (readLine input).2.1
    let errRead := (readLine input).2.2
    if !errRead && line.length = lengthNL line then firstLine fuel rest
    else if errRead then Except.error CsvError.eof
    else Except.ok (line, rest)

/-- The loop `parseField` of `readRecord` (with `LazyQuotes` and
`TrimLeadingSpace` off).  With `quoted = false` the loop is at the start of a
field of `line`; with `quoted = true` it is inside a quoted field whose text so
far is `cur`.  `rest` is the input after the line, `fields` the fields read. -/
def parseFields (comma : Char) :
    Nat → Bool → List Char → List Char → List Char → List String → Except CsvError (List String)
  | 0, _, _, _, _, _ => Except.error CsvError.outOfFuel
  | fuel + 1, false, line, rest, _, fields =>
    if line.head? ≠ some '"' then
      match indexRune comma line with
      | some i =>
        if (line.take i).contains '"' then Except.error CsvError.bareQuote
        else parseFields comma fuel false (line.drop (i + 1)) rest []
          (fields ++ [String.mk (line.take i)])
      | none =>
        if (line.take (line.length - lengthNL line)).contains '"' then
          Except.error CsvError.bareQuote
        else Except.ok (fields ++ [String.mk (line.take (line.length - lengthNL line))])
    else parseFields comma fuel true (line.drop 1) rest [] fields
  | fuel + 1, true, line, rest, cur, fields =>
    match indexRune '"' line with
    | some i =>
      let after := line.drop (i + 1)
      if after.head? = some '"' then
        parseFields comma fuel true (after.drop 1) rest (cur ++ line.take i ++ ['"']) fields
      else if after.head? = some comma then
        parseFields comma fuel false (after.drop 1) rest []
          (fields ++ [String.mk (cur ++ line.take i)])
      else if lengthNL after = after.length then
        Except.ok (fields ++ [String.mk (cur ++ line.take i)])
      else Except.error CsvError.quote
    | none =>
      if line.length > 0 then
        parseFields comma fuel true (readLine rest).1 (readLine rest).2.1 (cur ++ line) fields
      else Except.error CsvError.quote

/-- Go `csv.NewReader(strings.NewReader(input))` with `Comma = comma`, then
`Read()`: the fields of the first record, or an error.  The model follows the
reader of Go 1.10 and later (`readRecord`, `readLine`), all other options at
their defaults. -/
def csvRead (comma : Char) (input : String) : Except CsvError (List String) :=
  if !validDelim comma then Except.error CsvError.invalidDelim
  else
    match firstLine (input.data.length + 1) input.data with
    | Except.error err => Except.error err
    | Except.ok (line, rest) =>
      parseFields comma (line.length + rest.length + 1) false line rest [] []

deriving instance DecidableEq for Except

/-! ## ldaprbac: adrole.go -/

/-- A finite map with enumerable entries (`map[string]V` that the code ranges
over): the entries, with pairwise distinct keys. -/
abbrev FinMap (V : Type) := List (String × V)

namespace FinMap

/-- The entry `m[k]`, `none` for an absent key. -/
def get {V : Type} (m : FinMap V) (k : String) : Option V :=
  (m.find? (fun kv => decide (kv.1 = k))).map Prod.snd

/-- The map after `m[k] = v`: the value of an existing key is replaced. -/
def set {V : Type} (m : FinMap V) (k : String) (v : V) : FinMap V :=
  if m.any (fun kv => decide (kv.1 = k)) then
    m.map (fun kv => if kv.1 = k then (k, v) else kv)
  else m ++ [(k, v)]

end FinMap

/-- Struct `ADRoleNameFormatSpec`.  `FieldIndex` holds indices as
`NewADRoleNameFormatSpec` assigns them, which are natural numbers. -/
structure ADRoleNameFormatSpec where
  Prefix : String
  Delimiter : Char
  FormatString : String
  FieldIndex : FinMap Nat
  deriving DecidableEq, Repr

/-- The field name of the application code. -/
def appCodeFieldName : String := "appCode"

/-- The field name of the environment code. -/
def envCodeFieldName : String := "envCode"

/-- The loop `for i, field := range fields` of `NewADRoleNameFormatSpec`, from
index `i` on. -/
def indexFields : List String → Nat → FinMap Nat → FinMap Nat
  | [], _, fieldIndex => fieldIndex
  | field :: rest, i, fieldIndex => indexFields rest (i + 1) (fieldIndex.set field i)

/-- Function `NewADRoleNameFormatSpec`; `none` is the nil pointer. -/
def NewADRoleNameFormatSpec (pfx : String) (delim : Char) (formatString : String) :
    Option ADRoleNameFormatSpec :=
  let fieldIndex : FinMap Nat := []
  if !HasPrefix formatString pfx then none
  else
    let formatString := trimPrefix formatString pfx
    match csvRead delim formatString with
    | Except.error _ => none
    | Except.ok fields =>
      some ⟨pfx, delim, formatString, indexFields fields 0 fieldIndex⟩

/-- The loop `for name, index := range spec.FieldIndex` of
`ParseFieldsFromADRoleName`; Go visits the entries in an unspecified order,
the model in the order of the list. -/
def fillFieldData : List (String × Nat) → List String → GoMap String → Option (GoMap String)
  | [], _, fieldData => some fieldData
  | (name, index) :: rest, fields, fieldData =>
    if index ≥ fields.length then none
    else fillFieldData rest fields (fieldData.set name (fields.getD index ""))

/-- Function `ParseFieldsFromADRoleName`; `none` is the nil map. -/
def ParseFieldsFromADRoleName (spec : Option ADRoleNameFormatSpec) (adRoleName : String) :
    Option (GoMap String) :=
  match spec with
  | none => none
  | some spec =>
    if !HasPrefix adRoleName spec.Prefix then none
    else
      let adRoleData := trimPrefix adRoleName spec.Prefix
      match csvRead spec.Delimiter adRoleData with
      | Except.error _ => none
      | Except.ok fields => fillFieldData spec.FieldIndex fields GoMap.empty

/-- An entry of `conf.Auth.LDAP.LdapRbac.ADRoleNameFormats` (the type is
declared in the `config` package, outside `src/`). -/
structure ADRoleNameFormatCfg where
  Prefix : String
  Delimiter : String
  FormatString : String
  deriving DecidableEq, Repr

/-- A run-time panic of Go. -/
inductive Panic where
  | nilDereference
  | indexOutOfRange
  deriving DecidableEq, Repr

/-- Go `len(s)`: the number of bytes of the string. -/
def byteLen (s : String) : Nat := s.utf8ByteSize

/-- First byte of the UTF-8 encoding of a character. -/
def leadByte (c : Char) : Nat :=
  if c.toNat < 0x80 then c.toNat
  else if c.toNat < 0x800 then 0xC0 + c.toNat / 0x40
  else if c.toNat < 0x10000 then 0xE0 + c.toNat / 0x1000
  else 0xF0 + c.toNat / 0x40000

/-- Go `rune(s[0])`: the first byte of the string as a rune; `none` when the
string is empty and the index is out of range. -/
def firstByteRune (s : String) : Option Char :=
  match s.data with
  | [] => none
  | c :: _ => some (Char.ofNat (leadByte c))

/-- The loop `for _, nameFmt := range adRoleNameFormats` of
`GetADRoleNameFormats`: the value of `isValidCfg` after it, or the panic of
`nameFmt.Prefix` on a nil element. -/
def isValidCfg : List (Option ADRoleNameFormatSpec) → ADRoleNameFormatCfg → Except Panic Bool
  | [], _ => Except.ok true
  | nameFmt :: rest, formatCfg =>
    match nameFmt with
    | none => Except.error Panic.nilDereference
    | some nameFmt =>
      if HasPrefix nameFmt.Prefix formatCfg.Prefix || HasPrefix formatCfg.Prefix nameFmt.Prefix then
        Except.ok false
      else if byteLen formatCfg.Delimiter ≠ 1 then
        Except.ok false
      else isValidCfg rest formatCfg

/-- Body of the loop over the configuration entries of `GetADRoleNameFormats`:
`adRoleNameFormats` after the entry `formatCfg`. -/
def loadFormat (adRoleNameFormats : List (Option ADRoleNameFormatSpec))
    (formatCfg : ADRoleNameFormatCfg) : Except Panic (List (Option ADRoleNameFormatSpec)) :=
  match isValidCfg adRoleNameFormats formatCfg with
  | Except.error p => Except.error p
  | Except.ok false => Except.ok adRoleNameFormats
  | Except.ok true =>
    match firstByteRune formatCfg.Delimiter with
    | none => Except.error Panic.indexOutOfRange
    | some delim =>
      Except.ok (adRoleNameFormats ++
        [NewADRoleNameFormatSpec formatCfg.Prefix delim formatCfg.FormatString])

/-- The loop over the configuration entries of `GetADRoleNameFormats`. -/
def loadFormats : List (Option ADRoleNameFormatSpec) → List ADRoleNameFormatCfg →
    Except Panic (List (Option ADRoleNameFormatSpec))
  | adRoleNameFormats, [] => Except.ok adRoleNameFormats
  | adRoleNameFormats, formatCfg :: rest =>
    match loadFormat adRoleNameFormats formatCfg with
    | Except.error p => Except.error p
    | Except.ok formats => loadFormats formats rest

/-- Function `GetADRoleNameFormats` at its first call, when `sync.Once` runs the
load on the nil slice `adRoleNameFormats`; `conf` is
`config.Get().Auth.LDAP.LdapRbac.ADRoleNameFormats`. -/
def GetADRoleNameFormats (conf : List ADRoleNameFormatCfg) :
    Except Panic (List (Option ADRoleNameFormatSpec)) :=
  loadFormats [] conf

/-! ## ldaprbac: rbac.go, util.go -/

/-- Struct `RoleToAppMapping`. -/
structure RoleToAppMapping where
  ID : Int
  Role : String
  AppCode : String
  EnvCode : String
  deriving DecidableEq, Repr

/-- The user (`ldap.User`, declared outside `src/`): the code reads its groups. -/
structure User where
  Groups : List String
  deriving DecidableEq, Repr

/-- Struct `ApplicationRBACObject`. -/
structure ApplicationRBACObject where
  AppCode : String
  EnvCodes : List String
  deriving DecidableEq, Repr

/-- Type `ApplicationRBACObjectMap`. -/
abbrev ApplicationRBACObjectMap := GoMap ApplicationRBACObject

/-- Struct `rbacAccessChecker`; `none` is the nil user and the nil map. -/
structure rbacAccessChecker where
  user : Option User
  allowedAppsMap : Option ApplicationRBACObjectMap
  isAdmin : Bool

/-- What the package reads from outside: the configured role name formats and
the provider `accessConfig` of the role-to-application mappings (the method
`AppsForRole`). -/
structure RbacEnv where
  conf : List ADRoleNameFormatCfg
  AppsForRole : String → List RoleToAppMapping

/-- Function `ContainsExact`. -/
def ContainsExact : List String → String → Bool
  | [], _ => false
  | item :: rest, compareItem => if item = compareItem then true else ContainsExact rest compareItem

/-- Function `NewApplicationRBACObject`. -/
def NewApplicationRBACObject (appCode : String) (envCodes : List String) :
    ApplicationRBACObject :=
  ⟨appCode, envCodes⟩

/-- The loop over the format specs of `getAppsForRole`: `appsForRole` after it,
or the panic of `spec.Prefix` on a nil element. -/
def appsFromFormats : List (Option ADRoleNameFormatSpec) → String → List RoleToAppMapping →
    Except Panic (List RoleToAppMapping)
  | [], _, appsForRole => Except.ok appsForRole
  | spec :: rest, roleName, appsForRole =>
    match spec with
    | none => Except.error Panic.nilDereference
    | some s =>
      if HasPrefix roleName s.Prefix then
        match ParseFieldsFromADRoleName (some s) roleName with
        | some fieldMap =>
          appsFromFormats rest roleName
            (appsForRole ++ [⟨0, roleName, (fieldMap appCodeFieldName).getD "",
              (fieldMap envCodeFieldName).getD ""⟩])
        | none => appsFromFormats rest roleName appsForRole
      else appsFromFormats rest roleName appsForRole

/-- Method `getAppsForRole`. -/
def getAppsForRole (env : RbacEnv) (roleName : String) : Except Panic (List RoleToAppMapping) :=
  match GetADRoleNameFormats env.conf with
  | Except.error p => Except.error p
  | Except.ok formats =>
    match appsFromFormats formats roleName [] with
    | Except.error p => Except.error p
    | Except.ok appsForRole =>
      let appsForRoleByConfig := env.AppsForRole roleName
      if appsForRoleByConfig.length > 0 then Except.ok (appsForRole ++ appsForRoleByConfig)
      else Except.ok appsForRole

/-- Body of the loop `for _, app := range appsForRole` of
`loadAllAllowedApplications`.  The object of an application is held by the map
under its application code only, so a change through the pointer is the map
with the changed object under that code. -/
def addApp (objectMap : ApplicationRBACObjectMap) (app : RoleToAppMapping) :
    ApplicationRBACObjectMap :=
  let objectMap :=
    if app.AppCode = "*" then objectMap.set app.AppCode (NewApplicationRBACObject app.AppCode [])
    else objectMap
  match objectMap app.AppCode with
  | some object =>
    if ContainsExact object.EnvCodes "*" then objectMap
    else
      let envCodes := if app.EnvCode = "*" then ["*"] else object.EnvCodes
      let envCodes :=
        if !ContainsExact envCodes app.EnvCode then envCodes ++ [app.EnvCode] else envCodes
      objectMap.set app.AppCode { object with EnvCodes := envCodes }
  | none => objectMap.set app.AppCode (NewApplicationRBACObject app.AppCode [app.EnvCode])

/-- The loop `for _, app := range appsForRole`. -/
def addApps (objectMap : ApplicationRBACObjectMap) (appsForRole : List RoleToAppMapping) :
    ApplicationRBACObjectMap :=
  appsForRole.foldl addApp objectMap

/-- The loop `for _, userGroup := range checker.user.Groups`. -/
def loadGroups (env : RbacEnv) :
    List String → ApplicationRBACObjectMap → Except Panic ApplicationRBACObjectMap
  | [], objectMap => Except.ok objectMap
  | userGroup :: rest, objectMap =>
    match getAppsForRole env userGroup with
    | Except.error p => Except.error p
    | Except.ok appsForRole => loadGroups env rest (addApps objectMap appsForRole)

/-- Method `loadAllAllowedApplications`: the error it returns (always nil) and
the checker after the call. -/
def loadAllAllowedApplications (env : RbacEnv) (checker : rbacAccessChecker) :
    Except Panic (Option String × rbacAccessChecker) :=
  match checker.allowedAppsMap with
  | some _ => Except.ok (none, checker)
  | none =>
    match checker.user with
    | none => Except.error Panic.nilDereference
    | some user =>
      match loadGroups env user.Groups GoMap.empty with
      | Except.error p => Except.error p
      | Except.ok objectMap => Except.ok (none, { checker with allowedAppsMap := some objectMap })

/-- The loop `for _, envCode := range object.EnvCodes` of `IsApplicationAllowed`
with the `return true` after it. -/
def allEnvCodesAllowed (allowed : List String) : List String → Bool
  | [] => true
  | envCode :: rest =>
    if ContainsExact allowed "*" then true
    else if !ContainsExact allowed envCode then false
    else allEnvCodesAllowed allowed rest

/-- Method `IsApplicationAllowed`: the pair it returns and the checker after the
call; `object = none` is the nil pointer. -/
def IsApplicationAllowed (env : RbacEnv) (checker : rbacAccessChecker)
    (object : Option ApplicationRBACObject) :
    Except Panic ((Bool × Option String) × rbacAccessChecker) :=
  match loadAllAllowedApplications env checker with
  | Except.error p => Except.error p
  | Except.ok (some err, checker) => Except.ok ((false, some err), checker)
  | Except.ok (none, checker) =>
    let allowedAppsMap : ApplicationRBACObjectMap := checker.allowedAppsMap.getD GoMap.empty
    if (allowedAppsMap "*").isSome then Except.ok ((true, none), checker)
    else
      match object with
      | none => Except.ok ((false, none), checker)
      | some object =>
        match allowedAppsMap object.AppCode with
        | some allowedApp =>
          Except.ok ((allEnvCodesAllowed allowedApp.EnvCodes object.EnvCodes, none), checker)
        | none => Except.ok ((false, none), checker)

/-- The configuration of the example: the format of the comment on
`ADRoleNameFormatSpec`. -/
def exampleConf : List ADRoleNameFormatCfg :=
  [⟨"r_k8s_", "_", "r_k8s_appCode_envCode_accessLevel"⟩]

/-- An environment with the example format and one mapping for the role
`admins`. -/
def exampleRbacEnv : RbacEnv where
  conf := exampleConf
  AppsForRole := fun role => if role = "admins" then [⟨1, "admins", "shop", "*"⟩] else []

/-- The invariant of an entry of the allowed-apps table: no environment code
twice, and the wildcard only alone. -/
def EnvCodesInvariant (entry : ApplicationRBACObject) : Prop :=
  entry.EnvCodes.Nodup ∧ ("*" ∈ entry.EnvCodes → entry.EnvCodes = ["*"])

/-- The table grants the application `a` in the environment `e`: it has an entry
for `a` whose environment codes contain the wildcard or `e`. -/
def Grants (table : ApplicationRBACObjectMap) (a e : String) : Prop :=
  ∃ entry, table a = some entry ∧ ("*" ∈ entry.EnvCodes ∨ e ∈ entry.EnvCodes)

/-- The mapping grants the application `a` in the environment `e`: it is for all
applications, or for `a` in `e` or in all environments. -/
def MappingGrants (m : RoleToAppMapping) (a e : String) : Prop :=
  m.AppCode = "*" ∨ (m.AppCode = a ∧ (m.EnvCode = e ∨ m.EnvCode = "*"))

/-- The environment codes of the entry of an application after a mapping with
the environment code `envCode`, from the codes `old` it had (`none`: no entry). -/
def nextEnvCodes (old : Option (List String)) (envCode : String) : List String :=
  match old with
  | none => [envCode]
  | some codes =>
    if "*" ∈ codes then codes
    else if envCode = "*" then ["*"]
    else if envCode ∈ codes then codes
    else codes ++ [envCode]

/-- The environment codes that the loop body of `loadAllAllowedApplications`
starts from for the mapping `app`: none after the reset of the entry "*". -/
def oldEnvCodes (objectMap : ApplicationRBACObjectMap) (app : RoleToAppMapping) :
    Option (List String) :=
  if app.AppCode = "*" then some [] else (objectMap app.AppCode).map (fun o => o.EnvCodes)

/-- The ambiguity test of `GetADRoleNameFormats` on two prefixes: one is a
prefix of the other. -/
def PrefixConflict (p q : String) : Bool := HasPrefix p q || HasPrefix q p

/-- No two specs of the list, at different places, have conflicting prefixes. -/
def NoAmbiguousPrefixes (specs : List (Option ADRoleNameFormatSpec)) : Prop :=
  specs.Pairwise (fun x y => ∀ s t, x = some s → y = some t →
    PrefixConflict s.Prefix t.Prefix = false)

/-- Some spec of the list has a prefix that conflicts with `p`. -/
def ConflictsWith (specs : List (Option ADRoleNameFormatSpec)) (p : String) : Prop :=
  ∃ s, some s ∈ specs ∧ PrefixConflict s.Prefix p = true

/-- The texts `x1`, `d`, `x2`, ..., `d`, `xn` in a row. -/
def joinChars (d : Char) : List (List Char) → List Char
  | [] => []
  | [x] => x
  | x :: y :: rest => x ++ d :: joinChars d (y :: rest)

/-- The string `f1 + d + f2 + ... + d + fn`. -/
def joinFields (d : Char) (fields : List String) : String :=
  String.mk (joinChars d (fields.map String.data))

/-- The string has no delimiter `d`, no double quote and no line break. -/
def CleanField (d : Char) (f : String) : Prop :=
  ∀ c ∈ f.data, c ≠ d ∧ c ≠ '"' ∧ c ≠ '\n' ∧ c ≠ '\r'

instance (d : Char) (f : String) : Decidable (CleanField d f) := by
  unfold CleanField; exact inferInstance

/-- An environment whose one format has a format string that does not start
with the prefix of the format, and no configured mapping. -/
def mismatchedRbacEnv : RbacEnv where
  conf := [⟨"a_", "_", "x"⟩]
  AppsForRole := fun _ => []

/-- The field names of a spec: the keys of its field index. -/
def fieldNames (spec : ADRoleNameFormatSpec) : List String := spec.FieldIndex.map Prod.fst

/-- The spec of the format "r_k8s_appCode_envCode_accessLevel" with the prefix
"r_k8s_" and the delimiter '_'. -/
def exampleSpec : ADRoleNameFormatSpec :=
  ⟨"r_k8s_", '_', "appCode_envCode_accessLevel",
    [("appCode", 0), ("envCode", 1), ("accessLevel", 2)]⟩

/-- A sample with the ten labels whose source has no workload, app or version
and whose destination is the workload `wl` without a service name, all in the
namespace `bookinfo`. -/
def unnamedServiceSample (wl : String) (v : Float64) : Sample :=
  ⟨GoMap.ofList
    [("source_workload_namespace", "bookinfo"), ("source_workload", ""),
     ("source_app", ""), ("source_version", ""),
     ("destination_service_namespace", "bookinfo"), ("destination_service_name", ""),
     ("destination_workload_namespace", "bookinfo"), ("destination_workload", wl),
     ("destination_app", "reviews"), ("destination_version", "v1")], v⟩

/-- An environment whose one format has a format string that does not start
with the prefix of the format, and whose mapping source grants every
application in every environment to the role `admins`. -/
def nilFormatRbacEnv : RbacEnv where
  conf := [⟨"a_", "_", "x"⟩]
  AppsForRole := fun role => if role = "admins" then [⟨1, "admins", "*", "*"⟩] else []

/-- The environment `nilFormatRbacEnv` with a configuration without formats. -/
def noFormatRbacEnv : RbacEnv where
  conf := []
  AppsForRole := nilFormatRbacEnv.AppsForRole

/-! # Theorems -/

/-! ## float64 lemmas -/

namespace Float64

theorem pack_isNaN (s : Bool) (m : Nat) (q : Int) : (pack s m q).isNaN = false := by
  unfold pack
  split
  · rfl
  · split <;> rfl

theorem round_isNaN (s : Bool) (M : Nat) (e : Int) : (round s M e).isNaN = false := by
  unfold round
  simp only []
  split_ifs <;> first | rfl | exact pack_isNaN _ _ _

theorem ofNat_thousand : ofNat 1000 = finite false 1032 4292493394837504 := by decide

/-- Multiplying by `1000.0` gives NaN only from NaN. -/
theorem mul_thousand_isNaN (v : Float64) : (mul v (ofNat 1000)).isNaN = v.isNaN := by
  rw [ofNat_thousand]
  cases v with
  | nan => rfl
  | inf s => simp [mul, isNaN]
  | finite s e f => simp only [mul, isNaN]; exact round_isNaN _ _ _

end Float64

/-! ## lemmas on the merge -/

theorem GoMap.set_same {V : Type} (m : GoMap V) (k : String) (v : V) : (m.set k v) k = some v := by
  simp [GoMap.set]

theorem GoMap.set_other {V : Type} (m : GoMap V) (k k' : String) (v : V) (h : k' ≠ k) :
    (m.set k v) k' = m k' := by
  simp [GoMap.set, h]

theorem Sample.wellFormed_iff (s : Sample) :
    s.WellFormed ↔
      ((s.Metric "source_workload_namespace").isSome = true ∧
       (s.Metric "source_workload").isSome = true ∧
       (s.Metric "source_app").isSome = true ∧
       (s.Metric "source_version").isSome = true ∧
       (s.Metric "destination_service_namespace").isSome = true ∧
       (s.Metric "destination_service_name").isSome = true ∧
       (s.Metric "destination_workload_namespace").isSome = true ∧
       (s.Metric "destination_workload").isSome = true ∧
       (s.Metric "destination_app").isSome = true ∧
       (s.Metric "destination_version").isSome = true) := by
  simp [Sample.WellFormed, expectedLabels]

/-- A sample that lacks a label is skipped. -/
theorem populateSample_of_not_wellFormed (g : GraphPkg) (a : ResponseTimeAppender)
    (m : GoMap Float64) (s : Sample) (h : ¬ s.WellFormed) : populateSample g a m s = m := by
  rw [Sample.wellFormed_iff] at h
  unfold populateSample
  simp only []
  split
  · rfl
  · rename_i hc
    exfalso
    apply h
    simpa [and_assoc, Option.isSome_iff_ne_none] using hc

/-- A sample whose value is NaN is skipped. -/
theorem populateSample_of_nan (g : GraphPkg) (a : ResponseTimeAppender)
    (m : GoMap Float64) (s : Sample) (h : s.Value.isNaN = true) : populateSample g a m s = m := by
  unfold populateSample
  simp only [Float64.mul_thousand_isNaN, h]
  split <;> rfl

/-- A sample with the ten labels and a number as value is stored under its key. -/
theorem populateSample_of_stored (g : GraphPkg) (a : ResponseTimeAppender)
    (m : GoMap Float64) (s : Sample) (h : s.Stored) :
    populateSample g a m s = m.set (sampleKey g a s) (Float64.mul s.Value (Float64.ofNat 1000)) := by
  obtain ⟨hw, hv⟩ := h
  rw [Sample.wellFormed_iff] at hw
  obtain ⟨h1, h2, h3, h4, h5, h6, h7, h8, h9, h10⟩ := hw
  unfold populateSample sampleKey
  simp only [Float64.mul_thousand_isNaN, hv, h1, h2, h3, h4, h5, h6, h7, h8, h9, h10]
  by_cases hi : a.InjectServiceNodes = true
  · by_cases ht : (destIdentity g a s).2 = g.NodeTypeService
    · simp [hi, ht, addResponseTime, sourceID, destIdentity, Sample.label] at *
      simp [ht]
    · simp [hi, ht, addResponseTime, serviceID, destIdentity, Sample.label] at *
      simp [ht]
  · simp [hi, addResponseTime, sourceID, destIdentity, Sample.label]

/-- What the loop body does with a sample: it stores the sample under its key if
the sample has the ten labels and a number as value, and skips it otherwise. -/
theorem populateSample_eq (g : GraphPkg) (a : ResponseTimeAppender) (m : GoMap Float64)
    (s : Sample) :
    populateSample g a m s =
      if s.Stored then m.set (sampleKey g a s) (Float64.mul s.Value (Float64.ofNat 1000)) else m := by
  by_cases h : s.Stored
  · rw [if_pos h]; exact populateSample_of_stored g a m s h
  · rw [if_neg h]
    by_cases hw : s.WellFormed
    · have hv : s.Value.isNaN = true := by
        cases hn : s.Value.isNaN
        · exact absurd ⟨hw, hn⟩ h
        · rfl
      exact populateSample_of_nan g a m s hv
    · exact populateSample_of_not_wellFormed g a m s hw

theorem populateResponseTimeMap_append (g : GraphPkg) (a : ResponseTimeAppender)
    (m : GoMap Float64) (xs ys : Vector) :
    populateResponseTimeMap g a m (xs ++ ys) =
      populateResponseTimeMap g a (populateResponseTimeMap g a m xs) ys := by
  induction xs generalizing m with
  | nil => rfl
  | cons x xs ih => simp only [List.cons_append, populateResponseTimeMap]; exact ih _

/-- Skipping a sample in the middle of a vector. -/
theorem populateResponseTimeMap_skip (g : GraphPkg) (a : ResponseTimeAppender)
    (m : GoMap Float64) (xs ys : Vector) (s : Sample)
    (h : ∀ m' : GoMap Float64, populateSample g a m' s = m') :
    populateResponseTimeMap g a m (xs ++ s :: ys) = populateResponseTimeMap g a m (xs ++ ys) := by
  rw [populateResponseTimeMap_append, populateResponseTimeMap_append]
  simp only [populateResponseTimeMap, h]

/-- A key that no stored sample of the vector resolves to keeps its entry. -/
theorem populateResponseTimeMap_untouched (g : GraphPkg) (a : ResponseTimeAppender)
    (m : GoMap Float64) (vector : Vector) (k : String)
    (h : ∀ t ∈ vector, t.Stored → sampleKey g a t ≠ k) :
    populateResponseTimeMap g a m vector k = m k := by
  induction vector generalizing m with
  | nil => rfl
  | cons s rest ih =>
    simp only [populateResponseTimeMap]
    rw [ih _ (fun t ht => h t (List.mem_cons_of_mem _ ht)), populateSample_eq]
    split
    · rename_i hs
      exact GoMap.set_other _ _ _ _ (fun hk => h s (List.mem_cons_self _ _) hs hk.symm)
    · rfl

/-! ## lemmas on the apply phase -/

theorem applyEdge_of_none (g : GraphPkg) (rtm : GoMap Float64) (e : Edge)
    (h : rtm (edgeKey e.Source e.Dest) = none) : applyEdge g rtm e = e := by
  simp [applyEdge, h]

theorem applyEdge_of_some (g : GraphPkg) (rtm : GoMap Float64) (e : Edge) (val : Float64)
    (h : rtm (edgeKey e.Source e.Dest) = some val) :
    applyEdge g rtm e =
      { e with Metadata := e.Metadata.set g.ResponseTime (MetadataValue.float64 val) } := by
  simp [applyEdge, h]

/-- The edge at position `j` of the node at position `i` after the apply phase
is the loop body applied to the edge that was there. -/
theorem applyResponseTime_edge (g : GraphPkg) (tm : TrafficMap) (rtm : GoMap Float64)
    (i j : Nat) (id : String) (n : Node) (e : Edge)
    (hn : tm[i]? = some (id, n)) (he : n.Edges[j]? = some e) :
    ∃ n' : Node, (applyResponseTime g tm rtm)[i]? = some (id, n') ∧
      n'.Edges[j]? = some (applyEdge g rtm e) := by
  refine ⟨{ n with Edges := n.Edges.map (applyEdge g rtm) }, ?_, ?_⟩
  · simp [applyResponseTime, List.getElem?_map, hn]
  · simp [List.getElem?_map, he]

/-! ## the claims -/

/-- C1: for every node of the traffic map and every edge `e` of that node, after
`applyResponseTime` the edge at the same place has, when the key
"<e.Source.ID> <e.Dest.ID>" is in the response-time map, the mapped value as its
response-time metadata, and, when the key is not in the map, the metadata it
had before, so that an absent response-time field stays absent. -/
theorem applyResponseTime_sets_mapped_value (g : GraphPkg) (tm : TrafficMap)
    (rtm : GoMap Float64) (i j : Nat) (id : String) (n : Node) (e : Edge)
    (hn : tm[i]? = some (id, n)) (he : n.Edges[j]? = some e) :
    ∃ (n' : Node) (e' : Edge),
      (applyResponseTime g tm rtm)[i]? = some (id, n') ∧ n'.Edges[j]? = some e' ∧
      (∀ val, rtm (edgeKey e.Source e.Dest) = some val →
        e'.Metadata g.ResponseTime = some (MetadataValue.float64 val)) ∧
      (rtm (edgeKey e.Source e.Dest) = none →
        e'.Metadata = e.Metadata ∧
        (e.Metadata g.ResponseTime = none → e'.Metadata g.ResponseTime = none)) := by
  obtain ⟨n', h1, h2⟩ := applyResponseTime_edge g tm rtm i j id n e hn he
  refine ⟨n', applyEdge g rtm e, h1, h2, ?_, ?_⟩
  · intro val hv
    rw [applyEdge_of_some g rtm e val hv]
    exact GoMap.set_same _ _ _
  · intro hv
    rw [applyEdge_of_none g rtm e hv]
    exact ⟨rfl, fun h => h⟩

/-- Witness of C1: a node with the edge "a b", whose key is mapped to 250, and
the edge "a c", whose key is not mapped and which has no metadata. -/
theorem applyResponseTime_sets_mapped_value_witness :
    (∃ (n' : Node) (e' : Edge),
      (applyResponseTime exampleGraph
          [("a", exampleNode "a" [exampleEdge "a" "b", exampleEdge "a" "c"])]
          (GoMap.empty.set "a b" (Float64.ofNat 250)))[0]? = some ("a", n') ∧
      n'.Edges[0]? = some e' ∧
      e'.Metadata "responseTime" = some (MetadataValue.float64 (Float64.ofNat 250))) ∧
    (∃ (n' : Node) (e' : Edge),
      (applyResponseTime exampleGraph
          [("a", exampleNode "a" [exampleEdge "a" "b", exampleEdge "a" "c"])]
          (GoMap.empty.set "a b" (Float64.ofNat 250)))[0]? = some ("a", n') ∧
      n'.Edges[1]? = some e' ∧
      e'.Metadata = GoMap.empty ∧ e'.Metadata "responseTime" = none) :=
  ⟨match applyResponseTime_sets_mapped_value exampleGraph
      [("a", exampleNode "a" [exampleEdge "a" "b", exampleEdge "a" "c"])]
      (GoMap.empty.set "a b" (Float64.ofNat 250)) 0 0 "a"
      (exampleNode "a" [exampleEdge "a" "b", exampleEdge "a" "c"]) (exampleEdge "a" "b")
      rfl rfl with
    | ⟨n', e', h1, h2, h3, _⟩ => ⟨n', e', h1, h2, h3 (Float64.ofNat 250) (by decide)⟩,
   match applyResponseTime_sets_mapped_value exampleGraph
      [("a", exampleNode "a" [exampleEdge "a" "b", exampleEdge "a" "c"])]
      (GoMap.empty.set "a b" (Float64.ofNat 250)) 0 1 "a"
      (exampleNode "a" [exampleEdge "a" "b", exampleEdge "a" "c"]) (exampleEdge "a" "c")
      rfl rfl with
    | ⟨n', e', h1, h2, _, h4⟩ => ⟨n', e', h1, h2, (h4 (by decide)).1, (h4 (by decide)).2 rfl⟩⟩

/-- C2: with `InjectServiceNodes = false`, for a sample that carries the ten
expected labels and whose value `v` is not NaN, `populateResponseTimeMap` on
the one-sample vector stores exactly `v * 1000` under the key
"<sourceID> <destID>" and changes no other key of the map. -/
theorem populateResponseTimeMap_stores_millis (g : GraphPkg) (a : ResponseTimeAppender)
    (m : GoMap Float64) (s : Sample) (hinject : a.InjectServiceNodes = false)
    (hlabels : s.WellFormed) (hvalue : s.Value.isNaN = false) :
    populateResponseTimeMap g a m [s] (edgeKey (sourceID g a s) (destIdentity g a s).1) =
        some (Float64.mul s.Value (Float64.ofNat 1000)) ∧
      ∀ k, k ≠ edgeKey (sourceID g a s) (destIdentity g a s).1 →
        populateResponseTimeMap g a m [s] k = m k := by
  have hk : sampleKey g a s = edgeKey (sourceID g a s) (destIdentity g a s).1 := by
    simp [sampleKey, hinject]
  simp only [populateResponseTimeMap]
  rw [populateSample_of_stored g a m s ⟨hlabels, hvalue⟩, hk]
  exact ⟨GoMap.set_same _ _ _, fun k hne => GoMap.set_other _ _ _ _ hne⟩

/-- Witness of C2: the value 0.25 is stored as 250.0. -/
theorem populateResponseTimeMap_stores_millis_witness :
    populateResponseTimeMap exampleGraph (exampleAppender false) GoMap.empty
        [exampleSample "reviews" "reviews-v1" quarter]
        "wl_bookinfo_productpage-v1 wl_bookinfo_reviews-v1" = some (Float64.ofNat 250) ∧
      ∀ k, k ≠ "wl_bookinfo_productpage-v1 wl_bookinfo_reviews-v1" →
        populateResponseTimeMap exampleGraph (exampleAppender false) GoMap.empty
          [exampleSample "reviews" "reviews-v1" quarter] k = GoMap.empty k :=
  populateResponseTimeMap_stores_millis exampleGraph (exampleAppender false) GoMap.empty
    (exampleSample "reviews" "reviews-v1" quarter) rfl (by decide) (by decide)

/-- C3: a sample whose value is NaN leaves the response-time map unchanged, the
samples after it are still processed, and an edge whose key only NaN samples
of the vector resolve to is left as it was by `applyResponseTime` with the map
built from that vector. -/
theorem populateResponseTimeMap_drops_nan (g : GraphPkg) (a : ResponseTimeAppender)
    (m : GoMap Float64) (xs ys : Vector) (s : Sample) (hnan : s.Value.isNaN = true) :
    populateSample g a m s = m ∧
      populateResponseTimeMap g a m (xs ++ s :: ys) = populateResponseTimeMap g a m (xs ++ ys) ∧
      ∀ (vector : Vector) (tm : TrafficMap) (i j : Nat) (id : String) (n : Node) (e : Edge),
        tm[i]? = some (id, n) → n.Edges[j]? = some e →
        (∀ t ∈ vector, t.WellFormed → sampleKey g a t = edgeKey e.Source e.Dest →
          t.Value.isNaN = true) →
        populateResponseTimeMap g a GoMap.empty vector (edgeKey e.Source e.Dest) = none ∧
        ∃ n' : Node,
          (applyResponseTime g tm (populateResponseTimeMap g a GoMap.empty vector))[i]?
            = some (id, n') ∧ n'.Edges[j]? = some e := by
  refine ⟨populateSample_of_nan g a m s hnan, ?_, ?_⟩
  · exact populateResponseTimeMap_skip g a m xs ys s
      (fun m' => populateSample_of_nan g a m' s hnan)
  · intro vector tm i j id n e hn he hfed
    have hnone : populateResponseTimeMap g a GoMap.empty vector (edgeKey e.Source e.Dest)
        = none := by
      rw [populateResponseTimeMap_untouched g a GoMap.empty vector _]
      · rfl
      · intro t ht hst hk
        have := hfed t ht hst.1 hk
        rw [hst.2] at this
        exact Bool.noConfusion this
    refine ⟨hnone, ?_⟩
    obtain ⟨n', h1, h2⟩ := applyResponseTime_edge g tm _ i j id n e hn he
    rw [applyEdge_of_none g _ e hnone] at h2
    exact ⟨n', h1, h2⟩

/-- Witness of C3: a NaN sample between two samples with numbers as values, and
the edge from `productpage-v1` to `reviews-v1` when the vector holds only a NaN
sample for it. -/
theorem populateResponseTimeMap_drops_nan_witness :
    populateSample exampleGraph (exampleAppender false) GoMap.empty
        (exampleSample "reviews" "reviews-v1" Float64.nan) = GoMap.empty ∧
      populateResponseTimeMap exampleGraph (exampleAppender false) GoMap.empty
          ([exampleSample "details" "details-v1" quarter]
            ++ exampleSample "reviews" "reviews-v1" Float64.nan
              :: [exampleSample "ratings" "ratings-v1" quarter]) =
        populateResponseTimeMap exampleGraph (exampleAppender false) GoMap.empty
          ([exampleSample "details" "details-v1" quarter]
            ++ [exampleSample "ratings" "ratings-v1" quarter]) ∧
      (populateResponseTimeMap exampleGraph (exampleAppender false) GoMap.empty
          [exampleSample "reviews" "reviews-v1" Float64.nan]
          (edgeKey (exampleEdge "wl_bookinfo_productpage-v1" "wl_bookinfo_reviews-v1").Source
            (exampleEdge "wl_bookinfo_productpage-v1" "wl_bookinfo_reviews-v1").Dest) = none ∧
        ∃ n' : Node,
          (applyResponseTime exampleGraph
              [("wl_bookinfo_productpage-v1", exampleNode "wl_bookinfo_productpage-v1"
                [exampleEdge "wl_bookinfo_productpage-v1" "wl_bookinfo_reviews-v1"])]
              (populateResponseTimeMap exampleGraph (exampleAppender false) GoMap.empty
                [exampleSample "reviews" "reviews-v1" Float64.nan]))[0]?
            = some ("wl_bookinfo_productpage-v1", n') ∧
          n'.Edges[0]? =
            some (exampleEdge "wl_bookinfo_productpage-v1" "wl_bookinfo_reviews-v1")) :=
  ⟨(populateResponseTimeMap_drops_nan exampleGraph (exampleAppender false) GoMap.empty
      [exampleSample "details" "details-v1" quarter] [exampleSample "ratings" "ratings-v1" quarter]
      (exampleSample "reviews" "reviews-v1" Float64.nan) rfl).1,
   (populateResponseTimeMap_drops_nan exampleGraph (exampleAppender false) GoMap.empty
      [exampleSample "details" "details-v1" quarter] [exampleSample "ratings" "ratings-v1" quarter]
      (exampleSample "reviews" "reviews-v1" Float64.nan) rfl).2.1,
   (populateResponseTimeMap_drops_nan exampleGraph (exampleAppender false) GoMap.empty
      [exampleSample "details" "details-v1" quarter] [exampleSample "ratings" "ratings-v1" quarter]
      (exampleSample "reviews" "reviews-v1" Float64.nan) rfl).2.2
      [exampleSample "reviews" "reviews-v1" Float64.nan]
      [("wl_bookinfo_productpage-v1", exampleNode "wl_bookinfo_productpage-v1"
        [exampleEdge "wl_bookinfo_productpage-v1" "wl_bookinfo_reviews-v1"])]
      0 0 "wl_bookinfo_productpage-v1"
      (exampleNode "wl_bookinfo_productpage-v1"
        [exampleEdge "wl_bookinfo_productpage-v1" "wl_bookinfo_reviews-v1"])
      (exampleEdge "wl_bookinfo_productpage-v1" "wl_bookinfo_reviews-v1") rfl rfl
      (by
        intro t ht _ _
        rw [List.mem_singleton] at ht
        subst ht
        rfl)⟩

/-- C4: a sample that lacks at least one of the ten expected labels contributes
no entry and does not stop the samples after it: on `xs ++ [bad] ++ ys` the
merge gives the same map as on `xs ++ ys`. -/
theorem populateResponseTimeMap_skips_malformed (g : GraphPkg) (a : ResponseTimeAppender)
    (m : GoMap Float64) (xs ys : Vector) (bad : Sample)
    (hbad : ∃ l ∈ expectedLabels, bad.Metric l = none) :
    populateResponseTimeMap g a m (xs ++ [bad] ++ ys) = populateResponseTimeMap g a m (xs ++ ys) := by
  have hw : ¬ bad.WellFormed := by
    obtain ⟨l, hl, hnone⟩ := hbad
    intro h
    have := h l hl
    rw [hnone] at this
    exact Bool.noConfusion this
  rw [List.append_assoc, List.singleton_append]
  exact populateResponseTimeMap_skip g a m xs ys bad
    (fun m' => populateSample_of_not_wellFormed g a m' bad hw)

/-- Witness of C4: a sample without "destination_service_namespace" between two
samples that have all labels. -/
theorem populateResponseTimeMap_skips_malformed_witness :
    populateResponseTimeMap exampleGraph (exampleAppender false) GoMap.empty
        ([exampleSample "details" "details-v1" quarter]
          ++ [malformedSample "reviews" "reviews-v1" quarter]
          ++ [exampleSample "ratings" "ratings-v1" quarter]) =
      populateResponseTimeMap exampleGraph (exampleAppender false) GoMap.empty
        ([exampleSample "details" "details-v1" quarter]
          ++ [exampleSample "ratings" "ratings-v1" quarter]) :=
  populateResponseTimeMap_skips_malformed exampleGraph (exampleAppender false) GoMap.empty
    [exampleSample "details" "details-v1" quarter] [exampleSample "ratings" "ratings-v1" quarter]
    (malformedSample "reviews" "reviews-v1" quarter)
    ⟨"destination_service_namespace", by decide, by decide⟩

theorem edgeKey_left_inj (s₁ s₂ d : String) (h : edgeKey s₁ d = edgeKey s₂ d) : s₁ = s₂ := by
  have h' := congrArg String.data h
  simp only [edgeKey, String.data_append, List.append_left_inj] at h'
  exact String.ext h'

/-- C5: with `InjectServiceNodes = true`, a sample with the ten labels and a
number as value whose destination is not a service node is stored only under
the key of the synthetic service edge, "<serviceID> <destID>".  Nothing is
written under "<sourceID> <destID>" when the source ID differs from the ID of
the synthetic service node; when the two IDs are the same the two keys are
one key, and the value is stored under it.  When the destination is a service
node the sample is stored under "<sourceID> <destID>" as without injection. -/
theorem populateResponseTimeMap_inject_service (g : GraphPkg) (a : ResponseTimeAppender)
    (m : GoMap Float64) (s : Sample) (hinject : a.InjectServiceNodes = true)
    (hlabels : s.WellFormed) (hvalue : s.Value.isNaN = false) :
    ((destIdentity g a s).2 ≠ g.NodeTypeService →
      populateResponseTimeMap g a m [s] =
          m.set (edgeKey (serviceID g a s) (destIdentity g a s).1)
            (Float64.mul s.Value (Float64.ofNat 1000)) ∧
        (∀ k, k ≠ edgeKey (serviceID g a s) (destIdentity g a s).1 →
          populateResponseTimeMap g a m [s] k = m k) ∧
        (sourceID g a s ≠ serviceID g a s →
          populateResponseTimeMap g a m [s] (edgeKey (sourceID g a s) (destIdentity g a s).1) =
            m (edgeKey (sourceID g a s) (destIdentity g a s).1)) ∧
        (sourceID g a s = serviceID g a s →
          populateResponseTimeMap g a m [s] (edgeKey (sourceID g a s) (destIdentity g a s).1) =
            some (Float64.mul s.Value (Float64.ofNat 1000)))) ∧
    ((destIdentity g a s).2 = g.NodeTypeService →
      populateResponseTimeMap g a m [s] =
        m.set (edgeKey (sourceID g a s) (destIdentity g a s).1)
          (Float64.mul s.Value (Float64.ofNat 1000))) := by
  simp only [populateResponseTimeMap]
  rw [populateSample_of_stored g a m s ⟨hlabels, hvalue⟩]
  constructor
  · intro ht
    have hk : sampleKey g a s = edgeKey (serviceID g a s) (destIdentity g a s).1 := by
      simp [sampleKey, hinject, ht]
    rw [hk]
    refine ⟨rfl, fun k hne => GoMap.set_other _ _ _ _ hne, fun hne => ?_, fun heq => ?_⟩
    · exact GoMap.set_other _ _ _ _ (fun h => hne (edgeKey_left_inj _ _ _ h))
    · rw [heq]
      exact GoMap.set_same _ _ _
  · intro ht
    have hk : sampleKey g a s = edgeKey (sourceID g a s) (destIdentity g a s).1 := by
      simp [sampleKey, ht]
    rw [hk]

/-- Witness of C5: a sample to the workload `reviews-v1` is stored on the edge
from the service `reviews` and leaves the edge from `productpage-v1` without
value; a sample to the service `reviews` alone is stored on the edge from
`productpage-v1`. -/
theorem populateResponseTimeMap_inject_service_witness :
    (populateResponseTimeMap exampleGraph (exampleAppender true) GoMap.empty
        [exampleSample "reviews" "reviews-v1" quarter] =
      GoMap.empty.set "svc_bookinfo_reviews wl_bookinfo_reviews-v1" (Float64.ofNat 250) ∧
     populateResponseTimeMap exampleGraph (exampleAppender true) GoMap.empty
        [exampleSample "reviews" "reviews-v1" quarter]
        "wl_bookinfo_productpage-v1 wl_bookinfo_reviews-v1" = none) ∧
    populateResponseTimeMap exampleGraph (exampleAppender true) GoMap.empty
        [exampleSample "reviews" "" quarter] =
      GoMap.empty.set "wl_bookinfo_productpage-v1 svc_bookinfo_reviews" (Float64.ofNat 250) :=
  ⟨⟨((populateResponseTimeMap_inject_service exampleGraph (exampleAppender true) GoMap.empty
        (exampleSample "reviews" "reviews-v1" quarter) rfl (by decide) (by decide)).1
        (by decide)).1,
    ((populateResponseTimeMap_inject_service exampleGraph (exampleAppender true) GoMap.empty
        (exampleSample "reviews" "reviews-v1" quarter) rfl (by decide) (by decide)).1
        (by decide)).2.2.1 (by decide)⟩,
   (populateResponseTimeMap_inject_service exampleGraph (exampleAppender true) GoMap.empty
      (exampleSample "reviews" "" quarter) rfl (by decide) (by decide)).2 (by decide)⟩

/-- C5, at an input where the two keys are one: the sample has the ten labels
and the value 0.25, its destination is the workload `reviews-v1` (not a
service node), its source has no workload, app or version and its
`destination_service_name` is empty.  The source ID and the ID of the
synthetic service node are then the same call of `Id`, for every resolver,
and with `InjectServiceNodes = true` the value 250 is stored under
"<sourceID> <destID>". -/
theorem populateResponseTimeMap_inject_service_same_key :
    (unnamedServiceSample "reviews-v1" quarter).WellFormed ∧
    (unnamedServiceSample "reviews-v1" quarter).Value.isNaN = false ∧
    (destIdentity exampleGraph (exampleAppender true)
      (unnamedServiceSample "reviews-v1" quarter)).2 ≠ exampleGraph.NodeTypeService ∧
    (∀ (g : GraphPkg) (a : ResponseTimeAppender),
      sourceID g a (unnamedServiceSample "reviews-v1" quarter) =
        serviceID g a (unnamedServiceSample "reviews-v1" quarter)) ∧
    edgeKey (sourceID exampleGraph (exampleAppender true)
        (unnamedServiceSample "reviews-v1" quarter))
      (destIdentity exampleGraph (exampleAppender true)
        (unnamedServiceSample "reviews-v1" quarter)).1 =
      "unknown_bookinfo wl_bookinfo_reviews-v1" ∧
    populateResponseTimeMap exampleGraph (exampleAppender true) GoMap.empty
        [unnamedServiceSample "reviews-v1" quarter]
        "unknown_bookinfo wl_bookinfo_reviews-v1" = some (Float64.ofNat 250) ∧
    populateResponseTimeMap exampleGraph (exampleAppender true) GoMap.empty
        [unnamedServiceSample "reviews-v1" quarter] =
      GoMap.empty.set "unknown_bookinfo wl_bookinfo_reviews-v1" (Float64.ofNat 250) := by
  refine ⟨by decide, by decide, by decide, fun g a => rfl, by decide, by decide, ?_⟩
  funext k
  simp only [populateResponseTimeMap, List.foldl]
  rfl

/-- What `quantile` returns for a configured quantile that is a number: the
configured quantile inside the open interval (0, 100), the default outside. -/
theorem quantile_of_number (a : ResponseTimeAppender) (h : a.Quantile.isNaN = false) :
    quantile a =
      if Float64.lt (Float64.ofNat 0) a.Quantile && Float64.lt a.Quantile (Float64.ofNat 100)
      then a.Quantile else defaultQuantile := by
  have h0 : (Float64.ofNat 0).isNaN = false := by decide
  have h100 : (Float64.ofNat 100).isNaN = false := by decide
  have k0 : (Float64.ofNat 0).key = 0 := by decide
  have k100 : (Float64.ofNat 100).key = 4636737291354636288 := by decide
  unfold quantile Float64.ge Float64.le Float64.lt
  rw [h, h0, h100, k0, k100]
  generalize a.Quantile.key = k
  by_cases h1 : k ≤ 0 <;> by_cases h2 : (4636737291354636288 : Int) ≤ k
  · simp only [h1, h2, decide_True, Bool.not_false, Bool.true_and, Bool.or_self, if_true]
    rw [if_neg]; simp; omega
  · simp only [h1, h2, decide_True, decide_False, Bool.not_false, Bool.true_and, Bool.or_false, if_true]
    rw [if_neg]; simp; omega
  · simp only [h1, h2, decide_True, decide_False, Bool.not_false, Bool.true_and, Bool.false_or, if_true]
    rw [if_neg]; simp; omega
  · have h3 : 0 < k := by omega
    have h4 : k < 4636737291354636288 := by omega
    simp [h1, h2, h3, h4]

/-- The inputs 0, 100, -5 and 150 resolve to the default 95.0 and 99.9 passes
through. -/
theorem quantile_examples :
    quantile (quantileAppender (Float64.ofNat 0)) = Float64.ofNat 95 ∧
    quantile (quantileAppender (Float64.ofNat 100)) = Float64.ofNat 95 ∧
    quantile (quantileAppender (Float64.neg (Float64.ofNat 5))) = Float64.ofNat 95 ∧
    quantile (quantileAppender (Float64.ofNat 150)) = Float64.ofNat 95 ∧
    quantile (quantileAppender ninetyNinePointNine) = ninetyNinePointNine := by
  decide

/-- C6, at the failing input: a configured quantile NaN is not inside the open
interval (0, 100), and `appendGraph` builds its queries with NaN, not with the
default 95.0. -/
theorem quantile_nan_not_replaced :
    (Float64.lt (Float64.ofNat 0) (quantileAppender Float64.nan).Quantile &&
        Float64.lt (quantileAppender Float64.nan).Quantile (Float64.ofNat 100)) = false ∧
      quantile (quantileAppender Float64.nan) = Float64.nan ∧
      quantile (quantileAppender Float64.nan) ≠ defaultQuantile := by
  decide

theorem applyEdge_frame (g : GraphPkg) (rtm : GoMap Float64) (e : Edge) :
    EdgeFrame g e (applyEdge g rtm e) := by
  unfold applyEdge
  simp only []
  split
  · exact ⟨rfl, rfl, fun k hk => GoMap.set_other _ _ _ _ hk⟩
  · exact ⟨rfl, rfl, fun _ _ => rfl⟩

theorem forall₂_map_of_forall {α : Type} (R : α → α → Prop) (f : α → α) (h : ∀ x, R x (f x))
    (l : List α) : List.Forall₂ R l (l.map f) := by
  induction l with
  | nil => exact List.Forall₂.nil
  | cons x xs ih => exact List.Forall₂.cons (h x) ih

/-- C7: `applyResponseTime` changes only the response-time metadata of edges:
the traffic map after the call has the same entries in the same places, each
with the ID, the identity fields and the metadata of the node before, and with
as many edges, each with the source, the destination and every metadata entry
other than the response time that it had before. -/
theorem applyResponseTime_frame (g : GraphPkg) (tm : TrafficMap) (rtm : GoMap Float64) :
    (applyResponseTime g tm rtm).map Prod.fst = tm.map Prod.fst ∧
      List.Forall₂ (fun entry entry' => entry'.1 = entry.1 ∧ NodeFrame g entry.2 entry'.2)
        tm (applyResponseTime g tm rtm) := by
  constructor
  · simp [applyResponseTime, List.map_map, Function.comp_def]
  · unfold applyResponseTime
    apply forall₂_map_of_forall
    intro entry
    refine ⟨rfl, rfl, rfl, rfl, rfl, rfl, rfl, rfl, ?_⟩
    exact forall₂_map_of_forall _ _ (applyEdge_frame g rtm) _

theorem GoMap.set_set {V : Type} (m : GoMap V) (k : String) (v : V) :
    (m.set k v).set k v = m.set k v := by
  funext k'
  simp only [GoMap.set]
  split <;> rfl

theorem applyEdge_idem (g : GraphPkg) (rtm : GoMap Float64) (e : Edge) :
    applyEdge g rtm (applyEdge g rtm e) = applyEdge g rtm e := by
  cases h : rtm (edgeKey e.Source e.Dest) with
  | none => rw [applyEdge_of_none g rtm e h, applyEdge_of_none g rtm e h]
  | some val =>
    rw [applyEdge_of_some g rtm e val h]
    rw [applyEdge_of_some g rtm
      { e with Metadata := e.Metadata.set g.ResponseTime (MetadataValue.float64 val) } val h]
    simp [GoMap.set_set]

theorem applyResponseTime_idem (g : GraphPkg) (tm : TrafficMap) (rtm : GoMap Float64) :
    applyResponseTime g (applyResponseTime g tm rtm) rtm = applyResponseTime g tm rtm := by
  simp [applyResponseTime, List.map_map, Function.comp_def, applyEdge_idem]

/-- The map `appendGraph` applies is the merge of the vectors of its queries,
in their order, into an empty map. -/
theorem mergedResponseTimeMap_eq_mergeAll (g : GraphPkg) (q : QueryEnv)
    (a : ResponseTimeAppender) (ns : String) (client : Client) :
    mergedResponseTimeMap g q a ns client =
      mergeAll g a GoMap.empty (queryVectors q a ns client) := by
  unfold mergedResponseTimeMap queryVectors mergeAll
  cases q.IsIstioNamespace ns <;> simp

/-- C8: the merge-and-apply step is idempotent: for every traffic map and every
sequence of query result vectors, merging the vectors and applying the map to
the graph that the same step has already enriched gives the graph of the first
run; so does a second run of `appendGraph` with the same query results. -/
theorem appendGraph_idempotent (g : GraphPkg) (q : QueryEnv) (a : ResponseTimeAppender)
    (tm : TrafficMap) (ns : String) (client : Client) (vectors : List Vector) :
    applyResponseTime g (applyResponseTime g tm (mergeAll g a GoMap.empty vectors))
        (mergeAll g a GoMap.empty vectors) =
      applyResponseTime g tm (mergeAll g a GoMap.empty vectors) ∧
    appendGraph g q a (appendGraph g q a tm ns client) ns client =
      appendGraph g q a tm ns client :=
  ⟨applyResponseTime_idem g tm _, applyResponseTime_idem g tm _⟩

theorem mergeAll_eq_populate_flatten (g : GraphPkg) (a : ResponseTimeAppender) (m : GoMap Float64)
    (vectors : List Vector) :
    mergeAll g a m vectors = populateResponseTimeMap g a m vectors.flatten := by
  induction vectors generalizing m with
  | nil => rfl
  | cons v vs ih =>
    simp only [mergeAll, List.foldl_cons, List.flatten_cons, populateResponseTimeMap_append]
    exact ih _

/-- The last stored sample of a key decides the entry of the key. -/
theorem populateResponseTimeMap_last (g : GraphPkg) (a : ResponseTimeAppender)
    (m : GoMap Float64) (xs ys : Vector) (s : Sample) (hs : s.Stored)
    (hlast : ∀ t ∈ ys, t.Stored → sampleKey g a t ≠ sampleKey g a s) :
    populateResponseTimeMap g a m (xs ++ s :: ys) (sampleKey g a s) =
      some (Float64.mul s.Value (Float64.ofNat 1000)) := by
  rw [populateResponseTimeMap_append]
  simp only [populateResponseTimeMap]
  rw [populateResponseTimeMap_untouched g a _ ys _ hlast, populateSample_of_stored g a _ s hs]
  exact GoMap.set_same _ _ _

/-- C9: merging is last-write-wins: when the samples of the merged vectors,
taken in the order of the merge, are `xs`, then a stored sample `s`, then
samples `ys` of which none that is stored resolves to the key of `s`, the map
holds the value of `s` times 1000 under that key after all calls of
`populateResponseTimeMap`, whatever `xs` wrote there; `appendGraph` merges in
the order unknown source, outside, inside, supplemental. -/
theorem mergeAll_last_write_wins (g : GraphPkg) (q : QueryEnv) (a : ResponseTimeAppender)
    (m : GoMap Float64) (vectors : List Vector) (xs ys : Vector) (s : Sample)
    (hsplit : vectors.flatten = xs ++ s :: ys) (hs : s.Stored)
    (hlast : ∀ t ∈ ys, t.Stored → sampleKey g a t ≠ sampleKey g a s) :
    mergeAll g a m vectors (sampleKey g a s) = some (Float64.mul s.Value (Float64.ofNat 1000)) ∧
      ∀ (ns : String) (client : Client), queryVectors q a ns client = vectors →
        mergedResponseTimeMap g q a ns client (sampleKey g a s) =
          some (Float64.mul s.Value (Float64.ofNat 1000)) := by
  have h : ∀ m', mergeAll g a m' vectors (sampleKey g a s) =
      some (Float64.mul s.Value (Float64.ofNat 1000)) := by
    intro m'
    rw [mergeAll_eq_populate_flatten, hsplit]
    exact populateResponseTimeMap_last g a m' xs ys s hs hlast
  refine ⟨h m, fun ns client hv => ?_⟩
  rw [mergedResponseTimeMap_eq_mergeAll, hv]
  exact h _

/-- Witness of C9: the same edge reported as 0.25 s by the first query and as
2 s by the third one holds 2000 ms. -/
theorem mergeAll_last_write_wins_witness :
    mergeAll exampleGraph (exampleAppender false) GoMap.empty
        [[exampleSample "reviews" "reviews-v1" quarter], [],
         [exampleSample "reviews" "reviews-v1" (Float64.ofNat 2)]]
        "wl_bookinfo_productpage-v1 wl_bookinfo_reviews-v1" = some (Float64.ofNat 2000) ∧
      mergedResponseTimeMap exampleGraph exampleQueryEnv (exampleAppender false) "bookinfo"
        (exampleClient "bookinfo" [exampleSample "reviews" "reviews-v1" quarter]
          [exampleSample "reviews" "reviews-v1" (Float64.ofNat 2)])
        "wl_bookinfo_productpage-v1 wl_bookinfo_reviews-v1" = some (Float64.ofNat 2000) :=
  ⟨(mergeAll_last_write_wins exampleGraph exampleQueryEnv (exampleAppender false) GoMap.empty
      [[exampleSample "reviews" "reviews-v1" quarter], [],
       [exampleSample "reviews" "reviews-v1" (Float64.ofNat 2)]]
      [exampleSample "reviews" "reviews-v1" quarter] []
      (exampleSample "reviews" "reviews-v1" (Float64.ofNat 2)) rfl
      ⟨by decide, by decide⟩ (fun t ht => absurd ht (List.not_mem_nil t))).1,
   (mergeAll_last_write_wins exampleGraph exampleQueryEnv (exampleAppender false) GoMap.empty
      [[exampleSample "reviews" "reviews-v1" quarter], [],
       [exampleSample "reviews" "reviews-v1" (Float64.ofNat 2)]]
      [exampleSample "reviews" "reviews-v1" quarter] []
      (exampleSample "reviews" "reviews-v1" (Float64.ofNat 2)) rfl
      ⟨by decide, by decide⟩ (fun t ht => absurd ht (List.not_mem_nil t))).2
      "bookinfo" _ (by rfl)⟩

/-- The merge into `m` is the merge into the empty map laid over `m`. -/
theorem populateResponseTimeMap_overlay (g : GraphPkg) (a : ResponseTimeAppender)
    (m : GoMap Float64) (vector : Vector) (k : String) :
    populateResponseTimeMap g a m vector k =
      (populateResponseTimeMap g a GoMap.empty vector k).orElse (fun _ => m k) := by
  induction vector using List.reverseRecOn generalizing m with
  | nil => rfl
  | append_singleton xs s ih =>
    rw [populateResponseTimeMap_append, populateResponseTimeMap_append]
    simp only [populateResponseTimeMap, populateSample_eq]
    split
    · by_cases hk : k = sampleKey g a s
      · simp [GoMap.set, hk]
      · simp only [GoMap.set, hk, if_false]; exact ih m
    · exact ih m

/-- A key with an entry after the merge into the empty map is the key of a
stored sample of the vector. -/
theorem populateResponseTimeMap_touched (g : GraphPkg) (a : ResponseTimeAppender)
    (vector : Vector) (k : String) (x : Float64)
    (h : populateResponseTimeMap g a GoMap.empty vector k = some x) :
    ∃ t ∈ vector, t.Stored ∧ sampleKey g a t = k := by
  by_contra hne
  have hu := populateResponseTimeMap_untouched g a GoMap.empty vector k
    (fun t ht hst hk => hne ⟨t, ht, hst, hk⟩)
  rw [hu] at h
  exact Option.noConfusion h

/-- C10: when no key is produced by both vectors, that is no stored sample of
`v1` resolves to the key of a stored sample of `v2`, merging `v1` then `v2`
gives the same map as merging `v2` then `v1`, for every starting map. -/
theorem populateResponseTimeMap_comm_of_disjoint (g : GraphPkg) (a : ResponseTimeAppender)
    (m : GoMap Float64) (v1 v2 : Vector)
    (hdisjoint : ∀ s1 ∈ v1, ∀ s2 ∈ v2, s1.Stored → s2.Stored →
      sampleKey g a s1 ≠ sampleKey g a s2) :
    populateResponseTimeMap g a (populateResponseTimeMap g a m v1) v2 =
      populateResponseTimeMap g a (populateResponseTimeMap g a m v2) v1 := by
  funext k
  have e1 := populateResponseTimeMap_overlay g a (populateResponseTimeMap g a m v1) v2 k
  have e2 := populateResponseTimeMap_overlay g a m v1 k
  have e3 := populateResponseTimeMap_overlay g a (populateResponseTimeMap g a m v2) v1 k
  have e4 := populateResponseTimeMap_overlay g a m v2 k
  rw [e1, e3, e2, e4]
  cases h1 : populateResponseTimeMap g a GoMap.empty v1 k with
  | none =>
    cases h2 : populateResponseTimeMap g a GoMap.empty v2 k <;> rfl
  | some x1 =>
    cases h2 : populateResponseTimeMap g a GoMap.empty v2 k with
    | none => rfl
    | some x2 =>
      obtain ⟨s1, hs1, hst1, hk1⟩ := populateResponseTimeMap_touched g a v1 k x1 h1
      obtain ⟨s2, hs2, hst2, hk2⟩ := populateResponseTimeMap_touched g a v2 k x2 h2
      exact absurd (hk1.trans hk2.symm) (hdisjoint s1 hs1 s2 hs2 hst1 hst2)

/-- Witness of C10: a vector for the edge to `details-v1` and a vector for the
edge to `ratings-v1`, merged in both orders. -/
theorem populateResponseTimeMap_comm_of_disjoint_witness :
    populateResponseTimeMap exampleGraph (exampleAppender false)
        (populateResponseTimeMap exampleGraph (exampleAppender false) GoMap.empty
          [exampleSample "details" "details-v1" quarter])
        [exampleSample "ratings" "ratings-v1" (Float64.ofNat 2)] =
      populateResponseTimeMap exampleGraph (exampleAppender false)
        (populateResponseTimeMap exampleGraph (exampleAppender false) GoMap.empty
          [exampleSample "ratings" "ratings-v1" (Float64.ofNat 2)])
        [exampleSample "details" "details-v1" quarter] :=
  populateResponseTimeMap_comm_of_disjoint exampleGraph (exampleAppender false) GoMap.empty
    [exampleSample "details" "details-v1" quarter]
    [exampleSample "ratings" "ratings-v1" (Float64.ofNat 2)]
    (by
      intro s1 h1 s2 h2 _ _
      rw [List.mem_singleton] at h1 h2
      subst h1
      subst h2
      decide)

/-! ## AppendGraph: disjoint results, the client handle, the queries -/

theorem storedSamples_mem (vectors : List Vector) (s : Sample) :
    s ∈ storedSamples vectors ↔ s ∈ vectors.flatten ∧ s.Stored := by
  unfold storedSamples
  rw [List.mem_filter, decide_eq_true_iff]

/-- With pairwise distinct keys no stored sample after `s` resolves to the key
of `s`. -/
theorem later_keys_differ (g : GraphPkg) (a : ResponseTimeAppender) (xs ys : Vector) (s : Sample)
    (hs : s.Stored)
    (hdistinct : ((xs ++ s :: ys).filter (fun s => decide s.Stored)).Pairwise
      (fun s t => sampleKey g a s ≠ sampleKey g a t)) :
    ∀ t ∈ ys, t.Stored → sampleKey g a t ≠ sampleKey g a s := by
  intro t ht hst
  have hf : (xs ++ s :: ys).filter (fun s => decide s.Stored) =
      xs.filter (fun s => decide s.Stored) ++ s :: ys.filter (fun s => decide s.Stored) := by
    simp [List.filter_append, List.filter_cons, hs]
  rw [hf, List.pairwise_append] at hdistinct
  have h2 := (List.pairwise_cons.mp hdistinct.2.1).1 t (by simp [List.mem_filter, ht, hst])
  exact fun h => h2 h.symm

theorem responseTimeAt_applyResponseTime (g : GraphPkg) (tm : TrafficMap) (rtm : GoMap Float64)
    (i j : Nat) (id : String) (n : Node) (e : Edge)
    (hn : tm[i]? = some (id, n)) (he : n.Edges[j]? = some e) :
    responseTimeAt g (applyResponseTime g tm rtm) i j = (applyEdge g rtm e).Metadata g.ResponseTime := by
  obtain ⟨n', h1, h2⟩ := applyResponseTime_edge g tm rtm i j id n e hn he
  simp [responseTimeAt, h1, h2]

/-- C11, as amended: if the stored samples of all the queries `appendGraph`
issues (the three queries and, for an infrastructure namespace, the
supplemental one) resolve to pairwise distinct keys, then after one run every
edge of the graph whose key is that of a stored sample carries that sample's
value times 1000. -/
theorem appendGraph_keeps_disjoint_values (g : GraphPkg) (q : QueryEnv)
    (a : ResponseTimeAppender) (tm : TrafficMap) (ns : String) (client : Client)
    (hdistinct : (storedSamples (queryVectors q a ns client)).Pairwise
      (fun s t => sampleKey g a s ≠ sampleKey g a t))
    (s : Sample) (hs : s ∈ storedSamples (queryVectors q a ns client))
    (i j : Nat) (id : String) (n : Node) (e : Edge)
    (hn : tm[i]? = some (id, n)) (he : n.Edges[j]? = some e)
    (hkey : edgeKey e.Source e.Dest = sampleKey g a s) :
    responseTimeAt g (appendGraph g q a tm ns client) i j =
      some (MetadataValue.float64 (Float64.mul s.Value (Float64.ofNat 1000))) := by
  obtain ⟨hmem, hst⟩ := (storedSamples_mem _ s).mp hs
  obtain ⟨xs, ys, hsplit⟩ := List.append_of_mem hmem
  unfold storedSamples at hdistinct
  rw [hsplit] at hdistinct
  have hlast := later_keys_differ g a xs ys s hst hdistinct
  have hval : mergedResponseTimeMap g q a ns client (edgeKey e.Source e.Dest) =
      some (Float64.mul s.Value (Float64.ofNat 1000)) := by
    rw [hkey, mergedResponseTimeMap_eq_mergeAll, mergeAll_eq_populate_flatten, hsplit]
    exact populateResponseTimeMap_last g a _ xs ys s hst hlast
  unfold appendGraph
  rw [responseTimeAt_applyResponseTime g tm _ i j id n e hn he, applyEdge_of_some g _ e _ hval]
  exact GoMap.set_same _ _ _

/-- Witness of C11: 0.1 s, 0.2 s and 0.05 s reported by the three queries on
three edges give 100, 200 and 50. -/
theorem appendGraph_keeps_disjoint_values_witness :
    responseTimeAt exampleGraph
        (appendGraph exampleGraph exampleQueryEnv (exampleAppender false) exampleTrafficMap
          "bookinfo" bookinfoClient) 0 0 = some (MetadataValue.float64 (Float64.ofNat 100)) ∧
      responseTimeAt exampleGraph
        (appendGraph exampleGraph exampleQueryEnv (exampleAppender false) exampleTrafficMap
          "bookinfo" bookinfoClient) 1 0 = some (MetadataValue.float64 (Float64.ofNat 200)) ∧
      responseTimeAt exampleGraph
        (appendGraph exampleGraph exampleQueryEnv (exampleAppender false) exampleTrafficMap
          "bookinfo" bookinfoClient) 2 0 = some (MetadataValue.float64 (Float64.ofNat 50)) :=
  have hd : (storedSamples (queryVectors exampleQueryEnv (exampleAppender false) "bookinfo"
      bookinfoClient)).Pairwise
      (fun s t => sampleKey exampleGraph (exampleAppender false) s ≠
        sampleKey exampleGraph (exampleAppender false) t) := by
    have hl : storedSamples (queryVectors exampleQueryEnv (exampleAppender false) "bookinfo"
        bookinfoClient) =
        [sampleFrom "unknown" "unknown" "productpage" "productpage-v1" oneTenth,
         sampleFrom "shop" "cart-v1" "details" "details-v1" oneFifth,
         sampleFrom "bookinfo" "productpage-v1" "reviews" "reviews-v1" oneTwentieth] := by rfl
    rw [hl]
    decide
  ⟨appendGraph_keeps_disjoint_values exampleGraph exampleQueryEnv (exampleAppender false)
      exampleTrafficMap "bookinfo" bookinfoClient hd
      (sampleFrom "unknown" "unknown" "productpage" "productpage-v1" oneTenth)
      (by
        have hl : storedSamples (queryVectors exampleQueryEnv (exampleAppender false) "bookinfo"
            bookinfoClient) =
            [sampleFrom "unknown" "unknown" "productpage" "productpage-v1" oneTenth,
             sampleFrom "shop" "cart-v1" "details" "details-v1" oneFifth,
             sampleFrom "bookinfo" "productpage-v1" "reviews" "reviews-v1" oneTwentieth] := by
          rfl
        rw [hl]; simp)
      0 0 _ _ _ rfl rfl (by decide),
   appendGraph_keeps_disjoint_values exampleGraph exampleQueryEnv (exampleAppender false)
      exampleTrafficMap "bookinfo" bookinfoClient hd
      (sampleFrom "shop" "cart-v1" "details" "details-v1" oneFifth)
      (by
        have hl : storedSamples (queryVectors exampleQueryEnv (exampleAppender false) "bookinfo"
            bookinfoClient) =
            [sampleFrom "unknown" "unknown" "productpage" "productpage-v1" oneTenth,
             sampleFrom "shop" "cart-v1" "details" "details-v1" oneFifth,
             sampleFrom "bookinfo" "productpage-v1" "reviews" "reviews-v1" oneTwentieth] := by
          rfl
        rw [hl]; simp)
      1 0 _ _ _ rfl rfl (by decide),
   appendGraph_keeps_disjoint_values exampleGraph exampleQueryEnv (exampleAppender false)
      exampleTrafficMap "bookinfo" bookinfoClient hd
      (sampleFrom "bookinfo" "productpage-v1" "reviews" "reviews-v1" oneTwentieth)
      (by
        have hl : storedSamples (queryVectors exampleQueryEnv (exampleAppender false) "bookinfo"
            bookinfoClient) =
            [sampleFrom "unknown" "unknown" "productpage" "productpage-v1" oneTenth,
             sampleFrom "shop" "cart-v1" "details" "details-v1" oneFifth,
             sampleFrom "bookinfo" "productpage-v1" "reviews" "reviews-v1" oneTwentieth] := by
          rfl
        rw [hl]; simp)
      2 0 _ _ _ rfl rfl (by decide)⟩

/-- Counterexample to C11 as stated: for the infrastructure namespace
`istio-system` the first three queries return one stored sample, 0.05 s for the
edge from `pilot` to `telemetry-v1`, so their keys are pairwise distinct and
the graph has the edge; the supplemental query reports 2 s for the same edge,
and after `appendGraph` the edge carries 2000 and not 50. -/
theorem appendGraph_supplemental_overwrites :
    storedSamples (firstThreeVectors exampleQueryEnv (exampleAppender false) "istio-system"
        istioClient) =
      [sampleFrom "istio-system" "pilot" "telemetry" "telemetry-v1" oneTwentieth] ∧
    (storedSamples (firstThreeVectors exampleQueryEnv (exampleAppender false) "istio-system"
        istioClient)).Pairwise
      (fun s t => sampleKey exampleGraph (exampleAppender false) s ≠
        sampleKey exampleGraph (exampleAppender false) t) ∧
    edgeKey (exampleEdge "wl_istio-system_pilot" "wl_bookinfo_telemetry-v1").Source
        (exampleEdge "wl_istio-system_pilot" "wl_bookinfo_telemetry-v1").Dest =
      sampleKey exampleGraph (exampleAppender false)
        (sampleFrom "istio-system" "pilot" "telemetry" "telemetry-v1" oneTwentieth) ∧
    Float64.mul oneTwentieth (Float64.ofNat 1000) = Float64.ofNat 50 ∧
    responseTimeAt exampleGraph
        (appendGraph exampleGraph exampleQueryEnv (exampleAppender false) istioTrafficMap
          "istio-system" istioClient) 0 0 = some (MetadataValue.float64 (Float64.ofNat 2000)) ∧
    responseTimeAt exampleGraph
        (appendGraph exampleGraph exampleQueryEnv (exampleAppender false) istioTrafficMap
          "istio-system" istioClient) 0 0 ≠
      some (MetadataValue.float64
        (Float64.mul (sampleFrom "istio-system" "pilot" "telemetry" "telemetry-v1"
          oneTwentieth).Value (Float64.ofNat 1000))) := by
  have hl : storedSamples (firstThreeVectors exampleQueryEnv (exampleAppender false)
      "istio-system" istioClient) =
      [sampleFrom "istio-system" "pilot" "telemetry" "telemetry-v1" oneTwentieth] := by rfl
  refine ⟨hl, ?_, by decide, by decide, by decide, by decide⟩
  rw [hl]
  exact List.pairwise_singleton _ _

/-- C12: `AppendGraph` on an empty traffic map returns without calling the
client constructor, leaving `globalInfo.PromClient` as it was (nil included),
without issuing a query and without changing the traffic map. -/
theorem AppendGraph_empty_noop (g : GraphPkg) (q : QueryEnv) (newClient : Except String Client)
    (a : ResponseTimeAppender) (globalInfo : AppenderGlobalInfo)
    (namespaceInfo : AppenderNamespaceInfo) :
    AppendGraph g q newClient a [] globalInfo namespaceInfo =
      Except.ok ⟨[], globalInfo, [], 0⟩ := by
  rfl

theorem AppendGraph_handle (g : GraphPkg) (q : QueryEnv) (newClient : Except String Client)
    (a : ResponseTimeAppender) (tm : TrafficMap) (globalInfo : AppenderGlobalInfo)
    (namespaceInfo : AppenderNamespaceInfo) (out : Outcome)
    (h : AppendGraph g q newClient a tm globalInfo namespaceInfo = Except.ok out) :
    out.constructed ≤ 1 ∧
      (out.constructed = 1 → globalInfo.PromClient = none ∧ out.globalInfo.PromClient ≠ none) ∧
      (∀ c, globalInfo.PromClient = some c →
        out.globalInfo.PromClient = some c ∧ out.constructed = 0) := by
  unfold AppendGraph at h
  split at h
  · cases h
    simp
  · cases hc : globalInfo.PromClient with
    | none =>
      rw [hc] at h
      cases hn : newClient with
      | error err => rw [hn] at h; cases h
      | ok client => rw [hn] at h; cases h; simp
    | some client =>
      rw [hc] at h
      cases h
      simp [hc]

theorem AppendGraph_panic (g : GraphPkg) (q : QueryEnv) (newClient : Except String Client)
    (a : ResponseTimeAppender) (tm : TrafficMap) (globalInfo : AppenderGlobalInfo)
    (namespaceInfo : AppenderNamespaceInfo) (err : String)
    (h : AppendGraph g q newClient a tm globalInfo namespaceInfo = Except.error err) :
    globalInfo.PromClient = none := by
  unfold AppendGraph at h
  split at h
  · cases h
  · cases hc : globalInfo.PromClient with
    | none => rfl
    | some client => rw [hc] at h; cases h

theorem AppendGraphs_cons_ok (g : GraphPkg) (q : QueryEnv) (call : Call) (rest : List Call)
    (tm : TrafficMap) (globalInfo : AppenderGlobalInfo) (out : Outcome)
    (h : AppendGraphs g q (call :: rest) tm globalInfo = Except.ok out) :
    ∃ first last,
      AppendGraph g q call.newClient call.appender tm globalInfo call.namespaceInfo
        = Except.ok first ∧
      AppendGraphs g q rest first.trafficMap first.globalInfo = Except.ok last ∧
      out = ⟨last.trafficMap, last.globalInfo, first.issued ++ last.issued,
        first.constructed + last.constructed⟩ := by
  simp only [AppendGraphs] at h
  cases h1 : AppendGraph g q call.newClient call.appender tm globalInfo call.namespaceInfo with
  | error err => simp only [h1] at h; cases h
  | ok first =>
    simp only [h1] at h
    cases h2 : AppendGraphs g q rest first.trafficMap first.globalInfo with
    | error err => simp only [h2] at h; cases h
    | ok last =>
      simp only [h2] at h
      cases h
      exact ⟨first, last, rfl, h2, rfl⟩

theorem AppendGraphs_handle (g : GraphPkg) (q : QueryEnv) (calls : List Call) (tm : TrafficMap)
    (globalInfo : AppenderGlobalInfo) (out : Outcome)
    (h : AppendGraphs g q calls tm globalInfo = Except.ok out) :
    out.constructed ≤ 1 ∧
      (∀ c, globalInfo.PromClient = some c →
        out.globalInfo.PromClient = some c ∧ out.constructed = 0) := by
  induction calls generalizing tm globalInfo out with
  | nil =>
    simp only [AppendGraphs] at h
    cases h
    simp
  | cons call rest ih =>
    obtain ⟨first, last, h1, h2, rfl⟩ := AppendGraphs_cons_ok g q call rest tm globalInfo out h
    obtain ⟨hle, hone, hkeep⟩ := AppendGraph_handle g q _ _ tm globalInfo _ first h1
    obtain ⟨hle', hkeep'⟩ := ih first.trafficMap first.globalInfo last h2
    constructor
    · show first.constructed + last.constructed ≤ 1
      by_cases hf : first.constructed = 1
      · obtain ⟨_, hset⟩ := hone hf
        cases hp : first.globalInfo.PromClient with
        | none => exact absurd hp hset
        | some c => have := (hkeep' c hp).2; omega
      · omega
    · intro c hc
      obtain ⟨h3, h4⟩ := hkeep c hc
      obtain ⟨h5, h6⟩ := hkeep' c h3
      exact ⟨h5, by show first.constructed + last.constructed = 0; omega⟩

theorem AppendGraphs_append (g : GraphPkg) (q : QueryEnv) (cs1 cs2 : List Call) (tm : TrafficMap)
    (globalInfo : AppenderGlobalInfo) (mid out : Outcome)
    (h1 : AppendGraphs g q cs1 tm globalInfo = Except.ok mid)
    (h : AppendGraphs g q (cs1 ++ cs2) tm globalInfo = Except.ok out) :
    ∃ rest, AppendGraphs g q cs2 mid.trafficMap mid.globalInfo = Except.ok rest ∧
      out.globalInfo = rest.globalInfo ∧ out.constructed = mid.constructed + rest.constructed := by
  induction cs1 generalizing tm globalInfo mid out with
  | nil =>
    simp only [AppendGraphs] at h1
    cases h1
    exact ⟨out, h, rfl, by simp⟩
  | cons call cs ih =>
    rw [List.cons_append] at h
    obtain ⟨first, mid', hf, hm, rfl⟩ := AppendGraphs_cons_ok g q call cs tm globalInfo mid h1
    obtain ⟨first', out', hf', ho, rfl⟩ :=
      AppendGraphs_cons_ok g q call (cs ++ cs2) tm globalInfo out h
    rw [hf] at hf'
    cases hf'
    obtain ⟨rest, hr, hg, hc⟩ := ih first.trafficMap first.globalInfo mid' out' hm ho
    refine ⟨rest, hr, hg, ?_⟩
    show first.constructed + out'.constructed = (first.constructed + mid'.constructed)
      + rest.constructed
    rw [hc]
    omega

/-- C13: the client is constructed at most once per `GlobalInfo`.  A call of
`AppendGraph` that returns has called the constructor at most once, and only
with `globalInfo.PromClient` nil; a call that panics (the constructor failed)
started with a nil handle; a call made with a handle leaves that handle in
place and constructs nothing.  In every sequence of calls on one `GlobalInfo`
at most one client is constructed, and a handle that is set after a part of
the sequence is the handle after the whole sequence. -/
theorem AppendGraph_client_constructed_once (g : GraphPkg) (q : QueryEnv) :
    (∀ (newClient : Except String Client) (a : ResponseTimeAppender) (tm : TrafficMap)
        (globalInfo : AppenderGlobalInfo) (namespaceInfo : AppenderNamespaceInfo),
      (∀ out, AppendGraph g q newClient a tm globalInfo namespaceInfo = Except.ok out →
        out.constructed ≤ 1 ∧
        (out.constructed = 1 → globalInfo.PromClient = none) ∧
        (∀ c, globalInfo.PromClient = some c →
          out.globalInfo.PromClient = some c ∧ out.constructed = 0)) ∧
      (∀ err, AppendGraph g q newClient a tm globalInfo namespaceInfo = Except.error err →
        globalInfo.PromClient = none)) ∧
    (∀ (cs1 cs2 : List Call) (tm : TrafficMap) (globalInfo : AppenderGlobalInfo)
        (mid out : Outcome),
      AppendGraphs g q cs1 tm globalInfo = Except.ok mid →
      AppendGraphs g q (cs1 ++ cs2) tm globalInfo = Except.ok out →
      out.constructed ≤ 1 ∧
        ∀ c, mid.globalInfo.PromClient = some c → out.globalInfo.PromClient = some c) := by
  constructor
  · intro newClient a tm globalInfo namespaceInfo
    constructor
    · intro out h
      obtain ⟨h1, h2, h3⟩ := AppendGraph_handle g q newClient a tm globalInfo namespaceInfo out h
      exact ⟨h1, fun hc => (h2 hc).1, h3⟩
    · intro err h
      exact AppendGraph_panic g q newClient a tm globalInfo namespaceInfo err h
  · intro cs1 cs2 tm globalInfo mid out h1 h
    refine ⟨(AppendGraphs_handle g q _ tm globalInfo out h).1, fun c hc => ?_⟩
    obtain ⟨rest, hr, hg, _⟩ := AppendGraphs_append g q cs1 cs2 tm globalInfo mid out h1 h
    rw [hg]
    exact ((AppendGraphs_handle g q cs2 _ _ rest hr).2 c hc).1

/-- Witness of C13: two calls for `bookinfo` starting with a nil handle construct
one client, and the handle set by the first call is the handle after both. -/
theorem AppendGraph_client_constructed_once_witness :
    (outcomeOf (AppendGraphs exampleGraph exampleQueryEnv exampleCalls exampleTrafficMap
        ⟨none⟩)).constructed = 1 ∧
      (outcomeOf (AppendGraphs exampleGraph exampleQueryEnv exampleCalls exampleTrafficMap
        ⟨none⟩)).globalInfo.PromClient = some bookinfoClient :=
  ⟨rfl,
   ((AppendGraph_client_constructed_once exampleGraph exampleQueryEnv).2
      [⟨exampleAppender false, ⟨"bookinfo"⟩, Except.ok bookinfoClient⟩]
      [⟨exampleAppender false, ⟨"bookinfo"⟩, Except.ok bookinfoClient⟩]
      exampleTrafficMap ⟨none⟩
      (outcomeOf (AppendGraphs exampleGraph exampleQueryEnv
        [⟨exampleAppender false, ⟨"bookinfo"⟩, Except.ok bookinfoClient⟩] exampleTrafficMap
        ⟨none⟩))
      (outcomeOf (AppendGraphs exampleGraph exampleQueryEnv exampleCalls exampleTrafficMap
        ⟨none⟩))
      rfl rfl).2 bookinfoClient rfl⟩

theorem appendGraphLogged_fst (g : GraphPkg) (q : QueryEnv) (a : ResponseTimeAppender)
    (tm : TrafficMap) (ns : String) (client : Client) (issued : List String) :
    (appendGraphLogged g q a tm ns client issued).1 = appendGraph g q a tm ns client := by
  unfold appendGraphLogged appendGraph mergedResponseTimeMap promQueryLogged
  cases q.IsIstioNamespace ns <;> rfl

theorem appendGraphLogged_snd (g : GraphPkg) (q : QueryEnv) (a : ResponseTimeAppender)
    (tm : TrafficMap) (ns : String) (client : Client) (issued : List String) :
    (appendGraphLogged g q a tm ns client issued).2 =
      issued ++ ([queryUnknown q a ns, queryOutside q a ns, queryInside q a ns]
        ++ if q.IsIstioNamespace ns = true then [queryIstio q a ns] else []) := by
  unfold appendGraphLogged promQueryLogged
  cases q.IsIstioNamespace ns <;> simp

theorem queryUnknown_shape (q : QueryEnv) (a : ResponseTimeAppender) (ns : String) :
    queryUnknown q a ns =
      selectorQuery (q.formatFloat2 (quantile a))
        ["reporter=\"destination\"", "source_workload=\"unknown\"",
         "destination_service_namespace=\"" ++ ns ++ "\"", responseCodeMatcher]
        (toString (q.durationSeconds (duration a ns))) := by
  apply String.ext
  simp only [queryUnknown, selectorQuery, responseCodeMatcher, String.intercalate,
    String.intercalate.go, String.data_append, List.append_assoc]
  rfl

theorem queryOutside_shape (q : QueryEnv) (a : ResponseTimeAppender) (ns : String) :
    queryOutside q a ns =
      selectorQuery (q.formatFloat2 (quantile a))
        ["reporter=\"" ++ reporter q ns ++ "\"", sourceWorkloadQuery q a ns,
         "source_workload!=\"unknown\"",
         "destination_service_namespace=\"" ++ ns ++ "\"", responseCodeMatcher]
        (toString (q.durationSeconds (duration a ns))) := by
  apply String.ext
  simp only [queryOutside, selectorQuery, responseCodeMatcher, String.intercalate,
    String.intercalate.go, String.data_append, List.append_assoc]
  rfl

theorem queryInside_shape (q : QueryEnv) (a : ResponseTimeAppender) (ns : String) :
    queryInside q a ns =
      selectorQuery (q.formatFloat2 (quantile a))
        ["reporter=\"source\"", "source_workload_namespace=\"" ++ ns ++ "\"",
         responseCodeMatcher]
        (toString (q.durationSeconds (duration a ns))) := by
  apply String.ext
  simp only [queryInside, selectorQuery, responseCodeMatcher, String.intercalate,
    String.intercalate.go, String.data_append, List.append_assoc]
  rfl

theorem queryIstio_shape (q : QueryEnv) (a : ResponseTimeAppender) (ns : String) :
    queryIstio q a ns =
      selectorQuery (q.formatFloat2 (quantile a))
        ["reporter=\"destination\"", "source_workload_namespace=\"" ++ ns ++ "\"",
         "destination_service_namespace=~\""
           ++ String.intercalate "|" (q.getIstioNamespaces a.Namespaces) ++ "\"",
         responseCodeMatcher]
        (toString (q.durationSeconds (duration a ns))) := by
  apply String.ext
  simp only [queryIstio, selectorQuery, responseCodeMatcher, String.intercalate,
    String.intercalate.go, String.data_append, List.append_assoc]
  rfl

/-- C14: the queries `appendGraph` issues.  For a namespace that is not an
infrastructure namespace they are exactly the three queries 1, 2, 3, and query
2 has the matcher reporter="source"; for an infrastructure namespace they are
exactly four, query 2 has the matcher reporter="destination" and the fourth
query the matchers reporter="destination" and source_workload_namespace equal
to the namespace.  In both cases query 1 has reporter="destination" and
source_workload="unknown", query 2 has source_workload!="unknown" and query 3
has reporter="source". -/
theorem appendGraph_query_selection (g : GraphPkg) (q : QueryEnv) (a : ResponseTimeAppender)
    (tm : TrafficMap) (ns : String) (client : Client) :
    (q.IsIstioNamespace ns = false →
      (appendGraphLogged g q a tm ns client []).2 =
          [queryUnknown q a ns, queryOutside q a ns, queryInside q a ns] ∧
        (appendGraphLogged g q a tm ns client []).2.length = 3 ∧
        queryOutside q a ns =
          selectorQuery (q.formatFloat2 (quantile a))
            ["reporter=\"source\"", "source_workload_namespace!=\"" ++ ns ++ "\"",
             "source_workload!=\"unknown\"",
             "destination_service_namespace=\"" ++ ns ++ "\"", responseCodeMatcher]
            (toString (q.durationSeconds (duration a ns)))) ∧
    (q.IsIstioNamespace ns = true →
      (appendGraphLogged g q a tm ns client []).2 =
          [queryUnknown q a ns, queryOutside q a ns, queryInside q a ns, queryIstio q a ns] ∧
        (appendGraphLogged g q a tm ns client []).2.length = 4 ∧
        queryOutside q a ns =
          selectorQuery (q.formatFloat2 (quantile a))
            ["reporter=\"destination\"", sourceWorkloadQuery q a ns,
             "source_workload!=\"unknown\"",
             "destination_service_namespace=\"" ++ ns ++ "\"", responseCodeMatcher]
            (toString (q.durationSeconds (duration a ns))) ∧
        queryIstio q a ns =
          selectorQuery (q.formatFloat2 (quantile a))
            ["reporter=\"destination\"", "source_workload_namespace=\"" ++ ns ++ "\"",
             "destination_service_namespace=~\""
               ++ String.intercalate "|" (q.getIstioNamespaces a.Namespaces) ++ "\"",
             responseCodeMatcher]
            (toString (q.durationSeconds (duration a ns)))) ∧
    queryUnknown q a ns =
      selectorQuery (q.formatFloat2 (quantile a))
        ["reporter=\"destination\"", "source_workload=\"unknown\"",
         "destination_service_namespace=\"" ++ ns ++ "\"", responseCodeMatcher]
        (toString (q.durationSeconds (duration a ns))) ∧
    (∃ first second, queryOutside q a ns =
      selectorQuery (q.formatFloat2 (quantile a))
        [first, second, "source_workload!=\"unknown\"",
         "destination_service_namespace=\"" ++ ns ++ "\"", responseCodeMatcher]
        (toString (q.durationSeconds (duration a ns)))) ∧
    queryInside q a ns =
      selectorQuery (q.formatFloat2 (quantile a))
        ["reporter=\"source\"", "source_workload_namespace=\"" ++ ns ++ "\"",
         responseCodeMatcher]
        (toString (q.durationSeconds (duration a ns))) := by
  refine ⟨fun h => ?_, fun h => ?_, queryUnknown_shape q a ns,
    ⟨_, _, queryOutside_shape q a ns⟩, queryInside_shape q a ns⟩
  · have hl := appendGraphLogged_snd g q a tm ns client []
    simp only [h, List.nil_append, Bool.false_eq_true, if_false, List.append_nil] at hl
    refine ⟨hl, by rw [hl]; rfl, ?_⟩
    have hs := queryOutside_shape q a ns
    simp only [reporter, sourceWorkloadQuery, h, Bool.false_eq_true, if_false] at hs
    rw [hs]
    rfl
  · have hl := appendGraphLogged_snd g q a tm ns client []
    simp only [h, List.nil_append, if_true] at hl
    refine ⟨hl, by rw [hl]; rfl, ?_, queryIstio_shape q a ns⟩
    have hs := queryOutside_shape q a ns
    simp only [reporter, h, if_true] at hs
    rw [hs]
    rfl

/-- Witness of C14: the namespace `bookinfo` gets three queries, the
infrastructure namespace `istio-system` four. -/
theorem appendGraph_query_selection_witness :
    (appendGraphLogged exampleGraph exampleQueryEnv (exampleAppender false) exampleTrafficMap
        "bookinfo" bookinfoClient []).2.length = 3 ∧
      (appendGraphLogged exampleGraph exampleQueryEnv (exampleAppender false) istioTrafficMap
        "istio-system" istioClient []).2.length = 4 :=
  ⟨((appendGraph_query_selection exampleGraph exampleQueryEnv (exampleAppender false)
      exampleTrafficMap "bookinfo" bookinfoClient).1 (by decide)).2.1,
   ((appendGraph_query_selection exampleGraph exampleQueryEnv (exampleAppender false)
      istioTrafficMap "istio-system" istioClient).2.1 (by decide)).2.1⟩

/-! ## ldaprbac: the access check -/

theorem ContainsExact_iff (l : List String) (x : String) : ContainsExact l x = true ↔ x ∈ l := by
  induction l with
  | nil => simp [ContainsExact]
  | cons y ys ih =>
    simp only [ContainsExact, List.mem_cons]
    by_cases h : y = x
    · simp [h]
    · simp only [h, if_false, ih]
      constructor
      · exact Or.inr
      · rintro (h' | h')
        · exact absurd h'.symm h
        · exact h'

theorem allEnvCodesAllowed_iff (allowed envCodes : List String) :
    allEnvCodesAllowed allowed envCodes = true ↔
      "*" ∈ allowed ∨ ∀ e ∈ envCodes, e ∈ allowed := by
  induction envCodes with
  | nil => simp [allEnvCodesAllowed]
  | cons e rest ih =>
    simp only [allEnvCodesAllowed]
    by_cases hs : "*" ∈ allowed
    · simp [(ContainsExact_iff allowed "*").mpr hs, hs]
    · have hs' : ContainsExact allowed "*" = false := by
        cases h : ContainsExact allowed "*"
        · rfl
        · exact absurd ((ContainsExact_iff _ _).mp h) hs
      by_cases he : e ∈ allowed
      · simp [hs', (ContainsExact_iff allowed e).mpr he, ih, hs, he]
      · have he' : ContainsExact allowed e = false := by
          cases h : ContainsExact allowed e
          · rfl
          · exact absurd ((ContainsExact_iff _ _).mp h) he
        simp [hs', he', hs, he]

/-- `IsApplicationAllowed` on a checker whose table is loaded. -/
theorem IsApplicationAllowed_of_loaded (env : RbacEnv) (user : Option User) (isAdmin : Bool)
    (table : ApplicationRBACObjectMap) (object : Option ApplicationRBACObject) :
    IsApplicationAllowed env ⟨user, some table, isAdmin⟩ object =
      Except.ok
        ((decide ((table "*").isSome = true) ||
            (match object with
             | none => false
             | some o =>
               match table o.AppCode with
               | some entry => allEnvCodesAllowed entry.EnvCodes o.EnvCodes
               | none => false), none),
          ⟨user, some table, isAdmin⟩) := by
  simp only [IsApplicationAllowed, loadAllAllowedApplications, Option.getD_some]
  by_cases hs : (table "*").isSome = true
  · simp [hs]
  · simp only [hs, Bool.false_eq_true, if_false, decide_False, Bool.false_or]
    cases object with
    | none => rfl
    | some o =>
      simp only []
      cases table o.AppCode <;> rfl

/-- C16: for a checker whose allowed-apps table is loaded, `IsApplicationAllowed`
returns `(b, nil)` and leaves the checker as it is, where `b` is true exactly
when the table has an entry for "*", or the object is not nil, the table has
an entry for `object.AppCode`, and that entry's `EnvCodes` contains "*" or
every element of `object.EnvCodes`; in every other case `b` is false. -/
theorem IsApplicationAllowed_checks_every_environment (env : RbacEnv) (user : Option User)
    (isAdmin : Bool) (table : ApplicationRBACObjectMap) (object : Option ApplicationRBACObject) :
    ∃ b : Bool,
      IsApplicationAllowed env ⟨user, some table, isAdmin⟩ object =
        Except.ok ((b, none), ⟨user, some table, isAdmin⟩) ∧
      (b = true ↔
        ((table "*").isSome = true ∨
          ∃ o entry, object = some o ∧ table o.AppCode = some entry ∧
            ("*" ∈ entry.EnvCodes ∨ ∀ e ∈ o.EnvCodes, e ∈ entry.EnvCodes))) := by
  refine ⟨_, IsApplicationAllowed_of_loaded env user isAdmin table object, ?_⟩
  rw [Bool.or_eq_true, decide_eq_true_iff]
  apply or_congr Iff.rfl
  cases object with
  | none => simp
  | some o =>
    cases h : table o.AppCode with
    | none => simp [h]
    | some entry =>
      simp only [h, allEnvCodesAllowed_iff]
      constructor
      · intro hh
        exact ⟨o, entry, rfl, h, hh⟩
      · rintro ⟨o', entry', ho, he, hh⟩
        cases ho
        rw [h] at he
        cases he
        exact hh

theorem ContainsExact_eq_decide (l : List String) (x : String) :
    ContainsExact l x = decide (x ∈ l) := by
  cases h : ContainsExact l x
  · symm
    rw [decide_eq_false_iff_not]
    intro hm
    rw [(ContainsExact_iff l x).mpr hm] at h
    exact Bool.noConfusion h
  · symm
    rw [decide_eq_true_iff]
    exact (ContainsExact_iff l x).mp h

/-- The entries of other applications are not touched by the loop body. -/
theorem addApp_other (m : ApplicationRBACObjectMap) (app : RoleToAppMapping) (k : String)
    (hk : k ≠ app.AppCode) : addApp m app k = m k := by
  unfold addApp
  simp only []
  by_cases hs : app.AppCode = "*"
  · simp only [hs, if_true, GoMap.set_same, NewApplicationRBACObject]
    have hk' : k ≠ "*" := hs ▸ hk
    simp only [ContainsExact, Bool.false_eq_true, if_false]
    simp [GoMap.set, hk']
  · simp only [hs, if_false]
    cases hm : m app.AppCode with
    | none => simp [GoMap.set, hk]
    | some object =>
      simp only []
      split
      · rfl
      · simp [GoMap.set, hk]

/-- The entry of the application of the mapping after the loop body. -/
theorem addApp_same (m : ApplicationRBACObjectMap) (app : RoleToAppMapping) :
    ∃ entry, addApp m app app.AppCode = some entry ∧
      entry.EnvCodes = nextEnvCodes (oldEnvCodes m app) app.EnvCode := by
  unfold addApp oldEnvCodes nextEnvCodes
  simp only []
  by_cases hs : app.AppCode = "*"
  · simp only [hs, if_true, GoMap.set_same, NewApplicationRBACObject, ContainsExact_eq_decide]
    by_cases he : app.EnvCode = "*"
    · simp [he, GoMap.set]
    · simp [he, GoMap.set]
  · simp only [hs, if_false]
    cases hm : m app.AppCode with
    | none => simp [GoMap.set, NewApplicationRBACObject]
    | some object =>
      simp only [Option.map_some', ContainsExact_eq_decide]
      by_cases h1 : "*" ∈ object.EnvCodes
      · simp [h1, hm]
      · by_cases he : app.EnvCode = "*"
        · simp [h1, he, GoMap.set]
        · by_cases h2 : app.EnvCode ∈ object.EnvCodes
          · simp [h1, he, h2, GoMap.set]
          · simp [h1, he, h2, GoMap.set]

theorem nextEnvCodes_invariant (old : Option (List String)) (envCode : String)
    (h : ∀ codes, old = some codes → codes.Nodup ∧ ("*" ∈ codes → codes = ["*"])) :
    (nextEnvCodes old envCode).Nodup ∧
      ("*" ∈ nextEnvCodes old envCode → nextEnvCodes old envCode = ["*"]) := by
  cases old with
  | none =>
    simp only [nextEnvCodes]
    exact ⟨List.nodup_singleton _, fun hm => by rw [List.mem_singleton] at hm; rw [← hm]⟩
  | some codes =>
    obtain ⟨hn, hw⟩ := h codes rfl
    simp only [nextEnvCodes]
    by_cases h1 : "*" ∈ codes
    · rw [if_pos h1]; exact ⟨hn, hw⟩
    · rw [if_neg h1]
      by_cases he : envCode = "*"
      · rw [if_pos he]
        exact ⟨List.nodup_singleton _, fun _ => rfl⟩
      · rw [if_neg he]
        by_cases h2 : envCode ∈ codes
        · rw [if_pos h2]; exact ⟨hn, fun hm => absurd hm h1⟩
        · rw [if_neg h2]
          constructor
          · rw [List.nodup_append]
            refine ⟨hn, List.nodup_singleton _, ?_⟩
            intro x hx hy
            rw [List.mem_singleton] at hy
            exact h2 (hy ▸ hx)
          · intro hm
            rw [List.mem_append, List.mem_singleton] at hm
            rcases hm with hm | hm
            · exact absurd hm h1
            · exact absurd hm.symm he

theorem addApp_invariant (m : ApplicationRBACObjectMap) (app : RoleToAppMapping)
    (h : ∀ k entry, m k = some entry → EnvCodesInvariant entry) :
    ∀ k entry, addApp m app k = some entry → EnvCodesInvariant entry := by
  intro k entry hk
  by_cases hka : k = app.AppCode
  · subst hka
    obtain ⟨entry', he', hcodes⟩ := addApp_same m app
    rw [he'] at hk
    cases hk
    unfold EnvCodesInvariant
    rw [hcodes]
    apply nextEnvCodes_invariant
    intro codes hc
    unfold oldEnvCodes at hc
    by_cases hs : app.AppCode = "*"
    · simp only [hs, if_true, Option.some.injEq] at hc
      subst hc
      exact ⟨List.nodup_nil, fun hm => absurd hm (List.not_mem_nil _)⟩
    · simp only [hs, if_false] at hc
      cases hm : m app.AppCode with
      | none => rw [hm] at hc; cases hc
      | some object =>
        rw [hm] at hc
        cases hc
        exact h _ _ hm
  · rw [addApp_other m app k hka] at hk
    exact h k entry hk

theorem addApps_invariant (apps : List RoleToAppMapping) (m : ApplicationRBACObjectMap)
    (h : ∀ k entry, m k = some entry → EnvCodesInvariant entry) :
    ∀ k entry, addApps m apps k = some entry → EnvCodesInvariant entry := by
  induction apps generalizing m with
  | nil => exact h
  | cons app rest ih =>
    simp only [addApps, List.foldl_cons]
    exact ih _ (addApp_invariant m app h)

theorem loadGroups_invariant (env : RbacEnv) (groups : List String)
    (m table : ApplicationRBACObjectMap)
    (h : ∀ k entry, m k = some entry → EnvCodesInvariant entry)
    (hl : loadGroups env groups m = Except.ok table) :
    ∀ k entry, table k = some entry → EnvCodesInvariant entry := by
  induction groups generalizing m with
  | nil =>
    simp only [loadGroups] at hl
    cases hl
    exact h
  | cons grp rest ih =>
    simp only [loadGroups] at hl
    cases hg : getAppsForRole env grp with
    | error p => simp only [hg] at hl; cases hl
    | ok apps =>
      simp only [hg] at hl
      exact ih _ (addApps_invariant apps m h) hl

/-- C18: in the allowed-apps table built by `loadAllAllowedApplications`, for
every list of user groups and every list of mappings, no entry's `EnvCodes`
has an environment code twice, and an `EnvCodes` that contains "*" is exactly
["*"].  The same holds for the table the loop builds from any list of
mappings. -/
theorem loadAllAllowedApplications_envCodes_invariant (env : RbacEnv) :
    (∀ (apps : List RoleToAppMapping) (k : String) (entry : ApplicationRBACObject),
      addApps GoMap.empty apps k = some entry →
        entry.EnvCodes.Nodup ∧ ("*" ∈ entry.EnvCodes → entry.EnvCodes = ["*"])) ∧
    (∀ (user : User) (isAdmin : Bool) (err : Option String) (checker : rbacAccessChecker)
        (table : ApplicationRBACObjectMap) (k : String) (entry : ApplicationRBACObject),
      loadAllAllowedApplications env ⟨some user, none, isAdmin⟩ = Except.ok (err, checker) →
      checker.allowedAppsMap = some table → table k = some entry →
        entry.EnvCodes.Nodup ∧ ("*" ∈ entry.EnvCodes → entry.EnvCodes = ["*"])) := by
  have hempty : ∀ k entry, (GoMap.empty : ApplicationRBACObjectMap) k = some entry →
      EnvCodesInvariant entry := by
    intro k entry h
    cases h
  constructor
  · intro apps k entry h
    exact addApps_invariant apps GoMap.empty hempty k entry h
  · intro user isAdmin err checker table k entry hl ht hk
    simp only [loadAllAllowedApplications] at hl
    cases hg : loadGroups env user.Groups GoMap.empty with
    | error p => simp only [hg] at hl; cases hl
    | ok objectMap =>
      simp only [hg] at hl
      cases hl
      simp only [Option.some.injEq] at ht
      subst ht
      exact loadGroups_invariant env user.Groups GoMap.empty objectMap hempty hg k entry hk

/-- Witness of C18: the mappings eee, eee, *, fff for the application `aaa` give
the entry ["*"], and the table of the example user has no environment code
twice. -/
theorem loadAllAllowedApplications_envCodes_invariant_witness :
    addApps GoMap.empty
        [⟨0, "g", "aaa", "eee"⟩, ⟨0, "g", "aaa", "eee"⟩, ⟨0, "g", "aaa", "*"⟩,
         ⟨0, "g", "aaa", "fff"⟩] "aaa" = some ⟨"aaa", ["*"]⟩ ∧
      ((⟨"aaa", ["*"]⟩ : ApplicationRBACObject).EnvCodes.Nodup ∧
        ("*" ∈ (⟨"aaa", ["*"]⟩ : ApplicationRBACObject).EnvCodes →
          (⟨"aaa", ["*"]⟩ : ApplicationRBACObject).EnvCodes = ["*"])) ∧
      ((⟨"aaa", ["eee", "fff"]⟩ : ApplicationRBACObject).EnvCodes.Nodup ∧
        ("*" ∈ (⟨"aaa", ["eee", "fff"]⟩ : ApplicationRBACObject).EnvCodes →
          (⟨"aaa", ["eee", "fff"]⟩ : ApplicationRBACObject).EnvCodes = ["*"])) :=
  ⟨by decide,
   (loadAllAllowedApplications_envCodes_invariant exampleRbacEnv).1
      [⟨0, "g", "aaa", "eee"⟩, ⟨0, "g", "aaa", "eee"⟩, ⟨0, "g", "aaa", "*"⟩,
       ⟨0, "g", "aaa", "fff"⟩] "aaa" ⟨"aaa", ["*"]⟩ (by decide),
   (loadAllAllowedApplications_envCodes_invariant exampleRbacEnv).2
      ⟨["r_k8s_aaa_eee_rw", "admins", "r_k8s_aaa_fff_rw", "r_k8s_aaa_eee_ro"]⟩ false none
      ⟨some ⟨["r_k8s_aaa_eee_rw", "admins", "r_k8s_aaa_fff_rw", "r_k8s_aaa_eee_ro"]⟩,
        some (addApps GoMap.empty
          [⟨0, "r_k8s_aaa_eee_rw", "aaa", "eee"⟩, ⟨1, "admins", "shop", "*"⟩,
           ⟨0, "r_k8s_aaa_fff_rw", "aaa", "fff"⟩, ⟨0, "r_k8s_aaa_eee_ro", "aaa", "eee"⟩]),
        false⟩
      (addApps GoMap.empty
          [⟨0, "r_k8s_aaa_eee_rw", "aaa", "eee"⟩, ⟨1, "admins", "shop", "*"⟩,
           ⟨0, "r_k8s_aaa_fff_rw", "aaa", "fff"⟩, ⟨0, "r_k8s_aaa_eee_ro", "aaa", "eee"⟩])
      "aaa" ⟨"aaa", ["eee", "fff"]⟩ (by rfl) rfl (by decide)⟩

theorem addApp_star (m : ApplicationRBACObjectMap) (app : RoleToAppMapping) :
    (addApp m app "*").isSome = true ↔ ((m "*").isSome = true ∨ app.AppCode = "*") := by
  by_cases hs : app.AppCode = "*"
  · obtain ⟨entry, he, _⟩ := addApp_same m app
    rw [hs] at he
    simp [he, hs]
  · rw [addApp_other m app "*" (fun h => hs h.symm)]
    simp [hs]

theorem nextEnvCodes_grants (old : Option (List String)) (envCode e : String) :
    ("*" ∈ nextEnvCodes old envCode ∨ e ∈ nextEnvCodes old envCode) ↔
      ((∃ codes, old = some codes ∧ ("*" ∈ codes ∨ e ∈ codes)) ∨ (envCode = e ∨ envCode = "*")) := by
  cases old with
  | none =>
    simp only [nextEnvCodes, List.mem_singleton]
    constructor
    · rintro (h | h)
      · exact Or.inr (Or.inr h.symm)
      · exact Or.inr (Or.inl h.symm)
    · rintro (⟨_, h, _⟩ | h | h)
      · cases h
      · exact Or.inr h.symm
      · exact Or.inl h.symm
  | some codes =>
    simp only [nextEnvCodes]
    by_cases h1 : "*" ∈ codes
    · rw [if_pos h1]
      exact ⟨fun _ => Or.inl ⟨codes, rfl, Or.inl h1⟩, fun _ => Or.inl h1⟩
    · rw [if_neg h1]
      by_cases he : envCode = "*"
      · rw [if_pos he]
        exact ⟨fun _ => Or.inr (Or.inr he), fun _ => Or.inl (List.mem_singleton.mpr rfl)⟩
      · rw [if_neg he]
        by_cases h2 : envCode ∈ codes
        · rw [if_pos h2]
          constructor
          · intro h
            exact Or.inl ⟨codes, rfl, h⟩
          · rintro (⟨codes', hc, h⟩ | h | h)
            · cases hc; exact h
            · exact Or.inr (h ▸ h2)
            · exact absurd h he
        · rw [if_neg h2]
          simp only [List.mem_append, List.mem_singleton]
          constructor
          · rintro ((h | h) | (h | h))
            · exact absurd h h1
            · exact absurd h.symm he
            · exact Or.inl ⟨codes, rfl, Or.inr h⟩
            · exact Or.inr (Or.inl h.symm)
          · rintro (⟨codes', hc, h⟩ | h | h)
            · cases hc
              rcases h with h | h
              · exact absurd h h1
              · exact Or.inr (Or.inl h)
            · exact Or.inr (Or.inr h.symm)
            · exact absurd h he

/-- What the loop body adds to the grants of an application other than "*". -/
theorem addApp_grants (m : ApplicationRBACObjectMap) (app : RoleToAppMapping) (a e : String)
    (ha : a ≠ "*") :
    Grants (addApp m app) a e ↔
      (Grants m a e ∨ (app.AppCode = a ∧ (app.EnvCode = e ∨ app.EnvCode = "*"))) := by
  by_cases hk : a = app.AppCode
  · subst hk
    obtain ⟨entry, he, hcodes⟩ := addApp_same m app
    have hold : oldEnvCodes m app = (m app.AppCode).map (fun o => o.EnvCodes) := by
      simp [oldEnvCodes, ha]
    unfold Grants
    rw [he]
    constructor
    · rintro ⟨entry', h1, h2⟩
      cases h1
      rw [hcodes, nextEnvCodes_grants, hold] at h2
      rcases h2 with ⟨codes, hc, h⟩ | h
      · cases hm : m app.AppCode with
        | none => rw [hm] at hc; cases hc
        | some object =>
          rw [hm] at hc
          cases hc
          exact Or.inl ⟨object, rfl, h⟩
      · exact Or.inr ⟨rfl, h⟩
    · intro h
      refine ⟨entry, rfl, ?_⟩
      rw [hcodes, nextEnvCodes_grants, hold]
      rcases h with ⟨object, hm, h⟩ | ⟨_, h⟩
      · exact Or.inl ⟨object.EnvCodes, by rw [hm]; rfl, h⟩
      · exact Or.inr h
  · unfold Grants
    rw [addApp_other m app a hk]
    constructor
    · exact Or.inl
    · rintro (h | ⟨h, _⟩)
      · exact h
      · exact absurd h.symm hk

theorem addApps_star (apps : List RoleToAppMapping) (m : ApplicationRBACObjectMap) :
    (addApps m apps "*").isSome = true ↔
      ((m "*").isSome = true ∨ ∃ app ∈ apps, app.AppCode = "*") := by
  induction apps generalizing m with
  | nil => simp [addApps]
  | cons app rest ih =>
    simp only [addApps, List.foldl_cons] at ih ⊢
    rw [ih, addApp_star, or_assoc]
    apply or_congr Iff.rfl
    constructor
    · rintro (h | ⟨x, hx, h⟩)
      · exact ⟨app, List.mem_cons_self _ _, h⟩
      · exact ⟨x, List.mem_cons_of_mem _ hx, h⟩
    · rintro ⟨x, hx, h⟩
      rcases List.mem_cons.mp hx with rfl | hx
      · exact Or.inl h
      · exact Or.inr ⟨x, hx, h⟩

theorem addApps_grants (apps : List RoleToAppMapping) (m : ApplicationRBACObjectMap)
    (a e : String) (ha : a ≠ "*") :
    Grants (addApps m apps) a e ↔
      (Grants m a e ∨ ∃ app ∈ apps, app.AppCode = a ∧ (app.EnvCode = e ∨ app.EnvCode = "*")) := by
  induction apps generalizing m with
  | nil => simp [addApps]
  | cons app rest ih =>
    simp only [addApps, List.foldl_cons] at ih ⊢
    rw [ih, addApp_grants m app a e ha, or_assoc]
    apply or_congr Iff.rfl
    constructor
    · rintro (h | ⟨x, hx, h⟩)
      · exact ⟨app, List.mem_cons_self _ _, h⟩
      · exact ⟨x, List.mem_cons_of_mem _ hx, h⟩
    · rintro ⟨x, hx, h⟩
      rcases List.mem_cons.mp hx with rfl | hx
      · exact Or.inl h
      · exact Or.inr ⟨x, hx, h⟩

/-- The table of the groups is the table of all their mappings, group after
group. -/
theorem loadGroups_eq_addApps (env : RbacEnv) (groups : List String)
    (m table : ApplicationRBACObjectMap) (hl : loadGroups env groups m = Except.ok table) :
    ∃ appLists : List (List RoleToAppMapping),
      List.Forall₂ (fun grp apps => getAppsForRole env grp = Except.ok apps) groups appLists ∧
      table = addApps m appLists.flatten := by
  induction groups generalizing m with
  | nil =>
    simp only [loadGroups] at hl
    cases hl
    exact ⟨[], List.Forall₂.nil, rfl⟩
  | cons grp rest ih =>
    simp only [loadGroups] at hl
    cases hg : getAppsForRole env grp with
    | error p => simp only [hg] at hl; cases hl
    | ok apps =>
      simp only [hg] at hl
      obtain ⟨appLists, hf, ht⟩ := ih _ hl
      refine ⟨apps :: appLists, List.Forall₂.cons hg hf, ?_⟩
      rw [ht]
      simp [addApps, List.foldl_append]

theorem mem_flatten_of_forall₂ (env : RbacEnv) (groups : List String)
    (appLists : List (List RoleToAppMapping))
    (hf : List.Forall₂ (fun grp apps => getAppsForRole env grp = Except.ok apps) groups appLists)
    (x : RoleToAppMapping) :
    x ∈ appLists.flatten ↔
      ∃ grp ∈ groups, ∃ apps, getAppsForRole env grp = Except.ok apps ∧ x ∈ apps := by
  induction hf with
  | nil => simp
  | @cons grp apps groups' lists' h _ ih =>
    simp only [List.flatten_cons, List.mem_append, ih, List.mem_cons, exists_eq_or_imp]
    constructor
    · rintro (hx | hx)
      · exact Or.inl ⟨apps, h, hx⟩
      · exact Or.inr hx
    · rintro (⟨apps', h', hx⟩ | hx)
      · rw [h] at h'
        cases h'
        exact Or.inl hx
      · exact Or.inr hx

theorem appsFromFormats_ok (formats : List (Option ADRoleNameFormatSpec)) (roleName : String)
    (acc : List RoleToAppMapping) (h : ∀ f ∈ formats, f ≠ none) :
    ∃ apps, appsFromFormats formats roleName acc = Except.ok apps := by
  induction formats generalizing acc with
  | nil => exact ⟨acc, rfl⟩
  | cons f rest ih =>
    have hrest : ∀ f' ∈ rest, f' ≠ none := fun f' hf' => h f' (List.mem_cons_of_mem _ hf')
    cases f with
    | none => exact absurd rfl (h none (List.mem_cons_self _ _))
    | some s =>
      simp only [appsFromFormats]
      split
      · split
        · exact ih _ hrest
        · exact ih _ hrest
      · exact ih _ hrest

theorem getAppsForRole_ok (env : RbacEnv) (formats : List (Option ADRoleNameFormatSpec))
    (hload : GetADRoleNameFormats env.conf = Except.ok formats)
    (hnonnil : ∀ f ∈ formats, f ≠ none) (roleName : String) :
    ∃ apps, getAppsForRole env roleName = Except.ok apps := by
  obtain ⟨apps, ha⟩ := appsFromFormats_ok formats roleName [] hnonnil
  simp only [getAppsForRole, hload, ha]
  split
  · exact ⟨_, rfl⟩
  · exact ⟨_, rfl⟩

theorem loadGroups_ok (env : RbacEnv) (groups : List String) (m : ApplicationRBACObjectMap)
    (h : ∀ grp, ∃ apps, getAppsForRole env grp = Except.ok apps) :
    ∃ table, loadGroups env groups m = Except.ok table := by
  induction groups generalizing m with
  | nil => exact ⟨m, rfl⟩
  | cons grp rest ih =>
    obtain ⟨apps, ha⟩ := h grp
    simp only [loadGroups, ha]
    exact ih _

theorem IsApplicationAllowed_of_unloaded (env : RbacEnv) (user : User) (isAdmin : Bool)
    (table : ApplicationRBACObjectMap) (object : Option ApplicationRBACObject)
    (h : loadGroups env user.Groups GoMap.empty = Except.ok table) :
    IsApplicationAllowed env ⟨some user, none, isAdmin⟩ object =
      IsApplicationAllowed env ⟨some user, some table, isAdmin⟩ object := by
  simp only [IsApplicationAllowed, loadAllAllowedApplications, h]

/-- The answer for one application in one environment, from the mappings of the
groups of the user. -/
theorem IsApplicationAllowed_single (env : RbacEnv) (user : User) (isAdmin : Bool)
    (a e : String) (h : ∀ grp, ∃ apps, getAppsForRole env grp = Except.ok apps) :
    ∃ (b : Bool) (checker : rbacAccessChecker),
      IsApplicationAllowed env ⟨some user, none, isAdmin⟩ (some ⟨a, [e]⟩) =
        Except.ok ((b, none), checker) ∧
      (b = true ↔
        ∃ grp ∈ user.Groups, ∃ apps, getAppsForRole env grp = Except.ok apps ∧
          ∃ m ∈ apps, MappingGrants m a e) := by
  obtain ⟨table, ht⟩ := loadGroups_ok env user.Groups GoMap.empty h
  obtain ⟨appLists, hf, htable⟩ := loadGroups_eq_addApps env user.Groups GoMap.empty table ht
  refine ⟨_, _, (IsApplicationAllowed_of_unloaded env user isAdmin table _ ht).trans
    (IsApplicationAllowed_of_loaded env (some user) isAdmin table (some ⟨a, [e]⟩)), ?_⟩
  have hmem := mem_flatten_of_forall₂ env user.Groups appLists hf
  have hstar : (table "*").isSome = true ↔ ∃ m ∈ appLists.flatten, m.AppCode = "*" := by
    rw [htable, addApps_star]
    simp [GoMap.empty]
  have hgrant : (match table a with
      | some entry => allEnvCodesAllowed entry.EnvCodes [e]
      | none => false) = true ↔ Grants table a e := by
    unfold Grants
    cases hta : table a with
    | none => simp
    | some entry => simp [allEnvCodesAllowed_iff]
  have hempty : ¬ Grants (GoMap.empty : ApplicationRBACObjectMap) a e := by
    rintro ⟨entry, h1, _⟩
    cases h1
  rw [Bool.or_eq_true, decide_eq_true_iff, hstar, hgrant]
  constructor
  · rintro (⟨m, hm, hs⟩ | hg)
    · obtain ⟨grp, hgrp, apps, hap, hma⟩ := (hmem m).mp hm
      exact ⟨grp, hgrp, apps, hap, m, hma, Or.inl hs⟩
    · by_cases ha : a = "*"
      · obtain ⟨entry, h1, _⟩ := hg
        have hs : (table "*").isSome = true := by rw [← ha, h1]; rfl
        obtain ⟨m, hm, hs'⟩ := hstar.mp hs
        obtain ⟨grp, hgrp, apps, hap, hma⟩ := (hmem m).mp hm
        exact ⟨grp, hgrp, apps, hap, m, hma, Or.inl hs'⟩
      · rw [htable, addApps_grants _ _ a e ha] at hg
        rcases hg with hg | ⟨m, hm, hh⟩
        · exact absurd hg hempty
        · obtain ⟨grp, hgrp, apps, hap, hma⟩ := (hmem m).mp hm
          exact ⟨grp, hgrp, apps, hap, m, hma, Or.inr hh⟩
  · rintro ⟨grp, hgrp, apps, hap, m, hma, hg⟩
    have hm : m ∈ appLists.flatten := (hmem m).mpr ⟨grp, hgrp, apps, hap, hma⟩
    rcases hg with hs | hh
    · exact Or.inl ⟨m, hm, hs⟩
    · by_cases ha : a = "*"
      · exact Or.inl ⟨m, hm, hh.1.trans ha⟩
      · right
        rw [htable, addApps_grants _ _ a e ha]
        exact Or.inr ⟨m, hm, hh⟩

theorem getAppsForRole_perm (env env' : RbacEnv) (hconf : env'.conf = env.conf)
    (hperm : ∀ role, (env'.AppsForRole role).Perm (env.AppsForRole role)) (roleName : String)
    (apps : List RoleToAppMapping) (h : getAppsForRole env roleName = Except.ok apps) :
    ∃ apps', getAppsForRole env' roleName = Except.ok apps' ∧ apps'.Perm apps := by
  simp only [getAppsForRole] at h ⊢
  rw [hconf]
  cases hl : GetADRoleNameFormats env.conf with
  | error p => simp only [hl] at h; cases h
  | ok formats =>
    simp only [hl] at h ⊢
    cases hf : appsFromFormats formats roleName [] with
    | error p => simp only [hf] at h; cases h
    | ok fromFormats =>
      simp only [hf] at h ⊢
      have hp := hperm roleName
      have hlen := hp.length_eq
      by_cases hz : (env.AppsForRole roleName).length > 0
      · rw [if_pos hz] at h
        cases h
        rw [if_pos (hlen ▸ hz)]
        exact ⟨_, rfl, List.Perm.append_left _ hp⟩
      · rw [if_neg hz] at h
        cases h
        rw [if_neg (hlen ▸ hz)]
        exact ⟨_, rfl, List.Perm.refl _⟩

/-- A user is allowed an application in an environment exactly when one of
their roles grants it, for role name formats that load without nil element:
`IsApplicationAllowed` for the object with `AppCode` `a` and the single
environment `e` returns `(b, nil)` with `b` true if and only if some mapping
`m` that `getAppsForRole` gives for one of the user's groups has `AppCode`
"*", or has `AppCode` `a` and `EnvCode` `e` or "*"; and `b` is the answer for
every order of the user's groups and of the configured mappings. -/
theorem IsApplicationAllowed_iff_role_grants (env : RbacEnv) (user : User) (isAdmin : Bool)
    (a e : String) (formats : List (Option ADRoleNameFormatSpec))
    (hload : GetADRoleNameFormats env.conf = Except.ok formats)
    (hnonnil : ∀ f ∈ formats, f ≠ none) :
    ∃ b : Bool,
      (∃ checker, IsApplicationAllowed env ⟨some user, none, isAdmin⟩ (some ⟨a, [e]⟩) =
        Except.ok ((b, none), checker)) ∧
      (b = true ↔
        ∃ grp ∈ user.Groups, ∃ apps, getAppsForRole env grp = Except.ok apps ∧
          ∃ m ∈ apps, m.AppCode = "*" ∨ (m.AppCode = a ∧ (m.EnvCode = e ∨ m.EnvCode = "*"))) ∧
      (∀ (user' : User) (env' : RbacEnv), env'.conf = env.conf →
        user'.Groups.Perm user.Groups →
        (∀ role, (env'.AppsForRole role).Perm (env.AppsForRole role)) →
        ∃ checker, IsApplicationAllowed env' ⟨some user', none, isAdmin⟩ (some ⟨a, [e]⟩) =
          Except.ok ((b, none), checker)) := by
  have hok := getAppsForRole_ok env formats hload hnonnil
  obtain ⟨b, checker, hb, hiff⟩ := IsApplicationAllowed_single env user isAdmin a e hok
  refine ⟨b, ⟨checker, hb⟩, hiff, ?_⟩
  intro user' env' hconf hgroups hperm
  have hok' : ∀ grp, ∃ apps, getAppsForRole env' grp = Except.ok apps := by
    intro grp
    obtain ⟨apps, ha⟩ := hok grp
    obtain ⟨apps', ha', _⟩ := getAppsForRole_perm env env' hconf hperm grp apps ha
    exact ⟨apps', ha'⟩
  obtain ⟨b', checker', hb', hiff'⟩ := IsApplicationAllowed_single env' user' isAdmin a e hok'
  have hbb : b' = b := by
    rw [Bool.eq_iff_iff, hiff, hiff']
    constructor
    · rintro ⟨grp, hgrp, apps', hap', m, hm, hg⟩
      obtain ⟨apps, ha⟩ := hok grp
      obtain ⟨apps'', ha'', hp⟩ := getAppsForRole_perm env env' hconf hperm grp apps ha
      rw [hap'] at ha''
      cases ha''
      exact ⟨grp, hgroups.mem_iff.mp hgrp, apps, ha, m, hp.mem_iff.mp hm, hg⟩
    · rintro ⟨grp, hgrp, apps, ha, m, hm, hg⟩
      obtain ⟨apps', ha', hp⟩ := getAppsForRole_perm env env' hconf hperm grp apps ha
      exact ⟨grp, hgroups.mem_iff.mpr hgrp, apps', ha', m, hp.mem_iff.mpr hm, hg⟩
  exact ⟨checker', hbb ▸ hb'⟩

/-- The user of the groups `r_k8s_aaa_eee_rw` and `admins` is allowed the
application `aaa` in the environment `eee`. -/
theorem IsApplicationAllowed_iff_role_grants_witness :
    ∃ b : Bool,
      (∃ checker, IsApplicationAllowed exampleRbacEnv
        ⟨some ⟨["r_k8s_aaa_eee_rw", "admins"]⟩, none, false⟩ (some ⟨"aaa", ["eee"]⟩) =
          Except.ok ((b, none), checker)) ∧
      b = true :=
  match IsApplicationAllowed_iff_role_grants exampleRbacEnv ⟨["r_k8s_aaa_eee_rw", "admins"]⟩
      false "aaa" "eee"
      [NewADRoleNameFormatSpec "r_k8s_" '_' "r_k8s_appCode_envCode_accessLevel"]
      (by rfl) (by decide) with
  | ⟨b, hb, hiff, _⟩ =>
    ⟨b, hb, hiff.mpr ⟨"r_k8s_aaa_eee_rw", by decide,
      [⟨0, "r_k8s_aaa_eee_rw", "aaa", "eee"⟩], by rfl,
      ⟨0, "r_k8s_aaa_eee_rw", "aaa", "eee"⟩, by decide, Or.inr ⟨rfl, Or.inl rfl⟩⟩⟩

/-- A nil element among the formats makes the loop of `getAppsForRole` panic,
for every role name. -/
theorem appsFromFormats_nil (formats : List (Option ADRoleNameFormatSpec)) (roleName : String)
    (appsForRole : List RoleToAppMapping) (h : none ∈ formats) :
    appsFromFormats formats roleName appsForRole = Except.error Panic.nilDereference := by
  induction formats generalizing appsForRole with
  | nil => cases h
  | cons spec rest ih =>
    cases spec with
    | none => simp only [appsFromFormats]
    | some s =>
      have hrest : none ∈ rest := by
        rcases List.mem_cons.mp h with h | h
        · cases h
        · exact h
      simp only [appsFromFormats]
      split
      · split
        · exact ih _ hrest
        · exact ih _ hrest
      · exact ih _ hrest

/-- When `getAppsForRole` panics for the first group of the user, so does
`IsApplicationAllowed` on a checker that has not loaded yet. -/
theorem IsApplicationAllowed_panics_of_getAppsForRole (env : RbacEnv) (user : User)
    (isAdmin : Bool) (object : Option ApplicationRBACObject) (grp : String) (rest : List String)
    (p : Panic) (hgroups : user.Groups = grp :: rest)
    (h : getAppsForRole env grp = Except.error p) :
    IsApplicationAllowed env ⟨some user, none, isAdmin⟩ object = Except.error p := by
  simp only [IsApplicationAllowed, loadAllAllowedApplications, hgroups, loadGroups, h]

/-- When the loaded formats have a nil element, `IsApplicationAllowed` panics
for every user with a group, whatever the mapping source grants. -/
theorem IsApplicationAllowed_panics_of_nil_format (env : RbacEnv) (user : User)
    (isAdmin : Bool) (object : Option ApplicationRBACObject)
    (formats : List (Option ADRoleNameFormatSpec)) (grp : String) (rest : List String)
    (hload : GetADRoleNameFormats env.conf = Except.ok formats) (hnil : none ∈ formats)
    (hgroups : user.Groups = grp :: rest) :
    IsApplicationAllowed env ⟨some user, none, isAdmin⟩ object =
      Except.error Panic.nilDereference := by
  apply IsApplicationAllowed_panics_of_getAppsForRole env user isAdmin object grp rest _ hgroups
  simp only [getAppsForRole, hload, appsFromFormats_nil formats grp [] hnil]

/-- C17, at a failing input: the one configured format is
{Prefix "a_", Delimiter "_", FormatString "x"}, for which
`GetADRoleNameFormats` returns the list of one nil spec, and the mapping source
grants every application in every environment to the role `admins`.  For the
user of the group `admins` and the application `aaa` in the environment `eee`
a mapping that grants it exists, yet `getAppsForRole` and with it
`IsApplicationAllowed` panic with a nil dereference instead of returning true;
with the same mapping source and no format configured the answer is true. -/
theorem IsApplicationAllowed_panics_on_nil_format :
    nilFormatRbacEnv.AppsForRole "admins" = [⟨1, "admins", "*", "*"⟩] ∧
    GetADRoleNameFormats nilFormatRbacEnv.conf = Except.ok [none] ∧
    getAppsForRole nilFormatRbacEnv "admins" = Except.error Panic.nilDereference ∧
    IsApplicationAllowed nilFormatRbacEnv ⟨some ⟨["admins"]⟩, none, false⟩
        (some ⟨"aaa", ["eee"]⟩) = Except.error Panic.nilDereference ∧
    (∃ checker, IsApplicationAllowed noFormatRbacEnv ⟨some ⟨["admins"]⟩, none, false⟩
        (some ⟨"aaa", ["eee"]⟩) = Except.ok ((true, none), checker)) :=
  ⟨by rfl, by rfl, by rfl, by rfl, ⟨_, by rfl⟩⟩

/-! ## ldaprbac: loading the role name formats -/

/-- C19, at failing inputs: the check of the delimiter sits inside the loop over
the formats accepted so far, so it does not run for the first entry.  A first
entry with an empty delimiter makes the load panic on `Delimiter[0]`, a first
entry with the two-byte delimiter "__" contributes a spec; as second entries
both are skipped. -/
theorem GetADRoleNameFormats_first_delimiter_unchecked :
    GetADRoleNameFormats [⟨"r_k8s_", "", "r_k8s_appCode_envCode"⟩] =
        Except.error Panic.indexOutOfRange ∧
      byteLen "__" = 2 ∧
      GetADRoleNameFormats [⟨"r_k8s_", "__", "r_k8s_appCode_envCode"⟩] =
        Except.ok [some ⟨"r_k8s_", '_', "appCode_envCode", [("appCode", 0), ("envCode", 1)]⟩] ∧
      GetADRoleNameFormats [⟨"a_", "_", "a_x"⟩, ⟨"r_k8s_", "", "r_k8s_appCode_envCode"⟩] =
        Except.ok [some ⟨"a_", '_', "x", [("x", 0)]⟩] ∧
      GetADRoleNameFormats [⟨"a_", "_", "a_x"⟩, ⟨"r_k8s_", "__", "r_k8s_appCode_envCode"⟩] =
        Except.ok [some ⟨"a_", '_', "x", [("x", 0)]⟩] := by
  decide

theorem isValidCfg_true (acc : List (Option ADRoleNameFormatSpec)) (c : ADRoleNameFormatCfg)
    (h : isValidCfg acc c = Except.ok true) :
    (∀ x ∈ acc, ∃ s, x = some s ∧ PrefixConflict s.Prefix c.Prefix = false) ∧
      (acc ≠ [] → byteLen c.Delimiter = 1) := by
  induction acc with
  | nil => exact ⟨fun x hx => absurd hx (List.not_mem_nil x), fun h' => absurd rfl h'⟩
  | cons x rest ih =>
    cases x with
    | none => simp only [isValidCfg] at h; cases h
    | some s =>
      simp only [isValidCfg] at h
      by_cases hc : (HasPrefix s.Prefix c.Prefix || HasPrefix c.Prefix s.Prefix) = true
      · rw [if_pos hc] at h; cases h
      · rw [if_neg hc] at h
        by_cases hd : byteLen c.Delimiter ≠ 1
        · rw [if_pos hd] at h; cases h
        · rw [if_neg hd] at h
          obtain ⟨h1, _⟩ := ih h
          refine ⟨?_, fun _ => not_not.mp hd⟩
          intro y hy
          rcases List.mem_cons.mp hy with rfl | hy
          · exact ⟨s, rfl, by simpa [PrefixConflict] using hc⟩
          · exact h1 y hy

theorem isValidCfg_false (acc : List (Option ADRoleNameFormatSpec)) (c : ADRoleNameFormatCfg)
    (h : isValidCfg acc c = Except.ok false) (hd : byteLen c.Delimiter = 1) :
    ConflictsWith acc c.Prefix := by
  induction acc with
  | nil => simp only [isValidCfg] at h; cases h
  | cons x rest ih =>
    cases x with
    | none => simp only [isValidCfg] at h; cases h
    | some s =>
      simp only [isValidCfg] at h
      by_cases hc : (HasPrefix s.Prefix c.Prefix || HasPrefix c.Prefix s.Prefix) = true
      · exact ⟨s, List.mem_cons_self _ _, hc⟩
      · rw [if_neg hc, if_neg (not_not.mpr hd)] at h
        obtain ⟨t, ht, hct⟩ := ih h
        exact ⟨t, List.mem_cons_of_mem _ ht, hct⟩

theorem isValidCfg_invalid_delimiter (acc : List (Option ADRoleNameFormatSpec))
    (c : ADRoleNameFormatCfg) (b : Bool) (h : isValidCfg acc c = Except.ok b)
    (hd : byteLen c.Delimiter ≠ 1) (hacc : acc ≠ []) : b = false := by
  cases acc with
  | nil => exact absurd rfl hacc
  | cons x rest =>
    cases x with
    | none => simp only [isValidCfg] at h; cases h
    | some s =>
      simp only [isValidCfg] at h
      by_cases hc : (HasPrefix s.Prefix c.Prefix || HasPrefix c.Prefix s.Prefix) = true
      · rw [if_pos hc] at h; cases h; rfl
      · rw [if_neg hc, if_pos hd] at h; cases h; rfl

theorem PrefixConflict_comm (p q : String) : PrefixConflict p q = PrefixConflict q p := by
  simp [PrefixConflict, Bool.or_comm]

theorem byteLen_one_firstByteRune (s : String) (h : byteLen s = 1) :
    ∃ d, firstByteRune s = some d := by
  unfold firstByteRune
  cases hs : s.data with
  | nil =>
    have : s = "" := String.ext hs
    subst this
    exact absurd h (by decide)
  | cons c rest => exact ⟨_, rfl⟩

/-- What the loop body does with an entry, when it does not panic. -/
theorem loadFormat_ok (acc acc' : List (Option ADRoleNameFormatSpec)) (c : ADRoleNameFormatCfg)
    (h : loadFormat acc c = Except.ok acc') (hinv : NoAmbiguousPrefixes acc) :
    NoAmbiguousPrefixes acc' ∧
      (byteLen c.Delimiter = 1 →
        (ConflictsWith acc c.Prefix → acc' = acc) ∧
        (¬ ConflictsWith acc c.Prefix →
          ∃ d, firstByteRune c.Delimiter = some d ∧
            acc' = acc ++ [NewADRoleNameFormatSpec c.Prefix d c.FormatString])) ∧
      (byteLen c.Delimiter ≠ 1 → acc ≠ [] → acc' = acc) := by
  unfold loadFormat at h
  cases hv : isValidCfg acc c with
  | error p => simp only [hv] at h; cases h
  | ok b =>
    cases b with
    | false =>
      simp only [hv] at h
      cases h
      refine ⟨hinv, fun hd => ⟨fun _ => rfl, fun hn => ?_⟩, fun _ _ => rfl⟩
      exact absurd (isValidCfg_false acc c hv hd) hn
    | true =>
      simp only [hv] at h
      obtain ⟨hall, hlen⟩ := isValidCfg_true acc c hv
      cases hf : firstByteRune c.Delimiter with
      | none => simp only [hf] at h; cases h
      | some d =>
        simp only [hf] at h
        cases h
        have hnc : ¬ ConflictsWith acc c.Prefix := by
          rintro ⟨s, hs, hc⟩
          obtain ⟨s', hs', hc'⟩ := hall _ hs
          cases hs'
          rw [hc] at hc'
          exact Bool.noConfusion hc'
        refine ⟨?_, fun _ => ⟨fun hc => absurd hc hnc, fun _ => ⟨d, rfl, rfl⟩⟩, fun hd hacc => ?_⟩
        · unfold NoAmbiguousPrefixes
          rw [List.pairwise_append]
          refine ⟨hinv, List.pairwise_singleton _ _, ?_⟩
          intro x hx y hy s t hxs hyt
          rw [List.mem_singleton] at hy
          obtain ⟨s', hs', hc'⟩ := hall x hx
          rw [hxs] at hs'
          cases hs'
          have ht : t.Prefix = c.Prefix := by
            rw [hy] at hyt
            unfold NewADRoleNameFormatSpec at hyt
            simp only [] at hyt
            split at hyt
            · cases hyt
            · split at hyt
              · cases hyt
              · cases hyt; rfl
          rw [ht]
          exact hc'
        · exact absurd (hlen hacc) hd

theorem loadFormats_append (acc : List (Option ADRoleNameFormatSpec))
    (xs ys : List ADRoleNameFormatCfg) :
    loadFormats acc (xs ++ ys) =
      match loadFormats acc xs with
      | Except.error p => Except.error p
      | Except.ok mid => loadFormats mid ys := by
  induction xs generalizing acc with
  | nil => rfl
  | cons x rest ih =>
    simp only [List.cons_append, loadFormats]
    cases loadFormat acc x with
    | error p => rfl
    | ok formats => exact ih formats

theorem loadFormats_invariant (acc specs : List (Option ADRoleNameFormatSpec))
    (conf : List ADRoleNameFormatCfg) (h : loadFormats acc conf = Except.ok specs)
    (hinv : NoAmbiguousPrefixes acc) : NoAmbiguousPrefixes specs := by
  induction conf generalizing acc with
  | nil => simp only [loadFormats] at h; cases h; exact hinv
  | cons c rest ih =>
    simp only [loadFormats] at h
    cases hl : loadFormat acc c with
    | error p => simp only [hl] at h; cases h
    | ok acc' =>
      simp only [hl] at h
      exact ih acc' h (loadFormat_ok acc acc' c hl hinv).1

/-- C20, as amended: when the load returns, no two specs at different places of
the resulting list have prefixes of which one is a prefix of the other.  An
entry whose delimiter is one byte long is skipped exactly when its prefix is a
prefix of, or is prefixed by, the prefix of an entry accepted before it (else
its spec is appended, so the first of two conflicting entries wins); an entry
whose delimiter is not one byte long is skipped when an entry was accepted
before it. -/
theorem GetADRoleNameFormats_no_ambiguous_prefixes (conf : List ADRoleNameFormatCfg)
    (specs : List (Option ADRoleNameFormatSpec))
    (h : GetADRoleNameFormats conf = Except.ok specs) :
    NoAmbiguousPrefixes specs ∧
      ∀ (pre post : List ADRoleNameFormatCfg) (c : ADRoleNameFormatCfg),
        conf = pre ++ c :: post →
        ∃ acc, GetADRoleNameFormats pre = Except.ok acc ∧
          (byteLen c.Delimiter = 1 →
            (ConflictsWith acc c.Prefix → GetADRoleNameFormats (pre ++ [c]) = Except.ok acc) ∧
            (¬ ConflictsWith acc c.Prefix →
              ∃ d, firstByteRune c.Delimiter = some d ∧
                GetADRoleNameFormats (pre ++ [c]) =
                  Except.ok (acc ++ [NewADRoleNameFormatSpec c.Prefix d c.FormatString]))) ∧
          (byteLen c.Delimiter ≠ 1 → acc ≠ [] →
            GetADRoleNameFormats (pre ++ [c]) = Except.ok acc) := by
  have hnil : NoAmbiguousPrefixes [] := List.Pairwise.nil
  refine ⟨loadFormats_invariant [] specs conf h hnil, ?_⟩
  intro pre post c hsplit
  unfold GetADRoleNameFormats at h ⊢
  rw [hsplit, loadFormats_append] at h
  cases hp : loadFormats [] pre with
  | error p => simp only [hp] at h; cases h
  | ok acc =>
    simp only [hp, loadFormats] at h
    cases hl : loadFormat acc c with
    | error p => simp only [hl] at h; cases h
    | ok acc' =>
      have hone : loadFormats [] (pre ++ [c]) = Except.ok acc' := by
        rw [loadFormats_append]
        simp only [hp, loadFormats, hl]
      obtain ⟨_, h1, h2⟩ := loadFormat_ok acc acc' c hl (loadFormats_invariant [] acc pre hp hnil)
      refine ⟨acc, rfl, fun hd => ⟨fun hc => ?_, fun hc => ?_⟩, fun hd hacc => ?_⟩
      · rw [hone, (h1 hd).1 hc]
      · obtain ⟨d, hf, ha⟩ := (h1 hd).2 hc
        exact ⟨d, hf, by rw [hone, ha]⟩
      · rw [hone, h2 hd hacc]

/-- Witness of C20: of the entries with the prefixes "a_", "a_b" and "c_" the
second conflicts with the first and is skipped, the third is accepted. -/
theorem GetADRoleNameFormats_no_ambiguous_prefixes_witness :
    NoAmbiguousPrefixes
        [some ⟨"a_", '_', "x", [("x", 0)]⟩, some ⟨"c_", '_', "x_y", [("x", 0), ("y", 1)]⟩] ∧
      GetADRoleNameFormats [⟨"a_", "_", "a_x"⟩, ⟨"a_b", "_", "a_b_x"⟩] =
        Except.ok [some ⟨"a_", '_', "x", [("x", 0)]⟩] :=
  ⟨(GetADRoleNameFormats_no_ambiguous_prefixes
      [⟨"a_", "_", "a_x"⟩, ⟨"a_b", "_", "a_b_x"⟩, ⟨"c_", "_", "c_x_y"⟩]
      [some ⟨"a_", '_', "x", [("x", 0)]⟩, some ⟨"c_", '_', "x_y", [("x", 0), ("y", 1)]⟩]
      (by decide)).1,
   match (GetADRoleNameFormats_no_ambiguous_prefixes
      [⟨"a_", "_", "a_x"⟩, ⟨"a_b", "_", "a_b_x"⟩, ⟨"c_", "_", "c_x_y"⟩]
      [some ⟨"a_", '_', "x", [("x", 0)]⟩, some ⟨"c_", '_', "x_y", [("x", 0), ("y", 1)]⟩]
      (by decide)).2 [⟨"a_", "_", "a_x"⟩] [⟨"c_", "_", "c_x_y"⟩] ⟨"a_b", "_", "a_b_x"⟩ rfl with
   | ⟨acc, hacc, hone, _⟩ =>
     have ha : acc = [some ⟨"a_", '_', "x", [("x", 0)]⟩] := by
       have h' : GetADRoleNameFormats [⟨"a_", "_", "a_x"⟩] =
           Except.ok [some ⟨"a_", '_', "x", [("x", 0)]⟩] := by decide
       rw [h'] at hacc
       cases hacc
       rfl
     ha ▸ (hone (by decide)).1 (ha ▸ ⟨⟨"a_", '_', "x", [("x", 0)]⟩, by decide, by decide⟩)⟩

/-- Counterexample to C20 as stated: the second entry has the prefix "b_", which
is not a prefix of and is not prefixed by the prefix "a_" of the one entry
accepted before it, and it is skipped all the same, its delimiter "__" being
two bytes long. -/
theorem GetADRoleNameFormats_skips_without_conflict :
    GetADRoleNameFormats [⟨"a_", "_", "a_x"⟩] = Except.ok [some ⟨"a_", '_', "x", [("x", 0)]⟩] ∧
      PrefixConflict "a_" "b_" = false ∧
      GetADRoleNameFormats [⟨"a_", "_", "a_x"⟩, ⟨"b_", "__", "b_x"⟩] =
        Except.ok [some ⟨"a_", '_', "x", [("x", 0)]⟩] := by
  decide

/-! ## ldaprbac: reading a role name -/

theorem readSlice_of_no_newline (l : List Char) (h : '\n' ∉ l) : readSlice l = (l, [], false) := by
  induction l with
  | nil => rfl
  | cons c rest ih =>
    have hc : c ≠ '\n' := fun hc => h (hc ▸ List.mem_cons_self _ _)
    have hr : '\n' ∉ rest := fun hr => h (List.mem_cons_of_mem _ hr)
    simp only [readSlice, hc, if_false, ih hr]

theorem getLast?_mem {α : Type} (l : List α) (c : α) (h : l.getLast? = some c) : c ∈ l := by
  exact List.mem_of_getLast?_eq_some h

theorem readLine_of_clean (l : List Char) (hne : l ≠ []) (hn : '\n' ∉ l) (hr : '\r' ∉ l) :
    readLine l = (l, [], false) := by
  have hlen : 0 < l.length := List.length_pos.mpr hne
  have hlast : l.getLast? ≠ some '\r' := fun h => hr (getLast?_mem l _ h)
  have hget : l.get? (l.length - 1) ≠ some '\n' := by
    intro h
    exact hn (List.get?_mem h)
  simp only [readLine, readSlice_of_no_newline l hn, Bool.not_false, Bool.and_true,
    decide_eq_true_eq, hlen, if_true, hlast, if_false]
  simp only [Prod.mk.injEq, and_true]
  rw [if_neg]
  intro h
  simp only [ge_iff_le, Bool.and_eq_true, decide_eq_true_eq] at h
  exact hget h.2

theorem lengthNL_of_no_newline (l : List Char) (hn : '\n' ∉ l) : lengthNL l = 0 := by
  unfold lengthNL
  rw [if_neg]
  exact fun h => hn (getLast?_mem l _ h)

theorem firstLine_of_clean (fuel : Nat) (l : List Char) (hne : l ≠ []) (hn : '\n' ∉ l)
    (hr : '\r' ∉ l) : firstLine (fuel + 1) l = Except.ok (l, []) := by
  have hlen : l.length ≠ 0 := fun h => hne (List.length_eq_zero.mp h)
  simp [firstLine, readLine_of_clean l hne hn hr, lengthNL_of_no_newline l hn, hlen]

theorem indexRune_of_not_mem (d : Char) (x : List Char) (h : d ∉ x) : indexRune d x = none := by
  induction x with
  | nil => rfl
  | cons c rest ih =>
    have hc : c ≠ d := fun hc => h (hc ▸ List.mem_cons_self _ _)
    simp only [indexRune, hc, if_false, ih (fun hr => h (List.mem_cons_of_mem _ hr)),
      Option.map_none']

theorem indexRune_append (d : Char) (x rest : List Char) (h : d ∉ x) :
    indexRune d (x ++ d :: rest) = some x.length := by
  induction x with
  | nil => simp [indexRune]
  | cons c xs ih =>
    have hc : c ≠ d := fun hc => h (hc ▸ List.mem_cons_self _ _)
    have hi := ih (fun hr => h (List.mem_cons_of_mem _ hr))
    simp [indexRune, hc, hi]

theorem contains_quote_false (x : List Char) (h : '"' ∉ x) : x.contains '"' = false := by
  simpa using h

theorem head?_ne_quote (x rest : List Char) (d : Char) (hd : d ≠ '"') (h : '"' ∉ x) :
    (x ++ d :: rest).head? ≠ some '"' := by
  cases x with
  | nil => simp only [List.nil_append, List.head?_cons]; exact fun hh => hd (Option.some.inj hh)
  | cons c xs =>
    simp only [List.cons_append, List.head?_cons]
    exact fun hh => h (Option.some.inj hh ▸ List.mem_cons_self _ _)

theorem head?_ne_quote_single (x : List Char) (h : '"' ∉ x) : x.head? ≠ some '"' := by
  cases x with
  | nil => simp
  | cons c xs =>
    simp only [List.head?_cons]
    exact fun hh => h (Option.some.inj hh ▸ List.mem_cons_self _ _)

/-- The field loop on clean fields joined by the delimiter reads the fields. -/
theorem parseFields_joinChars (d : Char) (hd : d ≠ '"') (xs : List (List Char)) (hne : xs ≠ [])
    (hclean : ∀ x ∈ xs, d ∉ x ∧ '"' ∉ x ∧ '\n' ∉ x) (fuel : Nat) (hfuel : xs.length ≤ fuel)
    (rest cur : List Char) (acc : List String) :
    parseFields d fuel false (joinChars d xs) rest cur acc =
      Except.ok (acc ++ xs.map String.mk) := by
  induction xs generalizing fuel cur acc with
  | nil => exact absurd rfl hne
  | cons x tail ih =>
    obtain ⟨hxd, hxq, hxn⟩ := hclean x (List.mem_cons_self _ _)
    cases fuel with
    | zero => simp at hfuel
    | succ fuel =>
      cases tail with
      | nil =>
        simp only [joinChars, parseFields, head?_ne_quote_single x hxq, ne_eq, not_false_eq_true,
          if_true, indexRune_of_not_mem d x hxd, lengthNL_of_no_newline x hxn, Nat.sub_zero,
          List.take_length, contains_quote_false x hxq, Bool.false_eq_true, if_false,
          List.map_cons, List.map_nil]
      | cons y tail' =>
        have hstep := ih (List.cons_ne_nil _ _)
          (fun z hz => hclean z (List.mem_cons_of_mem _ hz)) fuel
          (by simp only [List.length_cons] at hfuel ⊢; omega) [] (acc ++ [String.mk x])
        simp only [joinChars, parseFields, head?_ne_quote x _ d hd hxq, ne_eq,
          not_false_eq_true, if_true, indexRune_append d x _ hxd, List.take_left',
          contains_quote_false x hxq, Bool.false_eq_true, if_false]
        have hdrop : List.drop (x.length + 1) (x ++ d :: joinChars d (y :: tail')) =
            joinChars d (y :: tail') := by
          rw [List.drop_append_eq_append_drop]
          simp
        rw [hdrop, hstep]
        simp

theorem mem_joinChars (d c : Char) (xs : List (List Char)) (h : c ∈ joinChars d xs) :
    c = d ∨ ∃ x ∈ xs, c ∈ x := by
  induction xs with
  | nil => simp [joinChars] at h
  | cons x tail ih =>
    cases tail with
    | nil => exact Or.inr ⟨x, List.mem_cons_self _ _, by simpa [joinChars] using h⟩
    | cons y tail' =>
      simp only [joinChars, List.mem_append, List.mem_cons] at h
      rcases h with h | h | h
      · exact Or.inr ⟨x, List.mem_cons_self _ _, h⟩
      · exact Or.inl h
      · rcases ih h with h' | ⟨z, hz, hc⟩
        · exact Or.inl h'
        · exact Or.inr ⟨z, List.mem_cons_of_mem _ hz, hc⟩

theorem length_le_joinChars (d : Char) (xs : List (List Char)) :
    xs.length ≤ (joinChars d xs).length + 1 := by
  induction xs with
  | nil => simp
  | cons x tail ih =>
    cases tail with
    | nil => simp
    | cons y tail' =>
      simp only [joinChars, List.length_cons, List.length_append] at ih ⊢
      omega

theorem validDelim_ne (d : Char) (h : validDelim d = true) : d ≠ '"' ∧ d ≠ '\n' ∧ d ≠ '\r' := by
  simp only [validDelim, Bool.and_eq_true, bne_iff_ne, ne_eq] at h
  exact ⟨h.1.1.1.2, h.1.2, h.1.1.2⟩

/-- Reading clean fields joined by a valid delimiter gives the fields back. -/
theorem csvRead_joinFields (d : Char) (hd : validDelim d = true) (fields : List String)
    (hne : fields ≠ []) (hclean : ∀ f ∈ fields, CleanField d f)
    (hdata : joinFields d fields ≠ "") : csvRead d (joinFields d fields) = Except.ok fields := by
  obtain ⟨hdq, hdn, hdr⟩ := validDelim_ne d hd
  have hxs : ∀ x ∈ fields.map String.data, d ∉ x ∧ '"' ∉ x ∧ '\n' ∉ x ∧ '\r' ∉ x := by
    intro x hx
    obtain ⟨f, hf, rfl⟩ := List.mem_map.mp hx
    have hc := hclean f hf
    exact ⟨fun h => (hc d h).1 rfl, fun h => (hc _ h).2.1 rfl, fun h => (hc _ h).2.2.1 rfl,
      fun h => (hc _ h).2.2.2 rfl⟩
  have hjne : joinChars d (fields.map String.data) ≠ [] := by
    intro h
    apply hdata
    unfold joinFields
    rw [h]
  have hjn : '\n' ∉ joinChars d (fields.map String.data) := by
    intro h
    rcases mem_joinChars d _ _ h with h' | ⟨x, hx, hc⟩
    · exact hdn h'.symm
    · exact (hxs x hx).2.2.1 hc
  have hjr : '\r' ∉ joinChars d (fields.map String.data) := by
    intro h
    rcases mem_joinChars d _ _ h with h' | ⟨x, hx, hc⟩
    · exact hdr h'.symm
    · exact (hxs x hx).2.2.2 hc
  have hmap : (fields.map String.data).map String.mk = fields := by
    rw [List.map_map]
    exact List.map_id'' (fun _ => rfl) _
  unfold csvRead
  simp only [hd, Bool.not_true, Bool.false_eq_true, if_false, joinFields,
    firstLine_of_clean _ _ hjne hjn hjr]
  rw [parseFields_joinChars d hdq (fields.map String.data) (by simpa using hne)
    (fun x hx => ⟨(hxs x hx).1, (hxs x hx).2.1, (hxs x hx).2.2.1⟩) _
    (by
      have := length_le_joinChars d (fields.map String.data)
      simp only [List.length_nil, Nat.add_zero]
      exact this)]
  rw [hmap, List.nil_append]

theorem FinMap.set_of_new (m : FinMap Nat) (k : String) (v : Nat)
    (h : ∀ kv ∈ m, kv.1 ≠ k) : m.set k v = m ++ [(k, v)] := by
  unfold FinMap.set
  rw [if_neg]
  simp only [List.any_eq_true, decide_eq_true_eq, not_exists, not_and]
  exact h

theorem indexFields_of_nodup (fields : List String) (i : Nat) (acc : FinMap Nat)
    (hnodup : fields.Nodup) (hnew : ∀ f ∈ fields, ∀ kv ∈ acc, kv.1 ≠ f) :
    indexFields fields i acc = acc ++ fields.zip (List.range' i fields.length) := by
  induction fields generalizing i acc with
  | nil => simp [indexFields]
  | cons f rest ih =>
    obtain ⟨hf, hrest⟩ := List.nodup_cons.mp hnodup
    simp only [indexFields]
    rw [FinMap.set_of_new acc f i (hnew f (List.mem_cons_self _ _))]
    rw [ih (i + 1) _ hrest]
    · simp [List.range'_succ]
    · intro g hg kv hkv
      rcases List.mem_append.mp hkv with hkv | hkv
      · exact hnew g (List.mem_cons_of_mem _ hg) kv hkv
      · rw [List.mem_singleton] at hkv
        rw [hkv]
        intro h
        have h' : f = g := h
        exact hf (h' ▸ hg)

/-- The loop over the field index on names with the indices `i`, `i + 1`, ...
fills in the fields at those places. -/
theorem fillFieldData_zip (names : List String) (i : Nat) (fields : List String)
    (m : GoMap String) (hnodup : names.Nodup) (hlen : i + names.length ≤ fields.length) :
    fillFieldData (names.zip (List.range' i names.length)) fields m =
      some (fun k =>
        match GoMap.ofList (names.zip (fields.drop i)) k with
        | some v => some v
        | none => m k) := by
  induction names generalizing i m with
  | nil => simp [fillFieldData, GoMap.ofList]
  | cons n rest ih =>
    obtain ⟨hn, hrest⟩ := List.nodup_cons.mp hnodup
    simp only [List.length_cons] at hlen
    have hi : i < fields.length := by omega
    have hdrop : fields.drop i = fields.getD i "" :: fields.drop (i + 1) := by
      rw [List.drop_eq_getElem_cons hi]
      simp [List.getD_eq_getElem?_getD, hi]
    have hz : (n :: rest).zip (List.range' i (n :: rest).length) =
        (n, i) :: rest.zip (List.range' (i + 1) rest.length) := by
      simp [List.range'_succ]
    rw [hz]
    simp only [fillFieldData, ge_iff_le, Nat.not_le.mpr hi, if_false]
    rw [ih (i + 1) _ hrest (by omega), hdrop]
    congr 1
    funext k
    simp only [GoMap.ofList, List.zip_cons_cons, List.find?_cons]
    by_cases hk : n = k
    · subst hk
      have hnone : List.find? (fun kv => decide (kv.1 = n)) (rest.zip (fields.drop (i + 1)))
          = none := by
        rw [List.find?_eq_none]
        intro kv hkv
        simp only [decide_eq_true_eq]
        intro h
        exact hn (h ▸ (List.of_mem_zip hkv).1)
      simp [hnone, GoMap.set]
    · have hk' : k ≠ n := fun h => hk h.symm
      simp only [hk, decide_False, GoMap.set, hk', if_false]

theorem HasPrefix_append (p x : String) : HasPrefix (p ++ x) p = true := by
  unfold HasPrefix
  rw [String.data_append, List.isPrefixOf_iff_prefix]
  exact List.prefix_append _ _

theorem trimPrefix_append (p x : String) : trimPrefix (p ++ x) p = x := by
  unfold trimPrefix
  rw [String.data_append, List.drop_left]

theorem joinChars_ne_nil (d : Char) (xs : List (List Char)) (hne : xs ≠ [])
    (h : ∀ x ∈ xs, x ≠ []) : joinChars d xs ≠ [] := by
  cases xs with
  | nil => exact absurd rfl hne
  | cons x tail =>
    have hx := h x (List.mem_cons_self _ _)
    cases tail with
    | nil => simpa [joinChars] using hx
    | cons y tail' => simp [joinChars, hx]

/-- C15, as amended: for every prefix `p`, valid delimiter `d`, list of pairwise
distinct non-empty field names `f1..fn` (`n ≥ 1`) that contain no delimiter,
double quote or line break, and every list of values `v1..vn` that contain no
delimiter, double quote or line break and do not all make the empty string,
`ParseFieldsFromADRoleName(NewADRoleNameFormatSpec(p, d, p+f1+d+...+fn),
p+v1+d+...+vn)` returns the map `{f1: v1, ..., fn: vn}`. -/
theorem ParseFieldsFromADRoleName_follows_format (p : String) (d : Char)
    (names values : List String) (hd : validDelim d = true) (hn : names ≠ [])
    (hdistinct : names.Nodup) (hnonempty : ∀ f ∈ names, f ≠ "")
    (hnames : ∀ f ∈ names, CleanField d f) (hlen : values.length = names.length)
    (hvalues : ∀ v ∈ values, CleanField d v) (hdata : joinFields d values ≠ "") :
    ParseFieldsFromADRoleName (NewADRoleNameFormatSpec p d (p ++ joinFields d names))
        (p ++ joinFields d values) =
      some (GoMap.ofList (names.zip values)) := by
  have hnamesdata : joinFields d names ≠ "" := by
    intro h
    have h' := congrArg String.data h
    refine joinChars_ne_nil d (names.map String.data) (by simpa using hn) ?_ h'
    intro x hx
    obtain ⟨f, hf, rfl⟩ := List.mem_map.mp hx
    intro hx'
    exact hnonempty f hf (String.ext hx')
  have hv : values ≠ [] := by
    intro h
    rw [h] at hlen
    exact hn (List.length_eq_zero.mp hlen.symm)
  have hspec : NewADRoleNameFormatSpec p d (p ++ joinFields d names) =
      some ⟨p, d, joinFields d names, names.zip (List.range' 0 names.length)⟩ := by
    simp only [NewADRoleNameFormatSpec, HasPrefix_append, trimPrefix_append, Bool.not_true,
      Bool.false_eq_true, if_false, csvRead_joinFields d hd names hn hnames hnamesdata]
    rw [indexFields_of_nodup names 0 [] hdistinct (fun _ _ kv hkv => absurd hkv (List.not_mem_nil kv))]
    rfl
  rw [hspec]
  simp only [ParseFieldsFromADRoleName, HasPrefix_append, trimPrefix_append, Bool.not_true,
    Bool.false_eq_true, if_false, csvRead_joinFields d hd values hv hvalues hdata]
  rw [fillFieldData_zip names 0 values GoMap.empty hdistinct (by omega)]
  congr 1
  funext k
  simp only [List.drop_zero]
  cases GoMap.ofList (names.zip values) k <;> rfl

/-- Witness of C15: the format "r_k8s_appCode_envCode_accessLevel" and the role
name "r_k8s_aaa_eee_rw" give appCode = "aaa", envCode = "eee" and
accessLevel = "rw". -/
theorem ParseFieldsFromADRoleName_follows_format_witness :
    ParseFieldsFromADRoleName
        (NewADRoleNameFormatSpec "r_k8s_" '_' "r_k8s_appCode_envCode_accessLevel")
        "r_k8s_aaa_eee_rw" =
      some (GoMap.ofList [("appCode", "aaa"), ("envCode", "eee"), ("accessLevel", "rw")]) :=
  ParseFieldsFromADRoleName_follows_format "r_k8s_" '_' ["appCode", "envCode", "accessLevel"]
    ["aaa", "eee", "rw"] (by decide) (by decide) (by decide) (by decide) (by decide) (by decide)
    (by decide) (by decide)

/-- Counterexample to C15 as stated: with the prefix "r_", the valid delimiter
'_', the one non-empty field name "app_code" and the value "aaa", which has no
delimiter, double quote or line break, the format "r_app_code" is read as the
two fields "app" and "code", and the role name "r_aaa" is rejected: the result
is nil and not the map of "app_code" to "aaa". -/
theorem ParseFieldsFromADRoleName_name_with_delimiter :
    validDelim '_' = true ∧ ["app_code"].Nodup ∧ (∀ f ∈ ["app_code"], f ≠ "") ∧
      (∀ v ∈ ["aaa"], CleanField '_' v) ∧ joinFields '_' ["aaa"] ≠ "" ∧
      "r_" ++ joinFields '_' ["app_code"] = "r_app_code" ∧
      "r_" ++ joinFields '_' ["aaa"] = "r_aaa" ∧
      NewADRoleNameFormatSpec "r_" '_' "r_app_code" =
        some ⟨"r_", '_', "app_code", [("app", 0), ("code", 1)]⟩ ∧
      ParseFieldsFromADRoleName (NewADRoleNameFormatSpec "r_" '_' "r_app_code") "r_aaa" = none ∧
      ParseFieldsFromADRoleName (NewADRoleNameFormatSpec "r_" '_' "r_app_code") "r_aaa" ≠
        some (GoMap.ofList (["app_code"].zip ["aaa"])) := by
  refine ⟨by decide, by decide, by decide, by decide, by decide, by decide, by decide,
    by decide, by rfl, ?_⟩
  have h : ParseFieldsFromADRoleName (NewADRoleNameFormatSpec "r_" '_' "r_app_code") "r_aaa"
      = none := by rfl
  rw [h]
  exact fun hh => Option.noConfusion hh

/-! ## the model of encoding/csv never runs out of steps -/

theorem readSlice_append (l : List Char) : (readSlice l).1 ++ (readSlice l).2.1 = l := by
  induction l with
  | nil => rfl
  | cons c rest ih =>
    simp only [readSlice]
    split
    · rfl
    · simp only [List.cons_append, ih]

theorem readSlice_rest_lt (l : List Char) (h : l ≠ []) : (readSlice l).2.1.length < l.length := by
  have := congrArg List.length (readSlice_append l)
  rw [List.length_append] at this
  have h1 : 0 < (readSlice l).1.length := by
    cases l with
    | nil => exact absurd rfl h
    | cons c rest =>
      simp only [readSlice]
      split <;> simp
  omega

theorem readLine_length_le (l : List Char) :
    (readLine l).1.length + (readLine l).2.1.length ≤ l.length := by
  have happ := congrArg List.length (readSlice_append l)
  rw [List.length_append] at happ
  simp only [readLine]
  have h1 : ∀ x : List Char, (if x.getLast? = some '\r' then x.dropLast else x).length ≤ x.length := by
    intro x
    split
    · simp
    · exact Nat.le_refl _
  have h2 : ∀ x : List Char,
      (if (decide (x.length ≥ 2) && x.get? (x.length - 2) = some '\r'
          && x.get? (x.length - 1) = some '\n') = true
        then x.take (x.length - 2) ++ ['\n'] else x).length ≤ x.length := by
    intro x
    split
    · rename_i hc
      simp only [Bool.and_eq_true, decide_eq_true_eq] at hc
      simp only [List.length_append, List.length_take, List.length_singleton]
      omega
    · exact Nat.le_refl _
  refine Nat.le_trans (Nat.add_le_add_right (h2 _) _) ?_
  split
  · have := h1 (readSlice l).1
    omega
  · omega

theorem firstLine_fuel (fuel : Nat) (input : List Char) (h : input.length < fuel) :
    firstLine fuel input ≠ Except.error CsvError.outOfFuel := by
  induction fuel generalizing input with
  | zero => exact absurd h (Nat.not_lt_zero _)
  | succ fuel ih =>
    simp only [firstLine]
    split
    · rename_i hc
      apply ih
      cases input with
      | nil => simp [readLine, readSlice] at hc
      | cons c rest =>
        have := readSlice_rest_lt (c :: rest) (List.cons_ne_nil _ _)
        simp only [readLine] at this ⊢
        omega
    · split
      · exact fun hh => by cases hh
      · exact fun hh => by cases hh

theorem indexRune_lt (r : Char) (l : List Char) (i : Nat) (h : indexRune r l = some i) :
    i < l.length := by
  induction l generalizing i with
  | nil => simp [indexRune] at h
  | cons c rest ih =>
    simp only [indexRune] at h
    split at h
    · cases h; simp
    · cases hr : indexRune r rest with
      | none => rw [hr] at h; cases h
      | some j =>
        rw [hr] at h
        cases h
        have := ih j hr
        simp only [List.length_cons]
        omega

theorem parseFields_fuel (comma : Char) (fuel : Nat) (quoted : Bool)
    (line rest cur : List Char) (fields : List String)
    (h : line.length + rest.length < fuel) :
    parseFields comma fuel quoted line rest cur fields ≠ Except.error CsvError.outOfFuel := by
  induction fuel generalizing quoted line rest cur fields with
  | zero => exact absurd h (Nat.not_lt_zero _)
  | succ fuel ih =>
    cases quoted with
    | false =>
      simp only [parseFields]
      split
      · split
        · rename_i i hi
          have hlt := indexRune_lt comma line i hi
          split
          · exact fun hh => by cases hh
          · apply ih
            simp only [List.length_drop]
            omega
        · split
          · exact fun hh => by cases hh
          · exact fun hh => by cases hh
      · rename_i hq
        apply ih
        have hne : line ≠ [] := by
          intro hl
          rw [hl] at hq
          simp at hq
        have := List.length_pos.mpr hne
        simp only [List.length_drop]
        omega
    | true =>
      simp only [parseFields]
      split
      · rename_i i hi
        have hlt := indexRune_lt '"' line i hi
        split
        · apply ih
          simp only [List.length_drop]
          omega
        · split
          · apply ih
            simp only [List.length_drop]
            omega
          · split
            · exact fun hh => by cases hh
            · exact fun hh => by cases hh
      · split
        · rename_i hpos
          apply ih
          have := readLine_length_le rest
          omega
        · exact fun hh => by cases hh

/-- The model of `Read` never stops for lack of steps: every error it returns is
an error of `csv.Reader.Read`. -/
theorem csvRead_ne_outOfFuel (comma : Char) (input : String) :
    csvRead comma input ≠ Except.error CsvError.outOfFuel := by
  unfold csvRead
  split
  · exact fun hh => by cases hh
  · cases hf : firstLine (input.data.length + 1) input.data with
    | error err =>
      simp only []
      intro hh
      cases hh
      exact firstLine_fuel _ _ (Nat.lt_succ_self _) hf
    | ok lr =>
      obtain ⟨line, rest⟩ := lr
      simp only []
      exact parseFields_fuel comma _ false line rest [] [] (Nat.lt_succ_self _)

/-! ## ldaprbac: nil specs and format mismatch -/

/-- Where the elements of the loaded list come from: an element is in the list
the load started from or is what `NewADRoleNameFormatSpec` returned for an
entry of the configuration, nil included. -/
theorem loadFormats_mem (acc specs : List (Option ADRoleNameFormatSpec))
    (conf : List ADRoleNameFormatCfg) (h : loadFormats acc conf = Except.ok specs)
    (x : Option ADRoleNameFormatSpec) (hx : x ∈ specs) :
    x ∈ acc ∨ ∃ c ∈ conf, ∃ d, firstByteRune c.Delimiter = some d ∧
      x = NewADRoleNameFormatSpec c.Prefix d c.FormatString := by
  induction conf generalizing acc with
  | nil => simp only [loadFormats] at h; cases h; exact Or.inl hx
  | cons c rest ih =>
    simp only [loadFormats] at h
    cases hl : loadFormat acc c with
    | error p => simp only [hl] at h; cases h
    | ok acc' =>
      simp only [hl] at h
      rcases ih acc' h with hmem | ⟨c', hc', d, hd, hxe⟩
      · unfold loadFormat at hl
        cases hv : isValidCfg acc c with
        | error p => simp only [hv] at hl; cases hl
        | ok b =>
          cases b with
          | false => simp only [hv] at hl; cases hl; exact Or.inl hmem
          | true =>
            simp only [hv] at hl
            cases hf : firstByteRune c.Delimiter with
            | none => simp only [hf] at hl; cases hl
            | some d =>
              simp only [hf] at hl
              cases hl
              rcases List.mem_append.mp hmem with hm | hm
              · exact Or.inl hm
              · rw [List.mem_singleton] at hm
                exact Or.inr ⟨c, List.mem_cons_self _ _, d, hf, hm⟩
      · exact Or.inr ⟨c', List.mem_cons_of_mem _ hc', d, hd, hxe⟩

/-- C21, at failing inputs: `GetADRoleNameFormats` appends what
`NewADRoleNameFormatSpec` returns without a nil check.  For the one entry with
the prefix "a_" and the format string "x", which does not start with the
prefix, and for the format string "a_", which has nothing to split, the
constructor returns nil and the returned list is `[nil]`; `getAppsForRole`
then panics on `spec.Prefix`, and with a second entry in the configuration the
ambiguity check of the load panics on `nameFmt.Prefix`. -/
theorem GetADRoleNameFormats_returns_nil_spec :
    NewADRoleNameFormatSpec "a_" '_' "x" = none ∧
      NewADRoleNameFormatSpec "a_" '_' "a_" = none ∧
      GetADRoleNameFormats [⟨"a_", "_", "x"⟩] = Except.ok [none] ∧
      GetADRoleNameFormats [⟨"a_", "_", "a_"⟩] = Except.ok [none] ∧
      getAppsForRole mismatchedRbacEnv "a_dev" = Except.error Panic.nilDereference ∧
      GetADRoleNameFormats [⟨"a_", "_", "x"⟩, ⟨"b_", "_", "b_x"⟩] =
        Except.error Panic.nilDereference := by
  decide

theorem fillFieldData_none (entries : List (String × Nat)) (fields : List String)
    (m : GoMap String)
    (h : ∃ name index, (name, index) ∈ entries ∧ fields.length ≤ index) :
    fillFieldData entries fields m = none := by
  induction entries generalizing m with
  | nil =>
    obtain ⟨_, _, hmem, _⟩ := h
    exact absurd hmem (List.not_mem_nil _)
  | cons e rest ih =>
    obtain ⟨n, i⟩ := e
    simp only [fillFieldData]
    by_cases hi : i ≥ fields.length
    · rw [if_pos hi]
    · rw [if_neg hi]
      apply ih
      obtain ⟨name, index, hmem, hle⟩ := h
      rcases List.mem_cons.mp hmem with heq | hmem
      · cases heq
        exact absurd hle hi
      · exact ⟨name, index, hmem, hle⟩

theorem fillFieldData_some (entries : List (String × Nat)) (fields : List String)
    (m : GoMap String)
    (h : ∀ name index, (name, index) ∈ entries → index < fields.length) :
    ∃ m', fillFieldData entries fields m = some m' ∧
      (∀ k, k ∉ entries.map Prod.fst → m' k = m k) ∧
      ((entries.map Prod.fst).Nodup →
        ∀ name index, (name, index) ∈ entries → m' name = fields[index]?) := by
  induction entries generalizing m with
  | nil =>
    exact ⟨m, rfl, fun _ _ => rfl, fun _ _ _ hmem => absurd hmem (List.not_mem_nil _)⟩
  | cons e rest ih =>
    obtain ⟨n, i⟩ := e
    have hi : i < fields.length := h n i (List.mem_cons_self _ _)
    obtain ⟨m', hm', hother, hkeys⟩ := ih (m.set n (fields.getD i ""))
      (fun name index hmem => h name index (List.mem_cons_of_mem _ hmem))
    refine ⟨m', ?_, ?_, ?_⟩
    · simp only [fillFieldData, ge_iff_le, Nat.not_le.mpr hi, if_false]
      exact hm'
    · intro k hk
      simp only [List.map_cons, List.mem_cons, not_or] at hk
      rw [hother k hk.2]
      exact GoMap.set_other _ _ _ _ hk.1
    · intro hnodup name index hmem
      simp only [List.map_cons, List.nodup_cons] at hnodup
      rcases List.mem_cons.mp hmem with heq | hmem
      · cases heq
        rw [hother n hnodup.1, GoMap.set_same]
        simp [List.getD_eq_getElem?_getD, hi]
      · exact hkeys hnodup.2 name index hmem

theorem FinMap.set_keys_nodup (m : FinMap Nat) (k : String) (v : Nat)
    (h : (m.map Prod.fst).Nodup) : ((m.set k v).map Prod.fst).Nodup := by
  unfold FinMap.set
  split
  · have hmap : (m.map (fun kv => if kv.1 = k then (k, v) else kv)).map Prod.fst
        = m.map Prod.fst := by
      rw [List.map_map]
      apply List.map_congr_left
      intro kv _
      simp only [Function.comp]
      split
      · rename_i hk; exact hk.symm
      · rfl
    rw [hmap]
    exact h
  · rename_i hany
    simp only [List.any_eq_true, decide_eq_true_eq, not_exists, not_and] at hany
    rw [List.map_append, List.nodup_append]
    refine ⟨h, List.nodup_singleton _, ?_⟩
    intro x hx hy
    simp only [List.map_cons, List.map_nil, List.mem_singleton] at hy
    obtain ⟨kv, hkv, hfst⟩ := List.mem_map.mp hx
    exact hany kv hkv (hfst.trans hy)

theorem indexFields_keys_nodup (fields : List String) (i : Nat) (acc : FinMap Nat)
    (h : (acc.map Prod.fst).Nodup) : ((indexFields fields i acc).map Prod.fst).Nodup := by
  induction fields generalizing i acc with
  | nil => exact h
  | cons f rest ih =>
    simp only [indexFields]
    exact ih _ _ (FinMap.set_keys_nodup acc f i h)

/-- The field index of a spec that `NewADRoleNameFormatSpec` has built has
pairwise distinct field names. -/
theorem NewADRoleNameFormatSpec_fieldNames_nodup (pfx : String) (delim : Char)
    (formatString : String) (spec : ADRoleNameFormatSpec)
    (h : NewADRoleNameFormatSpec pfx delim formatString = some spec) :
    (fieldNames spec).Nodup := by
  unfold NewADRoleNameFormatSpec at h
  simp only [] at h
  split at h
  · cases h
  · split at h
    · cases h
    · cases h
      exact indexFields_keys_nodup _ 0 [] List.nodup_nil

theorem csvRead_empty (d : Char) : ∃ err, csvRead d "" = Except.error err := by
  unfold csvRead
  split
  · exact ⟨_, rfl⟩
  · exact ⟨CsvError.eof, rfl⟩

theorem HasPrefix_self (p : String) : HasPrefix p p = true := by
  unfold HasPrefix
  rw [List.isPrefixOf_iff_prefix]

theorem trimPrefix_self (p : String) : trimPrefix p p = "" := by
  unfold trimPrefix
  rw [List.drop_length]

/-- The order in which the loop visits the entries of the field index does not
show in the result, the field names being pairwise distinct. -/
theorem fillFieldData_perm (entries entries' : List (String × Nat)) (fields : List String)
    (hperm : entries'.Perm entries) (hkeys : (entries.map Prod.fst).Nodup) :
    fillFieldData entries' fields GoMap.empty = fillFieldData entries fields GoMap.empty := by
  by_cases hout : ∃ name index, (name, index) ∈ entries ∧ fields.length ≤ index
  · rw [fillFieldData_none entries fields _ hout]
    obtain ⟨name, index, hmem, hle⟩ := hout
    exact fillFieldData_none entries' fields _ ⟨name, index, hperm.mem_iff.mpr hmem, hle⟩
  · have hin : ∀ name index, (name, index) ∈ entries → index < fields.length := by
      intro name index hmem
      by_contra hlt
      exact hout ⟨name, index, hmem, Nat.le_of_not_lt hlt⟩
    have hkeys' : (entries'.map Prod.fst).Nodup := (hperm.map Prod.fst).nodup_iff.mpr hkeys
    obtain ⟨m, hm, hother, hat⟩ := fillFieldData_some entries fields GoMap.empty hin
    obtain ⟨m', hm', hother', hat'⟩ := fillFieldData_some entries' fields GoMap.empty
      (fun name index hmem => hin name index (hperm.mem_iff.mp hmem))
    rw [hm, hm']
    congr 1
    funext k
    by_cases hk : k ∈ entries.map Prod.fst
    · obtain ⟨kv, hkv, hfst⟩ := List.mem_map.mp hk
      obtain ⟨name, index⟩ := kv
      simp only at hfst
      subst hfst
      rw [hat hkeys name index hkv, hat' hkeys' name index (hperm.mem_iff.mpr hkv)]
    · have hk' : k ∉ entries'.map Prod.fst := fun h => hk ((hperm.map Prod.fst).mem_iff.mp h)
      rw [hother k hk, hother' k hk']

/-- C22: `ParseFieldsFromADRoleName` returns nil when the spec is nil, when the
role name does not start with `spec.Prefix`, when the remainder after the
prefix cannot be read as one delimited record (the empty remainder included),
and when the role name has no field at the index of some field name of the
spec; in every other case it returns a map whose keys are exactly the field
names of the spec, each mapped to the field of the role name at its index,
which exists (further fields of the role name are ignored), whatever the order
in which the field index is visited. -/
theorem ParseFieldsFromADRoleName_rejects_mismatch (spec : ADRoleNameFormatSpec)
    (adRoleName : String) (hkeys : (fieldNames spec).Nodup) :
    ParseFieldsFromADRoleName none adRoleName = none ∧
    (HasPrefix adRoleName spec.Prefix = false →
      ParseFieldsFromADRoleName (some spec) adRoleName = none) ∧
    (∀ err, csvRead spec.Delimiter (trimPrefix adRoleName spec.Prefix) = Except.error err →
      ParseFieldsFromADRoleName (some spec) adRoleName = none) ∧
    ParseFieldsFromADRoleName (some spec) spec.Prefix = none ∧
    (∀ fields, HasPrefix adRoleName spec.Prefix = true →
      csvRead spec.Delimiter (trimPrefix adRoleName spec.Prefix) = Except.ok fields →
      ((∃ name index, (name, index) ∈ spec.FieldIndex ∧ fields.length ≤ index) →
        ParseFieldsFromADRoleName (some spec) adRoleName = none) ∧
      ((∀ name index, (name, index) ∈ spec.FieldIndex → index < fields.length) →
        ∃ m, ParseFieldsFromADRoleName (some spec) adRoleName = some m ∧
          (∀ k, (m k).isSome = true ↔ k ∈ fieldNames spec) ∧
          (∀ name index, (name, index) ∈ spec.FieldIndex →
            m name = fields[index]? ∧ index < fields.length) ∧
          (∀ entries, entries.Perm spec.FieldIndex →
            fillFieldData entries fields GoMap.empty = some m))) := by
  refine ⟨rfl, ?_, ?_, ?_, ?_⟩
  · intro hp
    simp [ParseFieldsFromADRoleName, hp]
  · intro err herr
    simp only [ParseFieldsFromADRoleName, herr]
    split <;> rfl
  · obtain ⟨err, herr⟩ := csvRead_empty spec.Delimiter
    simp [ParseFieldsFromADRoleName, HasPrefix_self, trimPrefix_self, herr]
  · intro fields hp hread
    have hparse : ParseFieldsFromADRoleName (some spec) adRoleName =
        fillFieldData spec.FieldIndex fields GoMap.empty := by
      simp [ParseFieldsFromADRoleName, hp, hread]
    constructor
    · intro hout
      rw [hparse]
      exact fillFieldData_none _ _ _ hout
    · intro hin
      obtain ⟨m, hm, hother, hat⟩ := fillFieldData_some spec.FieldIndex fields GoMap.empty hin
      refine ⟨m, hparse.trans hm, ?_, ?_, ?_⟩
      · intro k
        constructor
        · intro hsome
          by_contra hk
          rw [hother k hk] at hsome
          exact Bool.noConfusion hsome
        · intro hk
          obtain ⟨kv, hkv, hfst⟩ := List.mem_map.mp hk
          obtain ⟨name, index⟩ := kv
          simp only at hfst
          subst hfst
          rw [hat hkeys name index hkv]
          simp [hin name index hkv]
      · intro name index hmem
        exact ⟨hat hkeys name index hmem, hin name index hmem⟩
      · intro entries hperm
        rw [fillFieldData_perm spec.FieldIndex entries fields hperm hkeys]
        exact hm

/-- Witness of C22: with the format "r_k8s_appCode_envCode_accessLevel" the role
name "r_k8s_aaa_eee" has no field for the access level and is rejected; of the
role name "r_k8s_aaa_eee_rw_more" the field after the third is ignored. -/
theorem ParseFieldsFromADRoleName_rejects_mismatch_witness :
    NewADRoleNameFormatSpec "r_k8s_" '_' "r_k8s_appCode_envCode_accessLevel" = some exampleSpec ∧
      ParseFieldsFromADRoleName (some exampleSpec) "r_k8s_aaa_eee" = none ∧
      ∃ m, ParseFieldsFromADRoleName (some exampleSpec) "r_k8s_aaa_eee_rw_more" = some m ∧
        (∀ k, (m k).isSome = true ↔ k ∈ ["appCode", "envCode", "accessLevel"]) ∧
        m "accessLevel" = some "rw" :=
  ⟨by decide,
   ((ParseFieldsFromADRoleName_rejects_mismatch exampleSpec "r_k8s_aaa_eee" (by decide)).2.2.2.2
      ["aaa", "eee"] (by decide) (by decide)).1 ⟨"accessLevel", 2, by decide, by decide⟩,
   match ((ParseFieldsFromADRoleName_rejects_mismatch exampleSpec "r_k8s_aaa_eee_rw_more"
      (by decide)).2.2.2.2 ["aaa", "eee", "rw", "more"] (by decide) (by decide)).2
      (by
        intro name index hmem
        simp only [exampleSpec, List.mem_cons, Prod.mk.injEq, List.mem_singleton,
          List.not_mem_nil, or_false] at hmem
        rcases hmem with ⟨_, rfl⟩ | ⟨_, rfl⟩ | ⟨_, rfl⟩ <;> decide) with
   | ⟨m, hm, hkeysOf, hat, _⟩ => ⟨m, hm, hkeysOf, (hat "accessLevel" 2 (by decide)).1⟩⟩
